import Mathlib

/-!
Verification of the storage / indexing / concurrency / transaction core of the
rucbase-lab relational database engine, as a shallow embedding in Lean 4.

Each C++ component is translated into a pure Lean model:
* the record heap (`RmFileHandle` in rm_file_handle.cpp),
* the buffer pool (`BufferPoolManager` in buffer_pool_manager.cpp),
* the lock manager (blocking wait-die variant of lock_manager.cpp),
* the B+ tree (`IxIndexHandle` / `IxNodeHandle` in ix_index_handle.cpp),
* the transaction manager (`TransactionManager::abort` in transaction_manager.cpp).

Page contents are byte lists; machine ints are modelled as `Int`.  Mutation is
explicit state passing, and calls that unpin a buffer page are recorded in an
explicit unpin trace `List (Int × Bool)` (page number, dirty flag) so that the
"unpin before propagating an error" discipline is statable.
-/

namespace RucBase

/-- `RM_NO_PAGE` sentinel of the record heap free list. -/
def rmNoPage : Int := -1

/-- Record identifier `(page_no, slot_no)`, as in rm_defs.h. -/
structure Rid where
  page_no : Int
  slot_no : Int
deriving Repr, DecidableEq

/-- Heap page header: `num_records` and `next_free_page_no` (struct RmPageHdr). -/
structure RmPageHdr where
  num_records : Int
  next_free_page_no : Int
deriving Repr, DecidableEq

/-- A heap page: header, slot bitmap, and the fixed-size slots (each slot is a
byte list of length `record_size`). -/
structure RmPage where
  hdr : RmPageHdr
  bitmap : List Bool
  slots : List (List Int)
deriving Repr, DecidableEq

/-- Record heap file header (struct RmFileHdr). -/
structure RmFileHdr where
  record_size : Int
  num_records_per_page : Int
  num_pages : Int
  first_free_page_no : Int
deriving Repr, DecidableEq

/-- A record heap file: its header plus the heap pages, keyed by page number.
Page 0 holds the file header and is not in the association list. -/
structure RmFile where
  hdr : RmFileHdr
  pages : List (Int × RmPage)
deriving Repr, DecidableEq

/-- Heap error taxonomy (errors.h): `RecordNotFoundError`, `PageNotExistError`,
`InternalError`. -/
inductive RmErr where
  | recordNotFound (page_no slot_no : Int)
  | pageNotExist (page_no : Int)
  | internal (msg : String)
deriving Repr, DecidableEq

/-- `Bitmap::is_set`. -/
def bitmapIsSet (bm : List Bool) (i : Int) : Bool :=
  bm.getD i.toNat false

/-- `Bitmap::set`. -/
def bitmapSet (bm : List Bool) (i : Int) : List Bool :=
  bm.set i.toNat true

/-- `Bitmap::reset`. -/
def bitmapReset (bm : List Bool) (i : Int) : List Bool :=
  bm.set i.toNat false

/-- First clear bit of the bitmap among slots `[0, n)`, mirroring the scan loop
of `insert_record`; `none` when every slot is occupied. -/
def firstClearBit (bm : List Bool) (n : Nat) : Option Nat :=
  (List.range n).find? (fun i => !bm.getD i false)

/-- Association-list lookup of a heap page. -/
def RmFile.lookupPage (f : RmFile) (page_no : Int) : Option RmPage :=
  (f.pages.find? (fun p => p.1 == page_no)).map Prod.snd

/-- Association-list update of a heap page (no-op when the page is absent). -/
def RmFile.setPage (f : RmFile) (page_no : Int) (pg : RmPage) : RmFile :=
  { f with pages := f.pages.map (fun p => if p.1 == page_no then (p.1, pg) else p) }

/-- Slot payload at `slot_no` (`RmPageHandle::get_slot`). -/
def RmPage.getSlot (pg : RmPage) (slot_no : Int) : List Int :=
  pg.slots.getD slot_no.toNat []

/-- Overwrite the slot payload at `slot_no`. -/
def RmPage.setSlot (pg : RmPage) (slot_no : Int) (buf : List Int) : RmPage :=
  { pg with slots := pg.slots.set slot_no.toNat buf }

/-- `RmFileHandle::get_record`: range / occupancy checks, then a copy of the
payload.  The second component is the unpin trace (page number, dirty flag). -/
def RmFile.get_record (f : RmFile) (rid : Rid) :
    Except RmErr (List Int) × List (Int × Bool) :=
  if rid.page_no < 0 ∨ rid.page_no ≥ f.hdr.num_pages then
    (.error (.pageNotExist rid.page_no), [])
  else
    match f.lookupPage rid.page_no with
    | none => (.error (.internal "fetch_page failed"), [])
    | some pg =>
      if rid.slot_no < 0 ∨ rid.slot_no ≥ f.hdr.num_records_per_page ∨
          ¬ bitmapIsSet pg.bitmap rid.slot_no then
        (.error (.recordNotFound rid.page_no rid.slot_no), [(rid.page_no, false)])
      else
        (.ok (pg.getSlot rid.slot_no), [(rid.page_no, false)])

/-- `RmFileHandle::update_record`: same precondition as get, overwrites the
payload in place; the Rid does not move.  Returns the (possibly unchanged)
file, the error if any, and the unpin trace. -/
def RmFile.update_record (f : RmFile) (rid : Rid) (buf : List Int) :
    RmFile × Option RmErr × List (Int × Bool) :=
  if rid.page_no < 0 ∨ rid.page_no ≥ f.hdr.num_pages then
    (f, some (.pageNotExist rid.page_no), [])
  else
    match f.lookupPage rid.page_no with
    | none => (f, some (.internal "fetch_page failed"), [])
    | some pg =>
      if rid.slot_no < 0 ∨ rid.slot_no ≥ f.hdr.num_records_per_page ∨
          ¬ bitmapIsSet pg.bitmap rid.slot_no then
        (f, some (.recordNotFound rid.page_no rid.slot_no), [(rid.page_no, false)])
      else
        (f.setPage rid.page_no (pg.setSlot rid.slot_no buf), none, [(rid.page_no, true)])

/-- `RmFileHandle::release_page_handle`: when a page turns from full to
not-full, link it at the head of the file-header free list. -/
def RmFile.release_page_handle (f : RmFile) (page_no : Int) (pg : RmPage) :
    RmFile × List (Int × Bool) :=
  let pg' := { pg with hdr := { pg.hdr with next_free_page_no := f.hdr.first_free_page_no } }
  let f' := (f.setPage page_no pg')
  ({ f' with hdr := { f'.hdr with first_free_page_no := page_no } }, [(page_no, true)])

/-- `RmFileHandle::delete_record`: clears the slot bit, zeroes the slot,
decrements the record count; if the page just became not-full, calls
`release_page_handle`. -/
def RmFile.delete_record (f : RmFile) (rid : Rid) :
    RmFile × Option RmErr × List (Int × Bool) :=
  if rid.page_no < 0 ∨ rid.page_no ≥ f.hdr.num_pages then
    (f, some (.pageNotExist rid.page_no), [])
  else
    match f.lookupPage rid.page_no with
    | none => (f, some (.internal "fetch_page failed"), [])
    | some pg =>
      if rid.slot_no < 0 ∨ rid.slot_no ≥ f.hdr.num_records_per_page ∨
          ¬ bitmapIsSet pg.bitmap rid.slot_no then
        (f, some (.recordNotFound rid.page_no rid.slot_no), [(rid.page_no, false)])
      else
        let pg' : RmPage :=
          { hdr := { pg.hdr with num_records := pg.hdr.num_records - 1 },
            bitmap := bitmapReset pg.bitmap rid.slot_no,
            slots := pg.slots.set rid.slot_no.toNat
              (List.replicate f.hdr.record_size.toNat 0) }
        if pg'.hdr.num_records = f.hdr.num_records_per_page - 1 then
          let (f', unpins) := (f.setPage rid.page_no pg').release_page_handle rid.page_no pg'
          (f', none, unpins)
        else
          (f.setPage rid.page_no pg', none, [(rid.page_no, true)])

/-- `RmFileHandle::create_new_page_handle`: allocate a fresh heap page through
the buffer pool (page numbers are allocated sequentially, so the new page
number is `num_pages`), zero its bitmap, link it at the free-list head. -/
def RmFile.create_new_page_handle (f : RmFile) : RmFile × Int :=
  let new_page_no := f.hdr.num_pages
  let pg : RmPage :=
    { hdr := { num_records := 0, next_free_page_no := f.hdr.first_free_page_no },
      bitmap := List.replicate f.hdr.num_records_per_page.toNat false,
      slots := List.replicate f.hdr.num_records_per_page.toNat [] }
  ({ hdr := { f.hdr with first_free_page_no := new_page_no, num_pages := f.hdr.num_pages + 1 },
     pages := f.pages ++ [(new_page_no, pg)] }, new_page_no)

/-- `RmFileHandle::insert_record(buf)`: take the free-list head page (creating
a new page when the list is empty), occupy its first clear slot, and unlink the
page from the free list when it becomes full.  The unreachable case in which a
free-list page has no clear bit (the C++ would write at slot `-1`) is modelled
as an internal error. -/
def RmFile.insert_record (f : RmFile) (buf : List Int) :
    RmFile × Except RmErr Rid × List (Int × Bool) :=
  let create :=
    if f.hdr.first_free_page_no ≠ rmNoPage then
      (f, f.hdr.first_free_page_no)
    else
      f.create_new_page_handle
  let f0 := create.1
  let page_no := create.2
  match f0.lookupPage page_no with
  | none => (f, .error (.internal "fetch_page failed"), [])
  | some pg =>
    match firstClearBit pg.bitmap f0.hdr.num_records_per_page.toNat with
    | none => (f, .error (.internal "no free slot on free-list page"), [])
    | some slot =>
      let pg' : RmPage :=
        { hdr := { pg.hdr with num_records := pg.hdr.num_records + 1 },
          bitmap := bitmapSet pg.bitmap slot,
          slots := pg.slots.set slot buf }
      if pg'.hdr.num_records = f0.hdr.num_records_per_page then
        let f1 := { f0 with hdr :=
          { f0.hdr with first_free_page_no := pg'.hdr.next_free_page_no } }
        let f2 := f1.setPage page_no
          { pg' with hdr := { pg'.hdr with next_free_page_no := rmNoPage } }
        (f2, .ok ⟨page_no, (slot : Int)⟩, [(page_no, true)])
      else
        (f0.setPage page_no pg', .ok ⟨page_no, (slot : Int)⟩, [(page_no, true)])

theorem RmFile.hdr_setPage (f : RmFile) (p : Int) (pg : RmPage) :
    (f.setPage p pg).hdr = f.hdr := rfl

theorem RmFile.lookupPage_setPage_self (f : RmFile) (p : Int) (pg old : RmPage)
    (h : f.lookupPage p = some old) :
    (f.setPage p pg).lookupPage p = some pg := by
  obtain ⟨hdr, ps⟩ := f
  simp only [RmFile.lookupPage, RmFile.setPage] at *
  induction ps with
  | nil => simp at h
  | cons a l ih =>
    by_cases ha : a.1 = p
    · simp [List.find?_cons, ha]
    · have hb : (a.1 == p) = false := beq_eq_false_iff_ne.mpr ha
      simp only [List.find?_cons, hb] at h
      simp only [List.map_cons, hb, Bool.false_eq_true, if_false, List.find?_cons]
      exact ih h

/-- C7: for every Rid on an existing heap page whose slot number is out of
range or whose bitmap bit is clear, `get_record`, `update_record` and
`delete_record` raise `RecordNotFound`, leave the file unchanged, and unpin the
affected page clean before the error propagates; for every occupied in-range
Rid, `get_record` returns a copy of the stored payload. -/
theorem rm_record_not_found_and_get (f : RmFile) (pg : RmPage) (rid : Rid) (buf : List Int)
    (hpage : 0 ≤ rid.page_no ∧ rid.page_no < f.hdr.num_pages)
    (hpg : f.lookupPage rid.page_no = some pg) :
    ((rid.slot_no < 0 ∨ rid.slot_no ≥ f.hdr.num_records_per_page ∨
        ¬ bitmapIsSet pg.bitmap rid.slot_no) →
      f.get_record rid =
        (.error (.recordNotFound rid.page_no rid.slot_no), [(rid.page_no, false)]) ∧
      f.update_record rid buf =
        (f, some (.recordNotFound rid.page_no rid.slot_no), [(rid.page_no, false)]) ∧
      f.delete_record rid =
        (f, some (.recordNotFound rid.page_no rid.slot_no), [(rid.page_no, false)])) ∧
    ((0 ≤ rid.slot_no ∧ rid.slot_no < f.hdr.num_records_per_page ∧
        bitmapIsSet pg.bitmap rid.slot_no) →
      f.get_record rid = (.ok (pg.getSlot rid.slot_no), [(rid.page_no, false)])) := by
  have hrange : ¬ (rid.page_no < 0 ∨ rid.page_no ≥ f.hdr.num_pages) := by omega
  constructor
  · intro hbad
    refine ⟨?_, ?_, ?_⟩
    · simp only [RmFile.get_record, if_neg hrange, hpg, if_pos hbad]
    · simp only [RmFile.update_record, if_neg hrange, hpg, if_pos hbad]
    · simp only [RmFile.delete_record, if_neg hrange, hpg, if_pos hbad]
  · intro hgood
    have hbad : ¬ (rid.slot_no < 0 ∨ rid.slot_no ≥ f.hdr.num_records_per_page ∨
        ¬ bitmapIsSet pg.bitmap rid.slot_no) := by
      push_neg
      exact ⟨by omega, by omega, hgood.2.2⟩
    simp only [RmFile.get_record, if_neg hrange, hpg, if_neg hbad]

/-- A concrete two-slot heap page: slot 1 occupied, slot 0 free. -/
def rmWitnessPage : RmPage :=
  { hdr := { num_records := 1, next_free_page_no := -1 },
    bitmap := [false, true], slots := [[0, 0], [7, 8]] }

/-- A concrete heap file holding `rmWitnessPage` as page 1. -/
def rmWitnessFile : RmFile :=
  { hdr := { record_size := 2, num_records_per_page := 2,
             num_pages := 2, first_free_page_no := 1 },
    pages := [(1, rmWitnessPage)] }

/-- Closed instance of `rm_record_not_found_and_get` at `rmWitnessFile` and the
out-of-range slot 3. -/
theorem rm_record_not_found_and_get_witness :
    (((3 : Int) < 0 ∨ (3 : Int) ≥ rmWitnessFile.hdr.num_records_per_page ∨
        ¬ bitmapIsSet rmWitnessPage.bitmap 3) →
      rmWitnessFile.get_record ⟨1, 3⟩ =
        (.error (.recordNotFound 1 3), [(1, false)]) ∧
      rmWitnessFile.update_record ⟨1, 3⟩ [9, 9] =
        (rmWitnessFile, some (.recordNotFound 1 3), [(1, false)]) ∧
      rmWitnessFile.delete_record ⟨1, 3⟩ =
        (rmWitnessFile, some (.recordNotFound 1 3), [(1, false)])) ∧
    ((0 ≤ (3 : Int) ∧ (3 : Int) < rmWitnessFile.hdr.num_records_per_page ∧
        bitmapIsSet rmWitnessPage.bitmap 3) →
      rmWitnessFile.get_record ⟨1, 3⟩ =
        (.ok (rmWitnessPage.getSlot 3), [(1, false)])) :=
  rm_record_not_found_and_get rmWitnessFile rmWitnessPage ⟨1, 3⟩ [9, 9]
    (by decide) (by decide)

/-- C8: for every occupied in-range Rid, `delete_record` clears the slot's
bitmap bit, zeroes the slot to `record_size` bytes, decrements the page's
record count, and links the page at the head of the file-header free list
(page's `next_free_page_no` := old head, header's `first_free_page_no` := this
page) exactly when the deletion took the page from full to not-full. -/
theorem rm_delete_record_effect (f : RmFile) (pg : RmPage) (rid : Rid)
    (hpage : 0 ≤ rid.page_no ∧ rid.page_no < f.hdr.num_pages)
    (hpg : f.lookupPage rid.page_no = some pg)
    (hslot : 0 ≤ rid.slot_no ∧ rid.slot_no < f.hdr.num_records_per_page)
    (hset : bitmapIsSet pg.bitmap rid.slot_no) :
    ∃ pg', (f.delete_record rid).1.lookupPage rid.page_no = some pg' ∧
      (f.delete_record rid).2.1 = none ∧
      pg'.bitmap = bitmapReset pg.bitmap rid.slot_no ∧
      pg'.slots = pg.slots.set rid.slot_no.toNat (List.replicate f.hdr.record_size.toNat 0) ∧
      pg'.hdr.num_records = pg.hdr.num_records - 1 ∧
      (pg.hdr.num_records = f.hdr.num_records_per_page →
        (f.delete_record rid).1.hdr.first_free_page_no = rid.page_no ∧
        pg'.hdr.next_free_page_no = f.hdr.first_free_page_no) ∧
      (pg.hdr.num_records ≠ f.hdr.num_records_per_page →
        (f.delete_record rid).1.hdr.first_free_page_no = f.hdr.first_free_page_no ∧
        pg'.hdr.next_free_page_no = pg.hdr.next_free_page_no) := by
  have hrange : ¬ (rid.page_no < 0 ∨ rid.page_no ≥ f.hdr.num_pages) := by omega
  have hbad : ¬ (rid.slot_no < 0 ∨ rid.slot_no ≥ f.hdr.num_records_per_page ∨
      ¬ bitmapIsSet pg.bitmap rid.slot_no) := by
    push_neg
    exact ⟨by omega, by omega, hset⟩
  by_cases hfull : pg.hdr.num_records = f.hdr.num_records_per_page
  · refine ⟨{ hdr := { num_records := pg.hdr.num_records - 1,
                       next_free_page_no := f.hdr.first_free_page_no },
              bitmap := bitmapReset pg.bitmap rid.slot_no,
              slots := pg.slots.set rid.slot_no.toNat
                (List.replicate f.hdr.record_size.toNat 0) }, ?_, ?_, rfl, rfl, rfl, ?_, ?_⟩
    · simp only [RmFile.delete_record, if_neg hrange, hpg, if_neg hbad,
        if_pos (show pg.hdr.num_records - 1 = f.hdr.num_records_per_page - 1 by omega),
        RmFile.release_page_handle]
      exact RmFile.lookupPage_setPage_self _ _ _ _
        (RmFile.lookupPage_setPage_self _ _ _ _ hpg)
    · simp only [RmFile.delete_record, if_neg hrange, hpg, if_neg hbad,
        if_pos (show pg.hdr.num_records - 1 = f.hdr.num_records_per_page - 1 by omega),
        RmFile.release_page_handle]
    · intro _
      simp only [RmFile.delete_record, if_neg hrange, hpg, if_neg hbad,
        if_pos (show pg.hdr.num_records - 1 = f.hdr.num_records_per_page - 1 by omega),
        RmFile.release_page_handle]
      simp [RmFile.setPage]
    · intro hc
      exact absurd hfull hc
  · refine ⟨{ hdr := { num_records := pg.hdr.num_records - 1,
                       next_free_page_no := pg.hdr.next_free_page_no },
              bitmap := bitmapReset pg.bitmap rid.slot_no,
              slots := pg.slots.set rid.slot_no.toNat
                (List.replicate f.hdr.record_size.toNat 0) }, ?_, ?_, rfl, rfl, rfl, ?_, ?_⟩
    · simp only [RmFile.delete_record, if_neg hrange, hpg, if_neg hbad,
        if_neg (show ¬ (pg.hdr.num_records - 1 = f.hdr.num_records_per_page - 1) by omega)]
      exact RmFile.lookupPage_setPage_self _ _ _ _ hpg
    · simp only [RmFile.delete_record, if_neg hrange, hpg, if_neg hbad,
        if_neg (show ¬ (pg.hdr.num_records - 1 = f.hdr.num_records_per_page - 1) by omega)]
    · intro hc
      exact absurd hc hfull
    · intro _
      simp only [RmFile.delete_record, if_neg hrange, hpg, if_neg hbad,
        if_neg (show ¬ (pg.hdr.num_records - 1 = f.hdr.num_records_per_page - 1) by omega)]
      simp [RmFile.setPage]

/-- A concrete full heap page (both slots occupied). -/
def rmFullPage : RmPage :=
  { hdr := { num_records := 2, next_free_page_no := -1 },
    bitmap := [true, true], slots := [[1, 2], [3, 4]] }

/-- A concrete heap file holding the full page `rmFullPage` as page 1. -/
def rmFullFile : RmFile :=
  { hdr := { record_size := 2, num_records_per_page := 2,
             num_pages := 2, first_free_page_no := -1 },
    pages := [(1, rmFullPage)] }

/-- Closed instance of `rm_delete_record_effect`: deleting from the full page
of `rmFullFile`. -/
theorem rm_delete_record_effect_witness :
    ∃ pg', (rmFullFile.delete_record ⟨1, 0⟩).1.lookupPage 1 = some pg' ∧
      (rmFullFile.delete_record ⟨1, 0⟩).2.1 = none ∧
      pg'.bitmap = bitmapReset rmFullPage.bitmap 0 ∧
      pg'.slots = rmFullPage.slots.set (0 : Int).toNat
        (List.replicate rmFullFile.hdr.record_size.toNat 0) ∧
      pg'.hdr.num_records = rmFullPage.hdr.num_records - 1 ∧
      (rmFullPage.hdr.num_records = rmFullFile.hdr.num_records_per_page →
        (rmFullFile.delete_record ⟨1, 0⟩).1.hdr.first_free_page_no = 1 ∧
        pg'.hdr.next_free_page_no = rmFullFile.hdr.first_free_page_no) ∧
      (rmFullPage.hdr.num_records ≠ rmFullFile.hdr.num_records_per_page →
        (rmFullFile.delete_record ⟨1, 0⟩).1.hdr.first_free_page_no =
          rmFullFile.hdr.first_free_page_no ∧
        pg'.hdr.next_free_page_no = rmFullPage.hdr.next_free_page_no) :=
  rm_delete_record_effect rmFullFile rmFullPage ⟨1, 0⟩
    (by decide) (by decide) (by decide) (by decide)

/-! ## Buffer pool (`BufferPoolManager`, buffer_pool_manager.cpp)

Frames hold pages; a page table maps `PageId` to a frame index; a free list
holds unassigned frames; the replacer tracks evictable frames.  The disk store
is modelled with page contents plus the per-fd monotone page allocator
(`DiskManager::allocate_page` / `fd2pageno_`). -/

/-- `INVALID_PAGE_ID` sentinel. -/
def invalidPageId : Int := -1

/-- `PageId`: `(fd, page_no)`. -/
structure PageIdM where
  fd : Int
  page_no : Int
deriving Repr, DecidableEq

/-- A buffer frame (`Page` object): current page id, its data bytes, dirty
flag, pin count. -/
structure Frame where
  id : PageIdM
  data : List Int
  is_dirty : Bool
  pin_count : Int
deriving Repr, DecidableEq

instance : Inhabited Frame := ⟨⟨⟨0, invalidPageId⟩, [], false, 0⟩⟩

/-- The disk store: page contents keyed by `PageId`, plus the per-fd atomic
page-number counters `fd2pageno_` (default 0). -/
structure DiskStore where
  store : List (PageIdM × List Int)
  fd2pageno : List (Int × Int)
deriving Repr, DecidableEq

/-- `DiskManager::read_page`. -/
def DiskStore.read_page (d : DiskStore) (pid : PageIdM) : List Int :=
  ((d.store.find? (fun q => q.1 == pid)).map Prod.snd).getD []

/-- `DiskManager::write_page`. -/
def DiskStore.write_page (d : DiskStore) (pid : PageIdM) (buf : List Int) : DiskStore :=
  if (d.store.find? (fun q => q.1 == pid)).isSome then
    { d with store := d.store.map (fun q => if q.1 == pid then (q.1, buf) else q) }
  else
    { d with store := d.store ++ [(pid, buf)] }

/-- Current allocation counter for `fd` (`get_fd2pageno`). -/
def DiskStore.get_counter (d : DiskStore) (fd : Int) : Int :=
  ((d.fd2pageno.find? (fun q => q.1 == fd)).map Prod.snd).getD 0

/-- `DiskManager::allocate_page`: fetch-and-increment of the fd's counter. -/
def DiskStore.allocate_page (d : DiskStore) (fd : Int) : DiskStore × Int :=
  ({ d with fd2pageno :=
      if (d.fd2pageno.find? (fun q => q.1 == fd)).isSome then
        d.fd2pageno.map (fun q => if q.1 == fd then (q.1, d.get_counter fd + 1) else q)
      else
        d.fd2pageno ++ [(fd, d.get_counter fd + 1)] },
   d.get_counter fd)

/-- `PAGE_SIZE` (config.h). -/
def pageSize : Nat := 4096

/-- Modelled from the spec (§4.3): the LRU replacer implementation is not
among the provided sources, only its abstract interface (replacer.h).  The
evictable set is an LRU queue; `victim` removes and returns the
least-recently-used frame, `pin` removes a frame, `unpin` appends a frame if
absent. -/
def Replacer.victim (r : List Nat) : Option (Nat × List Nat) :=
  match r with
  | [] => none
  | fid :: rest => some (fid, rest)

/-- Modelled from the spec (§4.3): `Replacer::pin` removes the frame from the
evictable set. -/
def Replacer.pin (r : List Nat) (fid : Nat) : List Nat :=
  r.filter (fun x => x ≠ fid)

/-- Modelled from the spec (§4.3): `Replacer::unpin` adds the frame to the
evictable set, idempotent on membership. -/
def Replacer.unpin (r : List Nat) (fid : Nat) : List Nat :=
  if fid ∈ r then r else r ++ [fid]

/-- Buffer pool state. -/
structure BufState where
  frames : List Frame
  page_table : List (PageIdM × Nat)
  free_list : List Nat
  replacer : List Nat
  disk : DiskStore
deriving Repr, DecidableEq

/-- Page-table lookup. -/
def BufState.lookupPT (s : BufState) (pid : PageIdM) : Option Nat :=
  (s.page_table.find? (fun q => q.1 == pid)).map Prod.snd

/-- Page-table erase. -/
def erasePT (t : List (PageIdM × Nat)) (pid : PageIdM) : List (PageIdM × Nat) :=
  t.filter (fun q => q.1 ≠ pid)

/-- Page-table assignment `page_table_[pid] = fid`. -/
def insertPT (t : List (PageIdM × Nat)) (pid : PageIdM) (fid : Nat) :
    List (PageIdM × Nat) :=
  if (t.find? (fun q => q.1 == pid)).isSome then
    t.map (fun q => if q.1 == pid then (pid, fid) else q)
  else
    t ++ [(pid, fid)]

/-- Frame read (out-of-range reads give the default frame; all reachable
accesses are in range). -/
def BufState.getFrame (s : BufState) (fid : Nat) : Frame :=
  s.frames.getD fid default

/-- Frame write. -/
def BufState.setFrame (s : BufState) (fid : Nat) (fr : Frame) : BufState :=
  { s with frames := s.frames.set fid fr }

/-- `BufferPoolManager::find_victim_page`: free list first, then the
replacer. -/
def BufState.find_victim_page (s : BufState) : Option (Nat × BufState) :=
  match s.free_list with
  | fid :: rest => some (fid, { s with free_list := rest })
  | [] =>
    match Replacer.victim s.replacer with
    | some (fid, r') => some (fid, { s with replacer := r' })
    | none => none

/-- `BufferPoolManager::fetch_page`: pin when resident; otherwise evict a
victim (writing it back when dirty and erasing its mapping), read the page
from disk, install the mapping with `pin_count = 1`. -/
def BufState.fetch_page (s : BufState) (pid : PageIdM) : BufState × Option Nat :=
  match s.lookupPT pid with
  | some fid =>
    let fr := s.getFrame fid
    let s1 := s.setFrame fid { fr with pin_count := fr.pin_count + 1 }
    ({ s1 with replacer := Replacer.pin s1.replacer fid }, some fid)
  | none =>
    match s.find_victim_page with
    | none => (s, none)
    | some (fid, s1) =>
      let victim := s1.getFrame fid
      let s2 :=
        if victim.id.page_no ≠ invalidPageId then
          let s2a :=
            if victim.is_dirty then
              { s1 with disk := s1.disk.write_page victim.id victim.data }
            else s1
          { s2a with page_table := erasePT s2a.page_table victim.id }
        else s1
      let fr' : Frame :=
        { id := pid, data := s2.disk.read_page pid, is_dirty := false, pin_count := 1 }
      let s3 := s2.setFrame fid fr'
      let s4 := { s3 with page_table := insertPT s3.page_table pid fid }
      ({ s4 with replacer := Replacer.pin s4.replacer fid }, some fid)

/-- `BufferPoolManager::unpin_page`: decrement the pin count; set (never
clear) the dirty flag; notify the replacer when the count reaches zero. -/
def BufState.unpin_page (s : BufState) (pid : PageIdM) (is_dirty : Bool) :
    BufState × Bool :=
  match s.lookupPT pid with
  | none => (s, false)
  | some fid =>
    let fr := s.getFrame fid
    if fr.pin_count ≤ 0 then (s, false)
    else
      let fr1 : Frame :=
        { fr with pin_count := fr.pin_count - 1, is_dirty := fr.is_dirty || is_dirty }
      let s1 := s.setFrame fid fr1
      if fr1.pin_count = 0 then
        ({ s1 with replacer := Replacer.unpin s1.replacer fid }, true)
      else (s1, true)

/-- `BufferPoolManager::flush_page`: unconditional write-back; clears the
dirty flag. -/
def BufState.flush_page (s : BufState) (pid : PageIdM) : BufState × Bool :=
  match s.lookupPT pid with
  | none => (s, false)
  | some fid =>
    let fr := s.getFrame fid
    let s1 := { s with disk := s.disk.write_page pid fr.data }
    (s1.setFrame fid { fr with is_dirty := false }, true)

/-- `BufferPoolManager::new_page`: evict a victim (write-back when dirty),
allocate a fresh page number for `fd` from the disk store, install the zeroed
page pinned once. -/
def BufState.new_page (s : BufState) (fd : Int) : BufState × Option (PageIdM × Nat) :=
  match s.find_victim_page with
  | none => (s, none)
  | some (fid, s1) =>
    let victim := s1.getFrame fid
    let s2 :=
      if victim.id.page_no ≠ invalidPageId then
        let s2a :=
          if victim.is_dirty then
            { s1 with disk := s1.disk.write_page victim.id victim.data }
          else s1
        { s2a with page_table := erasePT s2a.page_table victim.id }
      else s1
    let alloc := s2.disk.allocate_page fd
    let new_pid : PageIdM := ⟨fd, alloc.2⟩
    let fr' : Frame :=
      { id := new_pid, data := List.replicate pageSize 0, is_dirty := false, pin_count := 1 }
    let s3 := { s2 with disk := alloc.1 }
    let s4 := s3.setFrame fid fr'
    let s5 := { s4 with page_table := insertPT s4.page_table new_pid fid }
    ({ s5 with replacer := Replacer.pin s5.replacer fid }, some (new_pid, fid))

/-- `BufferPoolManager::delete_page`: drop an unpinned resident page (writing
it back when dirty), reset the frame, and return it to the free list. -/
def BufState.delete_page (s : BufState) (pid : PageIdM) : BufState × Bool :=
  match s.lookupPT pid with
  | none => (s, true)
  | some fid =>
    let fr := s.getFrame fid
    if fr.pin_count > 0 then (s, false)
    else
      let s1 :=
        if fr.is_dirty then { s with disk := s.disk.write_page fr.id fr.data } else s
      let s2 := { s1 with page_table := erasePT s1.page_table fr.id }
      let fr' : Frame :=
        { id := { fr.id with page_no := invalidPageId },
          data := List.replicate pageSize 0, is_dirty := false, pin_count := 0 }
      let s3 := s2.setFrame fid fr'
      let s4 := { s3 with replacer := Replacer.pin s3.replacer fid }
      ({ s4 with free_list := s4.free_list ++ [fid] }, true)

theorem BufState.getFrame_setFrame_self (s : BufState) (fid : Nat) (fr : Frame)
    (h : fid < s.frames.length) : (s.setFrame fid fr).getFrame fid = fr := by
  simp [BufState.getFrame, BufState.setFrame, List.getD, List.getElem?_set_self', h]

theorem BufState.getFrame_setFrame_ne (s : BufState) (fid fid' : Nat) (fr : Frame)
    (h : fid ≠ fid') : (s.setFrame fid fr).getFrame fid' = s.getFrame fid' := by
  simp [BufState.getFrame, BufState.setFrame, List.getD, List.getElem?_set_ne h]

theorem BufState.pin_pos_in_range (s : BufState) (fid : Nat)
    (hpin : 0 < (s.getFrame fid).pin_count) : fid < s.frames.length := by
  by_contra h
  rw [BufState.getFrame, List.getD_eq_default _ _ (by omega)] at hpin
  simp [default] at hpin

/-- C10: for a resident page with a positive pin count, `unpin_page` with
`is_dirty = false` decrements the pin count and leaves the frame's dirty flag
unchanged; for any `is_dirty` argument the flag is only ever or-ed in (set,
never cleared). -/
theorem buf_unpin_page_dirty_flag (s : BufState) (pid : PageIdM) (fid : Nat)
    (hpt : s.lookupPT pid = some fid)
    (hpin : 0 < (s.getFrame fid).pin_count) :
    (s.unpin_page pid false).2 = true ∧
    ((s.unpin_page pid false).1.getFrame fid).is_dirty = (s.getFrame fid).is_dirty ∧
    ((s.unpin_page pid false).1.getFrame fid).pin_count =
      (s.getFrame fid).pin_count - 1 ∧
    (∀ d : Bool, ((s.unpin_page pid d).1.getFrame fid).is_dirty =
      ((s.getFrame fid).is_dirty || d)) := by
  have hlen : fid < s.frames.length := s.pin_pos_in_range fid hpin
  have key : ∀ d : Bool, (s.unpin_page pid d).2 = true ∧
      ((s.unpin_page pid d).1.getFrame fid).is_dirty =
        ((s.getFrame fid).is_dirty || d) ∧
      ((s.unpin_page pid d).1.getFrame fid).pin_count =
        (s.getFrame fid).pin_count - 1 := by
    intro d
    simp only [BufState.unpin_page, hpt,
      if_neg (by omega : ¬ (s.getFrame fid).pin_count ≤ 0)]
    by_cases hz : (s.getFrame fid).pin_count - 1 = 0
    all_goals
      simp only [BufState.getFrame, List.getD, List.get?_eq_getElem?,
        List.getElem?_eq_getElem hlen, Option.getD_some] at hz
    all_goals
      simp [hz, BufState.getFrame, BufState.setFrame, List.getD,
        List.getElem?_set_self', hlen]
  refine ⟨(key false).1, ?_, (key false).2.2, fun d => (key d).2.1⟩
  rw [(key false).2.1, Bool.or_false]

/-- A concrete two-frame buffer pool state with page (3, 5) resident in frame
0, pinned once and dirty. -/
def bufWitnessState : BufState :=
  { frames := [⟨⟨3, 5⟩, [1, 2], true, 1⟩, ⟨⟨0, invalidPageId⟩, [], false, 0⟩],
    page_table := [(⟨3, 5⟩, 0)],
    free_list := [1],
    replacer := [],
    disk := { store := [(⟨3, 5⟩, [1, 2])], fd2pageno := [(3, 6)] } }

/-- Closed instance of `buf_unpin_page_dirty_flag` at `bufWitnessState`. -/
theorem buf_unpin_page_dirty_flag_witness :
    (bufWitnessState.unpin_page ⟨3, 5⟩ false).2 = true ∧
    ((bufWitnessState.unpin_page ⟨3, 5⟩ false).1.getFrame 0).is_dirty =
      (bufWitnessState.getFrame 0).is_dirty ∧
    ((bufWitnessState.unpin_page ⟨3, 5⟩ false).1.getFrame 0).pin_count =
      (bufWitnessState.getFrame 0).pin_count - 1 ∧
    (∀ d : Bool, ((bufWitnessState.unpin_page ⟨3, 5⟩ d).1.getFrame 0).is_dirty =
      ((bufWitnessState.getFrame 0).is_dirty || d)) :=
  buf_unpin_page_dirty_flag bufWitnessState ⟨3, 5⟩ 0 (by decide) (by decide)

/-! ### Association-list helpers for the page table and the disk store -/

theorem mem_of_find?_eq_some {α β : Type} [DecidableEq α] (l : List (α × β)) (k : α)
    (e : α × β) (h : l.find? (fun q => q.1 == k) = some e) : e ∈ l ∧ e.1 = k := by
  induction l with
  | nil => simp at h
  | cons a t ih =>
    by_cases ha : a.1 = k
    · rw [List.find?_cons_of_pos _ (by simp [ha])] at h
      injection h with h2
      subst h2
      exact ⟨by simp, ha⟩
    · rw [List.find?_cons_of_neg _ (by simp [ha])] at h
      exact ⟨List.mem_cons_of_mem a (ih h).1, (ih h).2⟩

theorem not_mem_of_find?_eq_none {α β : Type} [DecidableEq α] (l : List (α × β)) (k : α)
    (h : l.find? (fun q => q.1 == k) = none) : ∀ v, (k, v) ∉ l := by
  intro v hv
  have := List.find?_eq_none.mp h _ hv
  simp at this

theorem keys_nodup_unique {α β : Type} (l : List (α × β)) (k : α) (v1 v2 : β)
    (hnd : (l.map Prod.fst).Nodup) (h1 : (k, v1) ∈ l) (h2 : (k, v2) ∈ l) : v1 = v2 := by
  induction l with
  | nil => simp at h1
  | cons a t ih =>
    rw [List.map_cons, List.nodup_cons] at hnd
    rcases List.mem_cons.mp h1 with h1a | h1t <;>
      rcases List.mem_cons.mp h2 with h2a | h2t
    · exact congrArg Prod.snd (h1a.trans h2a.symm)
    · exfalso
      exact hnd.1 (List.mem_map.mpr ⟨(k, v2), h2t, by rw [← h1a]⟩)
    · exfalso
      exact hnd.1 (List.mem_map.mpr ⟨(k, v1), h1t, by rw [← h2a]⟩)
    · exact ih hnd.2 h1t h2t

theorem mem_erasePT {t : List (PageIdM × Nat)} {pid : PageIdM} {e : PageIdM × Nat} :
    e ∈ erasePT t pid ↔ e ∈ t ∧ e.1 ≠ pid := by
  simp [erasePT, List.mem_filter]

theorem erasePT_sublist (t : List (PageIdM × Nat)) (pid : PageIdM) :
    (erasePT t pid).Sublist t := List.filter_sublist t

theorem insertPT_of_not_found (t : List (PageIdM × Nat)) (pid : PageIdM) (fid : Nat)
    (h : t.find? (fun q => q.1 == pid) = none) :
    insertPT t pid fid = t ++ [(pid, fid)] := by
  simp [insertPT, h]

theorem assoc_overwrite_find_self {α β : Type} [DecidableEq α] (l : List (α × β))
    (k : α) (v : β) (h : (l.find? (fun q => q.1 == k)).isSome) :
    ((l.map (fun q => if q.1 == k then (q.1, v) else q)).find?
      (fun q => q.1 == k)).map Prod.snd = some v := by
  induction l with
  | nil => simp at h
  | cons a t ih =>
    by_cases ha : a.1 = k
    · simp [List.find?_cons, ha]
    · have hb : (a.1 == k) = false := beq_eq_false_iff_ne.mpr ha
      rw [List.find?_cons_of_neg _ (by simp [ha])] at h
      simp only [List.map_cons, hb, Bool.false_eq_true, if_false, List.find?_cons]
      simpa [hb] using ih h

theorem assoc_overwrite_find_other {α β : Type} [DecidableEq α] (l : List (α × β))
    (k k' : α) (v : β) (hkk : k' ≠ k) :
    (l.map (fun q => if q.1 == k then (q.1, v) else q)).find? (fun q => q.1 == k')
      = l.find? (fun q => q.1 == k') := by
  induction l with
  | nil => simp
  | cons a t ih =>
    by_cases ha : a.1 = k
    · have hb : (a.1 == k') = false := beq_eq_false_iff_ne.mpr (by rw [ha]; exact hkk.symm)
      simp only [List.map_cons, if_pos (by simp [ha] : (a.1 == k) = true), List.find?_cons]
      simp only [show ∀ b : β, ((a.1, b) : α × β).1 = a.1 from fun _ => rfl, hb,
        Bool.false_eq_true, if_false]
      exact ih
    · by_cases ha' : a.1 = k'
      · have hbk : (a.1 == k) = false := beq_eq_false_iff_ne.mpr ha
        have ht : (a.1 == k') = true := by simp [ha']
        simp only [List.map_cons, hbk, Bool.false_eq_true, if_false, List.find?_cons, ht]
      · have hb : (a.1 == k') = false := beq_eq_false_iff_ne.mpr ha'
        have hbk : (a.1 == k) = false := beq_eq_false_iff_ne.mpr ha
        simp only [List.map_cons, hbk, Bool.false_eq_true, if_false, List.find?_cons, hb]
        exact ih

theorem find?_append_of_none {α : Type} (l l2 : List α) (p : α → Bool)
    (h : l.find? p = none) : (l ++ l2).find? p = l2.find? p := by
  induction l with
  | nil => simp
  | cons a t ih =>
    rw [List.find?_cons] at h
    rcases hpa : p a with _ | _
    · rw [hpa] at h
      simp only [List.cons_append, List.find?_cons, hpa]
      exact ih h
    · rw [hpa] at h
      simp at h

theorem DiskStore.get_counter_write_page (d : DiskStore) (pid : PageIdM) (buf : List Int)
    (fd : Int) : (d.write_page pid buf).get_counter fd = d.get_counter fd := by
  unfold DiskStore.write_page DiskStore.get_counter
  split <;> rfl

theorem DiskStore.fd2pageno_write_page (d : DiskStore) (pid : PageIdM) (buf : List Int) :
    (d.write_page pid buf).fd2pageno = d.fd2pageno := by
  unfold DiskStore.write_page
  split <;> rfl

theorem DiskStore.read_page_write_page_self (d : DiskStore) (pid : PageIdM)
    (buf : List Int) : (d.write_page pid buf).read_page pid = buf := by
  by_cases h : (d.store.find? (fun q => q.1 == pid)).isSome
  · have h2 := assoc_overwrite_find_self d.store pid buf h
    unfold DiskStore.write_page DiskStore.read_page
    rw [if_pos h]
    show (((d.store.map fun q => if q.1 == pid then (q.1, buf) else q).find?
      (fun q => q.1 == pid)).map Prod.snd).getD [] = buf
    rw [h2]
    rfl
  · have hn : d.store.find? (fun q => q.1 == pid) = none :=
      Option.not_isSome_iff_eq_none.mp h
    unfold DiskStore.write_page DiskStore.read_page
    rw [if_neg h]
    show (((d.store ++ [(pid, buf)]).find? (fun q => q.1 == pid)).map Prod.snd).getD []
      = buf
    rw [find?_append_of_none _ _ _ hn]
    simp [List.find?_cons]

theorem DiskStore.get_counter_allocate_self (d : DiskStore) (fd : Int) :
    (d.allocate_page fd).1.get_counter fd = d.get_counter fd + 1 := by
  show (((if (d.fd2pageno.find? (fun q => q.1 == fd)).isSome then
      d.fd2pageno.map (fun q => if q.1 == fd then (q.1, d.get_counter fd + 1) else q)
    else d.fd2pageno ++ [(fd, d.get_counter fd + 1)]).find?
      (fun q => q.1 == fd)).map Prod.snd).getD 0 = d.get_counter fd + 1
  by_cases h : (d.fd2pageno.find? (fun q => q.1 == fd)).isSome
  · rw [if_pos h, assoc_overwrite_find_self d.fd2pageno fd (d.get_counter fd + 1) h]
    rfl
  · have hn : d.fd2pageno.find? (fun q => q.1 == fd) = none :=
      Option.not_isSome_iff_eq_none.mp h
    rw [if_neg h, find?_append_of_none _ _ _ hn]
    simp [List.find?_cons]

theorem DiskStore.get_counter_allocate_mono (d : DiskStore) (fd fd' : Int) :
    d.get_counter fd' ≤ (d.allocate_page fd).1.get_counter fd' := by
  by_cases hfd : fd' = fd
  · subst hfd
    rw [DiskStore.get_counter_allocate_self]
    omega
  · have key : (d.allocate_page fd).1.get_counter fd' = d.get_counter fd' := by
      show (((if (d.fd2pageno.find? (fun q => q.1 == fd)).isSome then
          d.fd2pageno.map (fun q => if q.1 == fd then (q.1, d.get_counter fd + 1) else q)
        else d.fd2pageno ++ [(fd, d.get_counter fd + 1)]).find?
          (fun q => q.1 == fd')).map Prod.snd).getD 0 = d.get_counter fd'
      by_cases h : (d.fd2pageno.find? (fun q => q.1 == fd)).isSome
      · rw [if_pos h, assoc_overwrite_find_other d.fd2pageno fd fd'
          (d.get_counter fd + 1) hfd]
        rfl
      · have hn : d.fd2pageno.find? (fun q => q.1 == fd) = none :=
          Option.not_isSome_iff_eq_none.mp h
        have hn' : (([((fd : Int), d.get_counter fd + 1)] :
            List (Int × Int)).find? (fun q => q.1 == fd')) = none := by
          simp [List.find?_cons, beq_eq_false_iff_ne.mpr (Ne.symm hfd)]
        rw [if_neg h, List.find?_append, hn', Option.or_none]
        rfl
    omega

/-- The public operations of the buffer pool. -/
inductive BufOp where
  | fetch (pid : PageIdM)
  | newp (fd : Int)
  | unpin (pid : PageIdM) (d : Bool)
  | flush (pid : PageIdM)
  | delete (pid : PageIdM)
deriving Repr, DecidableEq

/-- State effect of one buffer pool call. -/
def BufState.applyOp (s : BufState) : BufOp → BufState
  | .fetch pid => (s.fetch_page pid).1
  | .newp fd => (s.new_page fd).1
  | .unpin pid d => (s.unpin_page pid d).1
  | .flush pid => (s.flush_page pid).1
  | .delete pid => (s.delete_page pid).1

/-- State effect of a call sequence. -/
def BufState.applyOps (s : BufState) (ops : List BufOp) : BufState :=
  ops.foldl BufState.applyOp s

/-- A call is valid when it does not fetch a page id that was never allocated
(`INVALID_PAGE_ID` or beyond the fd's allocation counter): callers only fetch
pages previously produced by `allocate_page`. -/
def BufState.opValidB (s : BufState) : BufOp → Bool
  | .fetch pid =>
    decide (0 ≤ pid.page_no) && decide (pid.page_no < s.disk.get_counter pid.fd)
  | _ => true

/-- Validity of a call sequence, each call checked in the state it runs in. -/
def BufState.opsValidB (s : BufState) : List BufOp → Bool
  | [] => true
  | op :: rest => s.opValidB op && (s.applyOp op).opsValidB rest

/-- The buffer pool invariant: the page table is a bijection between resident
page ids and the frames that hold them (so a page resides in at most one
frame), resident ids are allocated and valid, free-list frames are empty,
and the replacer tracks only non-free frames. -/
def BufInv (s : BufState) : Prop :=
  (s.page_table.map Prod.fst).Nodup ∧
  (s.page_table.map Prod.snd).Nodup ∧
  (∀ e ∈ s.page_table, e.2 < s.frames.length ∧ (s.getFrame e.2).id = e.1 ∧
      0 ≤ e.1.page_no ∧ e.1.page_no < s.disk.get_counter e.1.fd) ∧
  (∀ fid, fid < s.frames.length → ((s.getFrame fid).id.page_no = invalidPageId ∨
      ((s.getFrame fid).id, fid) ∈ s.page_table)) ∧
  (∀ fid ∈ s.free_list, fid < s.frames.length ∧
      (s.getFrame fid).id.page_no = invalidPageId) ∧
  s.free_list.Nodup ∧
  (∀ fid ∈ s.replacer, fid < s.frames.length ∧ fid ∉ s.free_list) ∧
  s.replacer.Nodup ∧
  (∀ e ∈ s.disk.fd2pageno, 0 ≤ e.2)

theorem BufState.lookupPT_mem (s : BufState) (pid : PageIdM) (fid : Nat)
    (h : s.lookupPT pid = some fid) : (pid, fid) ∈ s.page_table := by
  unfold BufState.lookupPT at h
  cases hf : s.page_table.find? (fun q => q.1 == pid) with
  | none => rw [hf] at h; simp at h
  | some e =>
    rw [hf] at h
    obtain ⟨e1, e2⟩ := e
    obtain ⟨hmem, hkey⟩ := mem_of_find?_eq_some _ _ _ hf
    simp only [Option.map_some'] at h
    injection h with h2
    simp only at hkey h2
    rw [← hkey, ← h2]
    exact hmem

theorem BufState.lookupPT_not_mem (s : BufState) (pid : PageIdM)
    (h : s.lookupPT pid = none) : ∀ v, (pid, v) ∉ s.page_table := by
  unfold BufState.lookupPT at h
  rw [Option.map_eq_none'] at h
  exact not_mem_of_find?_eq_none _ _ h

theorem BufState.lookupPT_none_of_keys (s : BufState) (pid : PageIdM)
    (h : ∀ e ∈ s.page_table, e.1 ≠ pid) : s.lookupPT pid = none := by
  unfold BufState.lookupPT
  rw [List.find?_eq_none.mpr]
  · rfl
  · intro e he
    simpa using h e he

theorem find_victim_cases (s : BufState) (fid : Nat) (s1 : BufState)
    (h : s.find_victim_page = some (fid, s1)) :
    (∃ rest, s.free_list = fid :: rest ∧ s1 = { s with free_list := rest }) ∨
    (s.free_list = [] ∧
      ∃ rest, s.replacer = fid :: rest ∧ s1 = { s with replacer := rest }) := by
  unfold BufState.find_victim_page at h
  cases hfl : s.free_list with
  | cons a t =>
    rw [hfl] at h
    simp only at h
    injection h with h2
    injection h2 with ha hb
    exact Or.inl ⟨t, by rw [ha], hb.symm⟩
  | nil =>
    rw [hfl] at h
    cases hrp : s.replacer with
    | nil =>
      rw [hrp] at h
      simp [Replacer.victim] at h
    | cons r rt =>
      rw [hrp] at h
      simp only [Replacer.victim] at h
      injection h with h2
      injection h2 with ha hb
      exact Or.inr ⟨rfl, rt, by rw [ha], hb.symm⟩

theorem getD_set_self {α : Type} [Inhabited α] (l : List α) (i : Nat) (a : α)
    (h : i < l.length) : (l.set i a).getD i default = a := by
  simp [List.getD, List.getElem?_set_self', h]

theorem getD_set_ne {α : Type} [Inhabited α] (l : List α) (i j : Nat) (a : α)
    (h : i ≠ j) : (l.set i a).getD j default = l.getD j default := by
  simp [List.getD, List.getElem?_set_ne h]

/-- Installing a page `pid` into victim frame `fid` (the shared tail of
`fetch_page` and `new_page`: optional write-back already folded into `d'`,
erase the victim's mapping when it held a valid page, insert the new mapping)
preserves the buffer pool invariant. -/
theorem BufInv.install (s : BufState) (fid : Nat) (pid : PageIdM) (d' : DiskStore)
    (fr' : Frame) (fl' rp' : List Nat)
    (hinv : BufInv s)
    (hfid : fid < s.frames.length)
    (hfl : ∀ x ∈ fl', x ∈ s.free_list ∧ x ≠ fid)
    (hflnd : fl'.Nodup)
    (hrp : ∀ x ∈ rp', x ∈ s.replacer)
    (hrpnd : rp'.Nodup)
    (hfr : fr'.id = pid)
    (hpid0 : 0 ≤ pid.page_no)
    (hpidc : pid.page_no < d'.get_counter pid.fd)
    (hmono : ∀ fd, s.disk.get_counter fd ≤ d'.get_counter fd)
    (hc0 : ∀ e ∈ d'.fd2pageno, 0 ≤ e.2)
    (hpt : s.lookupPT pid = none) :
    BufInv { frames := s.frames.set fid fr',
             page_table := insertPT (if (s.getFrame fid).id.page_no ≠ invalidPageId
               then erasePT s.page_table (s.getFrame fid).id else s.page_table) pid fid,
             free_list := fl',
             replacer := Replacer.pin rp' fid,
             disk := d' } := by
  obtain ⟨h1, h2, h3, h4, h5, h6, h7, h8, _⟩ := hinv
  have hsub : (if (s.getFrame fid).id.page_no ≠ invalidPageId
      then erasePT s.page_table (s.getFrame fid).id
      else s.page_table).Sublist s.page_table := by
    split
    · exact erasePT_sublist _ _
    · exact List.Sublist.refl _
  have hmem' : ∀ e, e ∈ (if (s.getFrame fid).id.page_no ≠ invalidPageId
      then erasePT s.page_table (s.getFrame fid).id
      else s.page_table) → e ∈ s.page_table := fun e he => hsub.subset he
  have hval_ne : ∀ e, e ∈ (if (s.getFrame fid).id.page_no ≠ invalidPageId
      then erasePT s.page_table (s.getFrame fid).id
      else s.page_table) → e.2 ≠ fid := by
    intro e he hefid
    have hmem := hmem' e he
    have h3e := h3 e hmem
    rw [hefid] at h3e
    by_cases hvalid : (s.getFrame fid).id.page_no ≠ invalidPageId
    · rw [if_pos hvalid] at he
      exact (mem_erasePT.mp he).2 (by rw [← h3e.2.1])
    · push_neg at hvalid
      have hge := h3e.2.2.1
      rw [← h3e.2.1, hvalid] at hge
      norm_num [invalidPageId] at hge
  have hkey_ne : ∀ e, e ∈ (if (s.getFrame fid).id.page_no ≠ invalidPageId
      then erasePT s.page_table (s.getFrame fid).id
      else s.page_table) → e.1 ≠ pid := by
    intro e he hepid
    obtain ⟨e1, e2⟩ := e
    refine BufState.lookupPT_not_mem s pid hpt e2 ?_
    simp only at hepid
    rw [← hepid]
    exact hmem' _ he
  have hins : insertPT (if (s.getFrame fid).id.page_no ≠ invalidPageId
      then erasePT s.page_table (s.getFrame fid).id
      else s.page_table) pid fid =
      (if (s.getFrame fid).id.page_no ≠ invalidPageId
      then erasePT s.page_table (s.getFrame fid).id
      else s.page_table) ++ [(pid, fid)] :=
    insertPT_of_not_found _ _ _
      (List.find?_eq_none.mpr (fun e he => by simpa using hkey_ne e he))
  refine ⟨?_, ?_, ?_, ?_, ?_, hflnd, ?_, by
    simp only [Replacer.pin]
    exact hrpnd.filter _, hc0⟩
  · -- keys of the new page table are distinct
    show ((insertPT _ pid fid).map Prod.fst).Nodup
    rw [hins, List.map_append]
    refine List.Nodup.append ((h1.sublist (hsub.map Prod.fst))) (by simp) ?_
    intro a ha
    obtain ⟨e, he, hea⟩ := List.mem_map.mp ha
    simp only [List.map_cons, List.map_nil, List.mem_singleton]
    rw [← hea]
    exact hkey_ne e he
  · -- frame indices of the new page table are distinct
    show ((insertPT _ pid fid).map Prod.snd).Nodup
    rw [hins, List.map_append]
    refine List.Nodup.append ((h2.sublist (hsub.map Prod.snd))) (by simp) ?_
    intro a ha
    obtain ⟨e, he, hea⟩ := List.mem_map.mp ha
    simp only [List.map_cons, List.map_nil, List.mem_singleton]
    rw [← hea]
    exact hval_ne e he
  · -- every entry points at a frame holding its page, with an allocated id
    intro e he
    rw [hins] at he
    simp only [BufState.getFrame, List.length_set]
    rcases List.mem_append.mp he with hl | hr
    · have h3e := h3 e (hmem' e hl)
      refine ⟨h3e.1, ?_, h3e.2.2.1, lt_of_lt_of_le h3e.2.2.2 (hmono e.1.fd)⟩
      rw [getD_set_ne _ _ _ _ (fun hx => hval_ne e hl hx.symm)]
      exact h3e.2.1
    · rw [List.mem_singleton] at hr
      subst hr
      refine ⟨hfid, ?_, hpid0, hpidc⟩
      rw [getD_set_self _ _ _ hfid]
      exact hfr
  · -- every frame with a valid page id is mapped
    intro x hx
    rw [List.length_set] at hx
    simp only [BufState.getFrame] at *
    by_cases hxf : x = fid
    · subst hxf
      rw [getD_set_self _ _ _ hfid, hins]
      right
      rw [hfr]
      exact List.mem_append_right _ (by simp)
    · rw [getD_set_ne _ _ _ _ (fun hx2 => hxf hx2.symm), hins]
      rcases h4 x hx with hinval | hmapped
      · exact Or.inl hinval
      · right
        refine List.mem_append_left _ ?_
        split
        · next hvalid =>
          refine mem_erasePT.mpr ⟨hmapped, ?_⟩
          intro heq
          have h4f := h4 fid hfid
          rcases h4f with hbad | hgood
          · exact hvalid hbad
          · have := keys_nodup_unique s.page_table (s.frames.getD fid default).id
              x fid h1 (by rw [← heq]; exact hmapped) hgood
            exact hxf this
        · exact hmapped
  · -- free-list frames are empty
    intro x hx
    obtain ⟨hxs, hxne⟩ := hfl x hx
    have h5x := h5 x hxs
    simp only [BufState.getFrame, List.length_set] at *
    rw [getD_set_ne _ _ _ _ (fun hx2 => hxne hx2.symm)]
    exact h5x
  · -- replacer frames are in range and not free
    intro x hx
    simp only [Replacer.pin, List.mem_filter] at hx
    have h7x := h7 x (hrp x hx.1)
    simp only [List.length_set]
    refine ⟨h7x.1, ?_⟩
    intro hxf
    exact h7x.2 (hfl x hxf).1

/-- Updating a frame in place (same page id, e.g. pin/dirty bookkeeping),
replacing the replacer contents by frames that are in range and not free, and
replacing the disk store by one with identical counters, preserves the
invariant. -/
theorem BufInv.frame_update (s : BufState) (fid : Nat) (fr' : Frame) (d' : DiskStore)
    (rp' : List Nat)
    (hinv : BufInv s)
    (hfid : fid < s.frames.length)
    (hid : fr'.id = (s.getFrame fid).id)
    (hctr : ∀ fd, d'.get_counter fd = s.disk.get_counter fd)
    (hc0 : ∀ e ∈ d'.fd2pageno, 0 ≤ e.2)
    (hrp : ∀ x ∈ rp', x < s.frames.length ∧ x ∉ s.free_list)
    (hrpnd : rp'.Nodup) :
    BufInv { frames := s.frames.set fid fr', page_table := s.page_table,
             free_list := s.free_list, replacer := rp', disk := d' } := by
  obtain ⟨h1, h2, h3, h4, h5, h6, h7, h8, _⟩ := hinv
  have hids : ∀ x, ((s.frames.set fid fr').getD x default).id =
      (s.frames.getD x default).id := by
    intro x
    by_cases hx : fid = x
    · subst hx
      rw [getD_set_self _ _ _ hfid]
      exact hid
    · rw [getD_set_ne _ _ _ _ hx]
  refine ⟨h1, h2, ?_, ?_, ?_, h6, fun x hx => ⟨(hrp x hx).1.trans_eq
    (List.length_set _ _ _).symm, (hrp x hx).2⟩, hrpnd, hc0⟩
  · intro e he
    obtain ⟨he1, he2, he3, he4⟩ := h3 e he
    refine ⟨he1.trans_eq (List.length_set _ _ _).symm, ?_, he3, ?_⟩
    · show ((s.frames.set fid fr').getD e.2 default).id = e.1
      rw [hids]
      exact he2
    · rw [hctr]
      exact he4
  · intro x hx
    rw [List.length_set] at hx
    show ((s.frames.set fid fr').getD x default).id.page_no = invalidPageId ∨
      (((s.frames.set fid fr').getD x default).id, x) ∈ s.page_table
    rw [hids]
    exact h4 x hx
  · intro x hx
    obtain ⟨hx1, hx2⟩ := h5 x hx
    refine ⟨hx1.trans_eq (List.length_set _ _ _).symm, ?_⟩
    show ((s.frames.set fid fr').getD x default).id.page_no = invalidPageId
    rw [hids]
    exact hx2

/-- `flush_page` preserves the invariant. -/
theorem BufInv.flush (s : BufState) (pid : PageIdM) (hinv : BufInv s) :
    BufInv (s.flush_page pid).1 := by
  cases hpt : s.lookupPT pid with
  | none =>
    simp only [BufState.flush_page, hpt]
    exact hinv
  | some fid =>
    have hmem := s.lookupPT_mem pid fid hpt
    obtain ⟨hflen, _, _, _⟩ := hinv.2.2.1 _ hmem
    simp only [BufState.flush_page, hpt]
    exact BufInv.frame_update s fid _ _ _ hinv hflen rfl
      (DiskStore.get_counter_write_page s.disk pid _)
      (by rw [DiskStore.fd2pageno_write_page]; exact hinv.2.2.2.2.2.2.2.2)
      (fun x hx => hinv.2.2.2.2.2.2.1 x hx)
      hinv.2.2.2.2.2.2.2.1

/-- `unpin_page` preserves the invariant. -/
theorem BufInv.unpin (s : BufState) (pid : PageIdM) (d : Bool) (hinv : BufInv s) :
    BufInv (s.unpin_page pid d).1 := by
  cases hpt : s.lookupPT pid with
  | none =>
    simp only [BufState.unpin_page, hpt]
    exact hinv
  | some fid =>
    have hmem := s.lookupPT_mem pid fid hpt
    obtain ⟨hflen, hfidid, hfid0, _⟩ := hinv.2.2.1 _ hmem
    simp only [BufState.unpin_page, hpt]
    by_cases hple : (s.getFrame fid).pin_count ≤ 0
    · rw [if_pos hple]
      exact hinv
    · rw [if_neg hple]
      have hfree : fid ∉ s.free_list := by
        intro hf
        have := (hinv.2.2.2.2.1 fid hf).2
        rw [hfidid] at this
        have h0 := hfid0
        rw [this] at h0
        norm_num [invalidPageId] at h0
      by_cases hz : (s.getFrame fid).pin_count - 1 = 0
      · rw [if_pos hz]
        refine BufInv.frame_update s fid _ s.disk _ hinv hflen rfl (fun _ => rfl)
          hinv.2.2.2.2.2.2.2.2 ?_ ?_
        · intro x hx
          simp only [Replacer.unpin] at hx
          split at hx
          · exact hinv.2.2.2.2.2.2.1 x hx
          · rcases List.mem_append.mp hx with hl | hr
            · exact hinv.2.2.2.2.2.2.1 x hl
            · rw [List.mem_singleton] at hr
              subst hr
              exact ⟨hflen, hfree⟩
        · simp only [Replacer.unpin]
          split
          · exact hinv.2.2.2.2.2.2.2.1
          · next hni =>
            exact List.Nodup.append hinv.2.2.2.2.2.2.2.1 (by simp)
              (by intro a ha hb; rw [List.mem_singleton] at hb; subst hb; exact hni ha)
      · rw [if_neg hz]
        exact BufInv.frame_update s fid _ s.disk _ hinv hflen rfl (fun _ => rfl)
          hinv.2.2.2.2.2.2.2.2
          (fun x hx => hinv.2.2.2.2.2.2.1 x hx)
          hinv.2.2.2.2.2.2.2.1

/-- `delete_page` preserves the invariant. -/
theorem BufInv.del (s : BufState) (pid : PageIdM) (hinv : BufInv s) :
    BufInv (s.delete_page pid).1 := by
  obtain ⟨h1, h2, h3, h4, h5, h6, h7, h8, h9⟩ := hinv
  cases hpt : s.lookupPT pid with
  | none =>
    simp only [BufState.delete_page, hpt]
    exact ⟨h1, h2, h3, h4, h5, h6, h7, h8, h9⟩
  | some fid =>
    have hmem := s.lookupPT_mem pid fid hpt
    obtain ⟨hflen, hfidid, hfid0, _⟩ := h3 _ hmem
    have hfree : fid ∉ s.free_list := by
      intro hf
      have := (h5 fid hf).2
      rw [hfidid] at this
      have h0 := hfid0
      rw [this] at h0
      norm_num [invalidPageId] at h0
    simp only [BufState.delete_page, hpt]
    by_cases hpin : (s.getFrame fid).pin_count > 0
    · rw [if_pos hpin]
      exact ⟨h1, h2, h3, h4, h5, h6, h7, h8, h9⟩
    · rw [if_neg hpin]
      have key : ∀ d' : DiskStore,
          (∀ fd, d'.get_counter fd = s.disk.get_counter fd) →
          (∀ e ∈ d'.fd2pageno, 0 ≤ e.2) →
          BufInv { frames := s.frames.set fid
                     { id := { (s.getFrame fid).id with page_no := invalidPageId },
                       data := List.replicate pageSize 0,
                       is_dirty := false, pin_count := 0 },
                   page_table := erasePT s.page_table (s.getFrame fid).id,
                   free_list := s.free_list ++ [fid],
                   replacer := Replacer.pin s.replacer fid,
                   disk := d' } := by
        intro d' hctr hc0
        have hval_ne : ∀ e, e ∈ erasePT s.page_table (s.getFrame fid).id → e.2 ≠ fid := by
          intro e he hefid
          obtain ⟨hmem2, hne⟩ := mem_erasePT.mp he
          have h3e := h3 e hmem2
          rw [hefid] at h3e
          exact hne (by rw [← h3e.2.1])
        refine ⟨?_, ?_, ?_, ?_, ?_, ?_, ?_, ?_, hc0⟩
        · exact h1.sublist ((erasePT_sublist _ _).map Prod.fst)
        · exact h2.sublist ((erasePT_sublist _ _).map Prod.snd)
        · intro e he
          obtain ⟨hmem2, _⟩ := mem_erasePT.mp he
          obtain ⟨he1, he2, he3, he4⟩ := h3 e hmem2
          refine ⟨he1.trans_eq (List.length_set _ _ _).symm, ?_, he3, by rw [hctr]; exact he4⟩
          show ((s.frames.set fid _).getD e.2 default).id = e.1
          rw [getD_set_ne _ _ _ _ (fun hx => hval_ne e he hx.symm)]
          exact he2
        · intro x hx
          rw [List.length_set] at hx
          by_cases hxf : x = fid
          · subst hxf
            left
            show ((s.frames.set x _).getD x default).id.page_no = invalidPageId
            rw [getD_set_self _ _ _ hflen]
          · show ((s.frames.set fid _).getD x default).id.page_no = invalidPageId ∨
              (((s.frames.set fid _).getD x default).id, x) ∈
                erasePT s.page_table (s.getFrame fid).id
            rw [getD_set_ne _ _ _ _ (fun hx2 => hxf hx2.symm)]
            rcases h4 x hx with hinval | hmapped
            · exact Or.inl hinval
            · right
              refine mem_erasePT.mpr ⟨hmapped, ?_⟩
              intro heq
              rcases h4 fid hflen with hbad | hgood
              · rw [hfidid] at hbad
                rw [hbad] at hfid0
                norm_num [invalidPageId] at hfid0
              · exact hxf (keys_nodup_unique s.page_table (s.getFrame fid).id x fid h1
                  (by rw [← heq]; exact hmapped) hgood)
        · intro x hx
          rcases List.mem_append.mp hx with hl | hr
          · obtain ⟨hx1, hx2⟩ := h5 x hl
            refine ⟨hx1.trans_eq (List.length_set _ _ _).symm, ?_⟩
            show ((s.frames.set fid _).getD x default).id.page_no = invalidPageId
            rw [getD_set_ne _ _ _ _ (fun hx2' => (by subst hx2'; exact hfree hl : False))]
            exact hx2
          · rw [List.mem_singleton] at hr
            subst hr
            refine ⟨hflen.trans_eq (List.length_set _ _ _).symm, ?_⟩
            show ((s.frames.set x _).getD x default).id.page_no = invalidPageId
            rw [getD_set_self _ _ _ hflen]
        · exact List.Nodup.append h6 (by simp)
            (by intro a ha hb; rw [List.mem_singleton] at hb; subst hb; exact hfree ha)
        · intro x hx
          simp only [Replacer.pin, List.mem_filter] at hx
          obtain ⟨hxr, hxne⟩ := hx
          have h7x := h7 x hxr
          refine ⟨h7x.1.trans_eq (List.length_set _ _ _).symm, ?_⟩
          intro hmem2
          rcases List.mem_append.mp hmem2 with hl | hr
          · exact h7x.2 hl
          · rw [List.mem_singleton] at hr
            subst hr
            simp at hxne
        · simp only [Replacer.pin]
          exact h8.filter _
      by_cases hdirty : (s.getFrame fid).is_dirty
      · rw [if_pos hdirty]
        refine key _ ?_ ?_
        · intro fd
          show (s.disk.write_page (s.getFrame fid).id (s.getFrame fid).data).get_counter fd
            = s.disk.get_counter fd
          rw [DiskStore.get_counter_write_page]
        · show ∀ e ∈ (s.disk.write_page (s.getFrame fid).id
            (s.getFrame fid).data).fd2pageno, 0 ≤ e.2
          rw [DiskStore.fd2pageno_write_page]
          exact h9
      · rw [if_neg hdirty]
        exact key s.disk (fun _ => rfl) h9

theorem DiskStore.get_counter_nonneg (d : DiskStore)
    (h : ∀ e ∈ d.fd2pageno, 0 ≤ e.2) (fd : Int) : 0 ≤ d.get_counter fd := by
  unfold DiskStore.get_counter
  cases hf : d.fd2pageno.find? (fun q => q.1 == fd) with
  | none => simp
  | some e =>
    obtain ⟨hmem, _⟩ := mem_of_find?_eq_some _ _ _ hf
    simpa using h e hmem

theorem DiskStore.fd2pageno_allocate_nonneg (d : DiskStore) (fd : Int)
    (h : ∀ e ∈ d.fd2pageno, 0 ≤ e.2) :
    ∀ e ∈ (d.allocate_page fd).1.fd2pageno, 0 ≤ e.2 := by
  have hn : 0 ≤ d.get_counter fd := d.get_counter_nonneg h fd
  intro e he
  unfold DiskStore.allocate_page at he
  simp only at he
  split at he
  · obtain ⟨q, hq, hqe⟩ := List.mem_map.mp he
    split at hqe
    · rw [← hqe]
      simp only
      omega
    · rw [← hqe]
      exact h q hq
  · rcases List.mem_append.mp he with hl | hr
    · exact h e hl
    · rw [List.mem_singleton] at hr
      subst hr
      simp only
      omega

/-- `fetch_page` of an allocated page preserves the invariant. -/
theorem BufInv.fetch (s : BufState) (pid : PageIdM) (hinv : BufInv s)
    (h0 : 0 ≤ pid.page_no) (hc : pid.page_no < s.disk.get_counter pid.fd) :
    BufInv (s.fetch_page pid).1 := by
  cases hpt : s.lookupPT pid with
  | some fid =>
    have hmem := s.lookupPT_mem pid fid hpt
    obtain ⟨hflen, _, _, _⟩ := hinv.2.2.1 _ hmem
    simp only [BufState.fetch_page, hpt]
    exact BufInv.frame_update s fid _ s.disk _ hinv hflen rfl (fun _ => rfl)
      hinv.2.2.2.2.2.2.2.2
      (by
        intro x hx
        simp only [Replacer.pin, List.mem_filter] at hx
        exact hinv.2.2.2.2.2.2.1 x hx.1)
      (by
        simp only [Replacer.pin]
        exact hinv.2.2.2.2.2.2.2.1.filter _)
  | none =>
    cases hv : s.find_victim_page with
    | none =>
      simp only [BufState.fetch_page, hpt, hv]
      exact hinv
    | some pr =>
      obtain ⟨fid, s1⟩ := pr
      rcases find_victim_cases s fid s1 hv with ⟨rest, hfle, rfl⟩ | ⟨hfe, rest, hrpe, rfl⟩
      · -- victim from the free list: an empty frame
        have hfmem : fid ∈ s.free_list := by rw [hfle]; exact List.mem_cons_self _ _
        have hfid : fid < s.frames.length := (hinv.2.2.2.2.1 fid hfmem).1
        have hinval : (s.getFrame fid).id.page_no = invalidPageId :=
          (hinv.2.2.2.2.1 fid hfmem).2
        have hndfl := hinv.2.2.2.2.2.1
        rw [hfle, List.nodup_cons] at hndfl
        have hinst := BufInv.install s fid pid s.disk
          ⟨pid, s.disk.read_page pid, false, 1⟩ rest s.replacer hinv hfid
          (fun x hx => ⟨by rw [hfle]; exact List.mem_cons_of_mem _ hx,
            fun hxe => hndfl.1 (hxe ▸ hx)⟩)
          hndfl.2 (fun x hx => hx) hinv.2.2.2.2.2.2.2.1 rfl h0 hc
          (fun _ => le_refl _) hinv.2.2.2.2.2.2.2.2 hpt
        rw [if_neg (fun hne => hne hinval)] at hinst
        simp only [BufState.fetch_page, hpt, hv]
        rw [if_neg (show ¬ ((({ s with free_list := rest } : BufState).getFrame
          fid).id.page_no ≠ invalidPageId) from fun hne => hne hinval)]
        exact hinst
      · -- victim from the replacer: possibly a resident page
        have hrmem : fid ∈ s.replacer := by rw [hrpe]; exact List.mem_cons_self _ _
        have hfid : fid < s.frames.length := (hinv.2.2.2.2.2.2.1 fid hrmem).1
        have hnfree : fid ∉ s.free_list := (hinv.2.2.2.2.2.2.1 fid hrmem).2
        have hndrp := hinv.2.2.2.2.2.2.2.1
        rw [hrpe, List.nodup_cons] at hndrp
        have hflfacts : ∀ x ∈ s.free_list, x ∈ s.free_list ∧ x ≠ fid :=
          fun x hx => ⟨hx, fun hxe => hnfree (hxe ▸ hx)⟩
        have hrpsub : ∀ x ∈ rest, x ∈ s.replacer := by
          intro x hx
          rw [hrpe]
          exact List.mem_cons_of_mem _ hx
        by_cases hval : (s.getFrame fid).id.page_no ≠ invalidPageId
        · by_cases hdirty : (s.getFrame fid).is_dirty
          · have hinst := BufInv.install s fid pid
              (s.disk.write_page (s.getFrame fid).id (s.getFrame fid).data)
              ⟨pid, (s.disk.write_page (s.getFrame fid).id
                (s.getFrame fid).data).read_page pid, false, 1⟩
              s.free_list rest hinv hfid hflfacts hinv.2.2.2.2.2.1 hrpsub hndrp.2
              rfl h0 (by rw [DiskStore.get_counter_write_page]; exact hc)
              (fun fd => by rw [DiskStore.get_counter_write_page])
              (by rw [DiskStore.fd2pageno_write_page]; exact hinv.2.2.2.2.2.2.2.2) hpt
            rw [if_pos hval] at hinst
            simp only [BufState.fetch_page, hpt, hv]
            rw [if_pos (show (({ s with replacer := rest } : BufState).getFrame
              fid).id.page_no ≠ invalidPageId from hval)]
            rw [if_pos (show (({ s with replacer := rest } : BufState).getFrame
              fid).is_dirty = true from hdirty)]
            exact hinst
          · have hinst := BufInv.install s fid pid s.disk
              ⟨pid, s.disk.read_page pid, false, 1⟩
              s.free_list rest hinv hfid hflfacts hinv.2.2.2.2.2.1 hrpsub hndrp.2
              rfl h0 hc (fun _ => le_refl _) hinv.2.2.2.2.2.2.2.2 hpt
            rw [if_pos hval] at hinst
            simp only [BufState.fetch_page, hpt, hv]
            rw [if_pos (show (({ s with replacer := rest } : BufState).getFrame
              fid).id.page_no ≠ invalidPageId from hval)]
            rw [if_neg (show ¬ ((({ s with replacer := rest } : BufState).getFrame
              fid).is_dirty = true) from hdirty)]
            exact hinst
        · push_neg at hval
          have hinst := BufInv.install s fid pid s.disk
            ⟨pid, s.disk.read_page pid, false, 1⟩
            s.free_list rest hinv hfid hflfacts hinv.2.2.2.2.2.1 hrpsub hndrp.2
            rfl h0 hc (fun _ => le_refl _) hinv.2.2.2.2.2.2.2.2 hpt
          rw [if_neg (fun hne => hne hval)] at hinst
          simp only [BufState.fetch_page, hpt, hv]
          rw [if_neg (show ¬ ((({ s with replacer := rest } : BufState).getFrame
            fid).id.page_no ≠ invalidPageId) from fun hne => hne hval)]
          exact hinst

/-- The fresh page id produced by `new_page`'s allocator is not resident. -/
theorem BufState.lookupPT_alloc_none (s : BufState) (fd : Int) (n : Int)
    (hinv : BufInv s) (hn : s.disk.get_counter fd ≤ n) :
    s.lookupPT (⟨fd, n⟩ : PageIdM) = none := by
  apply BufState.lookupPT_none_of_keys
  intro e he heq
  have h3e := hinv.2.2.1 e he
  rw [heq] at h3e
  have h' : n < s.disk.get_counter fd := h3e.2.2.2
  omega

/-- `new_page` preserves the invariant. -/
theorem BufInv.newp (s : BufState) (fd : Int) (hinv : BufInv s) :
    BufInv (s.new_page fd).1 := by
  cases hv : s.find_victim_page with
  | none =>
    simp only [BufState.new_page, hv]
    exact hinv
  | some pr =>
    obtain ⟨fid, s1⟩ := pr
    rcases find_victim_cases s fid s1 hv with ⟨rest, hfle, rfl⟩ | ⟨hfe, rest, hrpe, rfl⟩
    · -- victim from the free list: an empty frame
      have hfmem : fid ∈ s.free_list := by rw [hfle]; exact List.mem_cons_self _ _
      have hfid : fid < s.frames.length := (hinv.2.2.2.2.1 fid hfmem).1
      have hinval : (s.getFrame fid).id.page_no = invalidPageId :=
        (hinv.2.2.2.2.1 fid hfmem).2
      have hndfl := hinv.2.2.2.2.2.1
      rw [hfle, List.nodup_cons] at hndfl
      have hinst := BufInv.install s fid (⟨fd, s.disk.get_counter fd⟩ : PageIdM)
        (s.disk.allocate_page fd).1
        ⟨⟨fd, s.disk.get_counter fd⟩, List.replicate pageSize 0, false, 1⟩
        rest s.replacer hinv hfid
        (fun x hx => ⟨by rw [hfle]; exact List.mem_cons_of_mem _ hx,
          fun hxe => hndfl.1 (hxe ▸ hx)⟩)
        hndfl.2 (fun x hx => hx) hinv.2.2.2.2.2.2.2.1 rfl
        (s.disk.get_counter_nonneg hinv.2.2.2.2.2.2.2.2 fd)
        (by
          show s.disk.get_counter fd < (s.disk.allocate_page fd).1.get_counter fd
          rw [DiskStore.get_counter_allocate_self]
          omega)
        (fun g => s.disk.get_counter_allocate_mono fd g)
        (s.disk.fd2pageno_allocate_nonneg fd hinv.2.2.2.2.2.2.2.2)
        (s.lookupPT_alloc_none fd _ hinv (le_refl _))
      rw [if_neg (fun hne => hne hinval)] at hinst
      simp only [BufState.new_page, hv]
      rw [if_neg (show ¬ ((({ s with free_list := rest } : BufState).getFrame
        fid).id.page_no ≠ invalidPageId) from fun hne => hne hinval)]
      exact hinst
    · -- victim from the replacer
      have hrmem : fid ∈ s.replacer := by rw [hrpe]; exact List.mem_cons_self _ _
      have hfid : fid < s.frames.length := (hinv.2.2.2.2.2.2.1 fid hrmem).1
      have hnfree : fid ∉ s.free_list := (hinv.2.2.2.2.2.2.1 fid hrmem).2
      have hndrp := hinv.2.2.2.2.2.2.2.1
      rw [hrpe, List.nodup_cons] at hndrp
      have hflfacts : ∀ x ∈ s.free_list, x ∈ s.free_list ∧ x ≠ fid :=
        fun x hx => ⟨hx, fun hxe => hnfree (hxe ▸ hx)⟩
      have hrpsub : ∀ x ∈ rest, x ∈ s.replacer := by
        intro x hx
        rw [hrpe]
        exact List.mem_cons_of_mem _ hx
      by_cases hval : (s.getFrame fid).id.page_no ≠ invalidPageId
      · by_cases hdirty : (s.getFrame fid).is_dirty
        · have hctr : ∀ g, (s.disk.write_page (s.getFrame fid).id
              (s.getFrame fid).data).get_counter g = s.disk.get_counter g :=
            fun g => DiskStore.get_counter_write_page _ _ _ g
          have hc0w : ∀ e ∈ (s.disk.write_page (s.getFrame fid).id
              (s.getFrame fid).data).fd2pageno, 0 ≤ e.2 := by
            rw [DiskStore.fd2pageno_write_page]
            exact hinv.2.2.2.2.2.2.2.2
          have hinst := BufInv.install s fid
            (⟨fd, (s.disk.write_page (s.getFrame fid).id
              (s.getFrame fid).data).get_counter fd⟩ : PageIdM)
            ((s.disk.write_page (s.getFrame fid).id
              (s.getFrame fid).data).allocate_page fd).1
            ⟨⟨fd, (s.disk.write_page (s.getFrame fid).id
              (s.getFrame fid).data).get_counter fd⟩,
              List.replicate pageSize 0, false, 1⟩
            s.free_list rest hinv hfid hflfacts hinv.2.2.2.2.2.1 hrpsub hndrp.2
            rfl
            (by
              show (0 : Int) ≤ (s.disk.write_page _ _).get_counter fd
              rw [hctr]
              exact s.disk.get_counter_nonneg hinv.2.2.2.2.2.2.2.2 fd)
            (by
              show (s.disk.write_page _ _).get_counter fd <
                ((s.disk.write_page _ _).allocate_page fd).1.get_counter fd
              rw [DiskStore.get_counter_allocate_self]
              omega)
            (fun g => by
              rw [← hctr g]
              exact (s.disk.write_page _ _).get_counter_allocate_mono fd g)
            ((s.disk.write_page _ _).fd2pageno_allocate_nonneg fd hc0w)
            (by
              rw [hctr]
              exact s.lookupPT_alloc_none fd _ hinv (le_refl _))
          rw [if_pos hval] at hinst
          simp only [BufState.new_page, hv]
          rw [if_pos (show (({ s with replacer := rest } : BufState).getFrame
            fid).id.page_no ≠ invalidPageId from hval)]
          rw [if_pos (show (({ s with replacer := rest } : BufState).getFrame
            fid).is_dirty = true from hdirty)]
          exact hinst
        · have hinst := BufInv.install s fid
            (⟨fd, s.disk.get_counter fd⟩ : PageIdM) (s.disk.allocate_page fd).1
            ⟨⟨fd, s.disk.get_counter fd⟩, List.replicate pageSize 0, false, 1⟩
            s.free_list rest hinv hfid hflfacts hinv.2.2.2.2.2.1 hrpsub hndrp.2
            rfl (s.disk.get_counter_nonneg hinv.2.2.2.2.2.2.2.2 fd)
            (by
              show s.disk.get_counter fd < (s.disk.allocate_page fd).1.get_counter fd
              rw [DiskStore.get_counter_allocate_self]
              omega)
            (fun g => s.disk.get_counter_allocate_mono fd g)
            (s.disk.fd2pageno_allocate_nonneg fd hinv.2.2.2.2.2.2.2.2)
            (s.lookupPT_alloc_none fd _ hinv (le_refl _))
          rw [if_pos hval] at hinst
          simp only [BufState.new_page, hv]
          rw [if_pos (show (({ s with replacer := rest } : BufState).getFrame
            fid).id.page_no ≠ invalidPageId from hval)]
          rw [if_neg (show ¬ ((({ s with replacer := rest } : BufState).getFrame
            fid).is_dirty = true) from hdirty)]
          exact hinst
      · push_neg at hval
        have hinst := BufInv.install s fid
          (⟨fd, s.disk.get_counter fd⟩ : PageIdM) (s.disk.allocate_page fd).1
          ⟨⟨fd, s.disk.get_counter fd⟩, List.replicate pageSize 0, false, 1⟩
          s.free_list rest hinv hfid hflfacts hinv.2.2.2.2.2.1 hrpsub hndrp.2
          rfl (s.disk.get_counter_nonneg hinv.2.2.2.2.2.2.2.2 fd)
          (by
            show s.disk.get_counter fd < (s.disk.allocate_page fd).1.get_counter fd
            rw [DiskStore.get_counter_allocate_self]
            omega)
          (fun g => s.disk.get_counter_allocate_mono fd g)
          (s.disk.fd2pageno_allocate_nonneg fd hinv.2.2.2.2.2.2.2.2)
          (s.lookupPT_alloc_none fd _ hinv (le_refl _))
        rw [if_neg (fun hne => hne hval)] at hinst
        simp only [BufState.new_page, hv]
        rw [if_neg (show ¬ ((({ s with replacer := rest } : BufState).getFrame
          fid).id.page_no ≠ invalidPageId) from fun hne => hne hval)]
        exact hinst

theorem BufInv.applyOp (s : BufState) (op : BufOp) (hinv : BufInv s)
    (hop : s.opValidB op = true) : BufInv (s.applyOp op) := by
  cases op with
  | fetch pid =>
    simp only [BufState.opValidB, Bool.and_eq_true, decide_eq_true_eq] at hop
    exact BufInv.fetch s pid hinv hop.1 hop.2
  | newp fd => exact BufInv.newp s fd hinv
  | unpin pid d => exact BufInv.unpin s pid d hinv
  | flush pid => exact BufInv.flush s pid hinv
  | delete pid => exact BufInv.del s pid hinv

theorem BufInv.applyOpList (s : BufState) (ops : List BufOp) (hinv : BufInv s)
    (hops : s.opsValidB ops = true) : BufInv (s.applyOps ops) := by
  induction ops generalizing s with
  | nil => exact hinv
  | cons op rest ih =>
    simp only [BufState.opsValidB, Bool.and_eq_true] at hops
    exact ih _ (BufInv.applyOp s op hinv hops.1) hops.2

/-- C9: across any valid sequence of `fetch_page` / `new_page` / `unpin_page`
/ `flush_page` / `delete_page` calls the buffer pool keeps each `(fd,
page_no)` resident in at most one frame (the `BufInv` invariant is preserved),
and whenever `fetch_page` or `new_page` picks a victim frame holding a valid
dirty page, that page's contents are written back to the disk store before the
frame is reassigned: afterwards the disk holds the victim frame's data. -/
theorem buf_pool_invariant_writeback (s : BufState) (ops : List BufOp)
    (hinv : BufInv s) (hops : s.opsValidB ops = true) :
    BufInv (s.applyOps ops) ∧
    (∀ fid1 fid2, fid1 < (s.applyOps ops).frames.length →
      fid2 < (s.applyOps ops).frames.length →
      ((s.applyOps ops).getFrame fid1).id = ((s.applyOps ops).getFrame fid2).id →
      ((s.applyOps ops).getFrame fid1).id.page_no ≠ invalidPageId →
      fid1 = fid2) ∧
    (∀ t : BufState, ∀ pid : PageIdM, ∀ fid : Nat, ∀ t1 : BufState,
      t.lookupPT pid = none → t.find_victim_page = some (fid, t1) →
      (t1.getFrame fid).id.page_no ≠ invalidPageId →
      (t1.getFrame fid).is_dirty = true →
      (t.fetch_page pid).1.disk.read_page (t1.getFrame fid).id =
        (t1.getFrame fid).data) ∧
    (∀ t : BufState, ∀ fd : Int, ∀ fid : Nat, ∀ t1 : BufState,
      t.find_victim_page = some (fid, t1) →
      (t1.getFrame fid).id.page_no ≠ invalidPageId →
      (t1.getFrame fid).is_dirty = true →
      (t.new_page fd).1.disk.read_page (t1.getFrame fid).id =
        (t1.getFrame fid).data) := by
  have hfin := BufInv.applyOpList s ops hinv hops
  refine ⟨hfin, ?_, ?_, ?_⟩
  · -- at most one frame per valid page id
    intro fid1 fid2 h1 h2 heq hval
    obtain ⟨k1, k2, k3, k4, _⟩ := hfin
    rcases k4 fid1 h1 with hbad | hm1
    · exact absurd hbad hval
    · rcases k4 fid2 h2 with hbad | hm2
      · rw [heq] at hval
        exact absurd hbad hval
      · rw [heq] at hm1
        exact keys_nodup_unique _ _ _ _ k1 hm1 hm2
  · intro t pid fid t1 hpt2 hv2 hval2 hdirty2
    simp only [BufState.fetch_page, hpt2, hv2]
    rw [if_pos hval2, if_pos hdirty2]
    exact DiskStore.read_page_write_page_self _ _ _
  · intro t fd fid t1 hv2 hval2 hdirty2
    simp only [BufState.new_page, hv2]
    rw [if_pos hval2, if_pos hdirty2]
    exact DiskStore.read_page_write_page_self _ _ _

/-- Closed instance of `buf_pool_invariant_writeback`: the concrete state
`bufWitnessState` under a fetch / unpin / delete sequence. -/
theorem buf_pool_invariant_writeback_witness :
    BufInv (bufWitnessState.applyOps
      [.fetch ⟨3, 5⟩, .unpin ⟨3, 5⟩ false, .unpin ⟨3, 5⟩ false, .delete ⟨3, 5⟩]) ∧
    (∀ fid1 fid2,
      fid1 < (bufWitnessState.applyOps
        [.fetch ⟨3, 5⟩, .unpin ⟨3, 5⟩ false, .unpin ⟨3, 5⟩ false,
          .delete ⟨3, 5⟩]).frames.length →
      fid2 < (bufWitnessState.applyOps
        [.fetch ⟨3, 5⟩, .unpin ⟨3, 5⟩ false, .unpin ⟨3, 5⟩ false,
          .delete ⟨3, 5⟩]).frames.length →
      ((bufWitnessState.applyOps
        [.fetch ⟨3, 5⟩, .unpin ⟨3, 5⟩ false, .unpin ⟨3, 5⟩ false,
          .delete ⟨3, 5⟩]).getFrame fid1).id =
        ((bufWitnessState.applyOps
        [.fetch ⟨3, 5⟩, .unpin ⟨3, 5⟩ false, .unpin ⟨3, 5⟩ false,
          .delete ⟨3, 5⟩]).getFrame fid2).id →
      ((bufWitnessState.applyOps
        [.fetch ⟨3, 5⟩, .unpin ⟨3, 5⟩ false, .unpin ⟨3, 5⟩ false,
          .delete ⟨3, 5⟩]).getFrame fid1).id.page_no ≠ invalidPageId →
      fid1 = fid2) ∧
    (∀ t : BufState, ∀ pid : PageIdM, ∀ fid : Nat, ∀ t1 : BufState,
      t.lookupPT pid = none → t.find_victim_page = some (fid, t1) →
      (t1.getFrame fid).id.page_no ≠ invalidPageId →
      (t1.getFrame fid).is_dirty = true →
      (t.fetch_page pid).1.disk.read_page (t1.getFrame fid).id =
        (t1.getFrame fid).data) ∧
    (∀ t : BufState, ∀ fd : Int, ∀ fid : Nat, ∀ t1 : BufState,
      t.find_victim_page = some (fid, t1) →
      (t1.getFrame fid).id.page_no ≠ invalidPageId →
      (t1.getFrame fid).is_dirty = true →
      (t.new_page fd).1.disk.read_page (t1.getFrame fid).id =
        (t1.getFrame fid).data) :=
  buf_pool_invariant_writeback bufWitnessState
    [.fetch ⟨3, 5⟩, .unpin ⟨3, 5⟩ false, .unpin ⟨3, 5⟩ false, .delete ⟨3, 5⟩]
    (by simp only [BufInv]; decide) (by decide)

/-! ## Lock manager (blocking wait-die variant of lock_manager.cpp)

`LockMode` follows the source enum (`EXLUCSIVE` is the source's spelling of
exclusive).  `lockCompatible` is the `compatible` lambda shared by the
`lock_*` functions; `lockRequestStep` is one pass of the grant loop of the
blocking `lock_exclusive_on_record` / `lock_shared_on_record` after the
requester has appended its ungranted request to the queue: grant when
`can_grant_now`, otherwise die (erasing the request) when some conflicting
granted holder of another transaction is older, otherwise wait on the
queue's condition variable. -/

/-- Lock modes: IS, IX, S, SIX, X. -/
inductive LockMode where
  | intentionShared
  | intentionExclusive
  | shared
  | six
  | exclusive
deriving Repr, DecidableEq

/-- The `compatible(req, held)` lambda of lock_manager.cpp. -/
def lockCompatible (req held : LockMode) : Bool :=
  if held = .exclusive then false
  else if req = .exclusive then false
  else if req = .intentionShared then true
  else if req = .intentionExclusive then
    held = .intentionShared || held = .intentionExclusive
  else if req = .shared then
    held = .intentionShared || held = .shared
  else if req = .six then
    held = .intentionShared
  else false

/-- A queue entry: `(txn_id_, lock_mode_, granted_)`. -/
structure LockRequest where
  txn_id : Int
  lock_mode : LockMode
  granted : Bool
deriving Repr, DecidableEq

/-- Outcome of one pass of the blocking grant loop. -/
inductive WaitDieOutcome where
  | granted
  | waiting
  | die
deriving Repr, DecidableEq

/-- `can_grant_now`: every request ahead of mine is granted (FIFO) and my mode
is compatible with every granted lock of another transaction.  `q0` is the
queue without my request; my ungranted request sits at the back. -/
def canGrantNow (q0 : List LockRequest) (myId : Int) (mode : LockMode) : Bool :=
  q0.all (fun r => r.granted) &&
  (q0 ++ [(⟨myId, mode, false⟩ : LockRequest)]).all
    (fun r => !r.granted || r.txn_id == myId || lockCompatible mode r.lock_mode)

/-- The wait-die scan of the loop body: some granted conflicting holder of
another transaction is older than me (`my_id > r.txn_id_`). -/
def waitDieCheck (q : List LockRequest) (myId : Int) (mode : LockMode) : Bool :=
  q.any (fun r => r.granted && r.txn_id != myId &&
    !lockCompatible mode r.lock_mode && decide (r.txn_id < myId))

/-- One pass of the blocking grant loop, returning the queue and the outcome:
grant (mark my request granted), die (erase my request, then
`DEADLOCK_PREVENTION` is thrown), or wait on the condition variable. -/
def lockRequestStep (q0 : List LockRequest) (myId : Int) (mode : LockMode) :
    List LockRequest × WaitDieOutcome :=
  if canGrantNow q0 myId mode then
    (q0 ++ [⟨myId, mode, true⟩], .granted)
  else if waitDieCheck (q0 ++ [⟨myId, mode, false⟩]) myId mode then
    (q0, .die)
  else
    (q0 ++ [⟨myId, mode, false⟩], .waiting)

/-- C2 counterexample: the claim's first clause fails on the code.  Requester
id 2 asks for X; the queue holds a granted X lock of transaction id 1 — a
granted lock held by an *older* transaction (1 < 2) that conflicts with the
request.  The claim says such a requester blocks on the condition variable;
the code instead erases the request and raises DEADLOCK_PREVENTION (the
spec's own scenario 5 expects exactly this death). -/
theorem wait_die_older_holder_counterexample :
    (⟨1, .exclusive, true⟩ : LockRequest).granted = true ∧
    (⟨1, .exclusive, true⟩ : LockRequest).txn_id < 2 ∧
    lockCompatible .exclusive (⟨1, .exclusive, true⟩ : LockRequest).lock_mode
      = false ∧
    lockRequestStep [⟨1, .exclusive, true⟩] 2 .exclusive =
      ([⟨1, .exclusive, true⟩], .die) ∧
    (lockRequestStep [⟨1, .exclusive, true⟩] 2 .exclusive).2 ≠ .waiting := by
  decide

/-- C2 (amended): wait-die as implemented.  When the request cannot be
granted now, the requester dies — erasing its queue entry, after which
DEADLOCK_PREVENTION is raised — precisely when some conflicting granted
holder of another transaction is *older* (lower id); it blocks on the
condition variable precisely when every conflicting granted holder of
another transaction is *younger* (greater id); hence a requester older than
every conflicting granted holder never dies of deadlock prevention. -/
theorem wait_die_grant_algorithm (q0 : List LockRequest) (myId : Int)
    (mode : LockMode) (hng : canGrantNow q0 myId mode = false) :
    ((lockRequestStep q0 myId mode).2 = .die ↔
      ∃ r ∈ q0 ++ [⟨myId, mode, false⟩], r.granted = true ∧ r.txn_id ≠ myId ∧
        lockCompatible mode r.lock_mode = false ∧ r.txn_id < myId) ∧
    ((lockRequestStep q0 myId mode).2 = .die →
      (lockRequestStep q0 myId mode).1 = q0) ∧
    ((lockRequestStep q0 myId mode).2 = .waiting ↔
      ∀ r ∈ q0 ++ [⟨myId, mode, false⟩], r.granted = true → r.txn_id ≠ myId →
        lockCompatible mode r.lock_mode = false → myId < r.txn_id) ∧
    ((∀ r ∈ q0 ++ [⟨myId, mode, false⟩], r.granted = true → r.txn_id ≠ myId →
        lockCompatible mode r.lock_mode = false → myId < r.txn_id) →
      (lockRequestStep q0 myId mode).2 ≠ .die) := by
  have hd : waitDieCheck (q0 ++ [⟨myId, mode, false⟩]) myId mode = true ↔
      ∃ r ∈ q0 ++ [⟨myId, mode, false⟩], r.granted = true ∧ r.txn_id ≠ myId ∧
        lockCompatible mode r.lock_mode = false ∧ r.txn_id < myId := by
    unfold waitDieCheck
    rw [List.any_eq_true]
    constructor
    · rintro ⟨r, hr, hp⟩
      simp only [Bool.and_eq_true, bne_iff_ne, Bool.not_eq_true',
        decide_eq_true_eq] at hp
      exact ⟨r, hr, hp.1.1.1, hp.1.1.2, hp.1.2, hp.2⟩
    · rintro ⟨r, hr, hg, hne, hcomp, hlt⟩
      exact ⟨r, hr, by simp [hg, hne, hcomp, hlt]⟩
  have hw : waitDieCheck (q0 ++ [⟨myId, mode, false⟩]) myId mode = false ↔
      ∀ r ∈ q0 ++ [⟨myId, mode, false⟩], r.granted = true → r.txn_id ≠ myId →
        lockCompatible mode r.lock_mode = false → myId < r.txn_id := by
    rw [← Bool.not_eq_true, hd]
    push_neg
    constructor
    · intro h r hr hg hne hcomp
      have h2 := h r hr hg hne hcomp
      omega
    · intro h r hr hg hne hcomp
      have h2 := h r hr hg hne hcomp
      omega
  unfold lockRequestStep
  rw [if_neg (by rw [hng]; exact Bool.false_ne_true)]
  by_cases hchk : waitDieCheck (q0 ++ [⟨myId, mode, false⟩]) myId mode
  · rw [if_pos hchk]
    refine ⟨⟨fun _ => hd.mp hchk, fun _ => rfl⟩, fun _ => rfl, ⟨?_, ?_⟩, ?_⟩
    · intro hcon
      simp at hcon
    · intro hall
      rw [hw.mpr hall] at hchk
      exact absurd hchk Bool.false_ne_true
    · intro hall hcon
      rw [hw.mpr hall] at hchk
      exact absurd hchk Bool.false_ne_true
  · rw [if_neg hchk]
    rw [Bool.not_eq_true] at hchk
    refine ⟨⟨?_, ?_⟩, ?_, ⟨fun _ => hw.mp hchk, fun _ => rfl⟩, ?_⟩
    · intro hcon
      simp at hcon
    · intro hex
      rw [hd.mpr hex] at hchk
      exact absurd hchk.symm Bool.false_ne_true
    · intro hcon
      simp at hcon
    · intro _ hcon
      simp at hcon

/-- Closed instance of `wait_die_grant_algorithm`: requester id 2 conflicts
with a granted X lock of the younger transaction id 3 and waits. -/
theorem wait_die_grant_algorithm_witness :
    ((lockRequestStep [⟨3, .exclusive, true⟩] 2 .exclusive).2 = .die ↔
      ∃ r ∈ [⟨3, .exclusive, true⟩] ++
          [(⟨2, .exclusive, false⟩ : LockRequest)],
        r.granted = true ∧ r.txn_id ≠ 2 ∧
        lockCompatible .exclusive r.lock_mode = false ∧ r.txn_id < 2) ∧
    ((lockRequestStep [⟨3, .exclusive, true⟩] 2 .exclusive).2 = .die →
      (lockRequestStep [⟨3, .exclusive, true⟩] 2 .exclusive).1 =
        [⟨3, .exclusive, true⟩]) ∧
    ((lockRequestStep [⟨3, .exclusive, true⟩] 2 .exclusive).2 = .waiting ↔
      ∀ r ∈ [⟨3, .exclusive, true⟩] ++
          [(⟨2, .exclusive, false⟩ : LockRequest)],
        r.granted = true → r.txn_id ≠ 2 →
        lockCompatible .exclusive r.lock_mode = false → 2 < r.txn_id) ∧
    ((∀ r ∈ [⟨3, .exclusive, true⟩] ++
          [(⟨2, .exclusive, false⟩ : LockRequest)],
        r.granted = true → r.txn_id ≠ 2 →
        lockCompatible .exclusive r.lock_mode = false → 2 < r.txn_id) →
      (lockRequestStep [⟨3, .exclusive, true⟩] 2 .exclusive).2 ≠ .die) :=
  wait_die_grant_algorithm [⟨3, .exclusive, true⟩] 2 .exclusive (by decide)

/-! ## 2PL state machine (one transaction against the blocking lock manager)

Transaction states and the `LOCK_ON_SHIRINKING` / `DEADLOCK_PREVENTION`
abort reasons are from txn_defs.h.  `TxnLM.execOp` is the effect of one
`lock_*` / `unlock` call by a single transaction (with no other transaction
present every enqueueable request is granted immediately, so the blocking
grant loop never waits or dies); the SHRINKING check at the top of every
`lock_*` function and the GROWING → SHRINKING transition at the top of
`unlock` are translated verbatim. -/

/-- Transaction states. -/
inductive TransactionState where
  | growing
  | shrinking
  | committed
  | aborted
deriving Repr, DecidableEq

/-- Abort reasons thrown by the lock manager (`AbortReason`). -/
inductive AbortReason where
  | lockOnShrinking
  | deadlockPrevention
deriving Repr, DecidableEq

/-- A lock id: table-level `(fd, TABLE)` or record-level `(fd, rid, RECORD)`. -/
inductive LockDataId where
  | table (fd : Int)
  | record (fd : Int) (rid : Rid)
deriving Repr, DecidableEq

/-- One transaction plus the lock manager state it sees. -/
structure TxnLM where
  txn_id : Int
  state : TransactionState
  lock_set : List LockDataId
  lock_table : List (LockDataId × List LockRequest)
deriving Repr, DecidableEq

/-- The calls a transaction can issue to the lock manager. -/
inductive LockOp where
  | sharedOnRecord (rid : Rid) (tab_fd : Int)
  | exclusiveOnRecord (rid : Rid) (tab_fd : Int)
  | sharedOnTable (tab_fd : Int)
  | exclusiveOnTable (tab_fd : Int)
  | isOnTable (tab_fd : Int)
  | ixOnTable (tab_fd : Int)
  | unlock (lid : LockDataId)
deriving Repr, DecidableEq

/-- Is this call a lock acquisition (as opposed to `unlock`)? -/
def LockOp.isLock : LockOp → Bool
  | .unlock _ => false
  | _ => true

/-- `subsumes(held, SHARED)` of lock_shared_on_record. -/
def subsumesRecS (held : LockMode) : Bool :=
  if held = .exclusive then true
  else if held = .shared then true
  else false

/-- `subsumes(held, EXLUCSIVE)` of lock_exclusive_on_record. -/
def subsumesRecX (held : LockMode) : Bool :=
  held = .exclusive

/-- `subsumes(held, SHARED)` of lock_shared_on_table: X, SIX and S cover S. -/
def subsumesTabS (held : LockMode) : Bool :=
  if held = .exclusive then true
  else if held = .six then true
  else if held = .shared then true
  else false

/-- `subsumes(held, EXLUCSIVE)` of lock_exclusive_on_table. -/
def subsumesTabX (held : LockMode) : Bool :=
  held = .exclusive

/-- `subsumes(held, INTENTION_SHARED)` of lock_IS_on_table: every mode covers
IS. -/
def subsumesTabIS (_held : LockMode) : Bool := true

/-- `subsumes(held, INTENTION_EXCLUSIVE)` of lock_IX_on_table. -/
def subsumesTabIX (held : LockMode) : Bool :=
  if held = .exclusive then true
  else if held = .six then true
  else if held = .intentionExclusive then true
  else false

/-- Lock-table queue lookup (`lock_table_.find`). -/
def lookupQueue (tbl : List (LockDataId × List LockRequest)) (lid : LockDataId) :
    Option (List LockRequest) :=
  (tbl.find? (fun q => q.1 == lid)).map Prod.snd

/-- Lock-table queue assignment (`lock_table_[lid]`). -/
def setQueue (tbl : List (LockDataId × List LockRequest)) (lid : LockDataId)
    (q : List LockRequest) : List (LockDataId × List LockRequest) :=
  if (tbl.find? (fun e => e.1 == lid)).isSome then
    tbl.map (fun e => if e.1 == lid then (lid, q) else e)
  else
    tbl ++ [(lid, q)]

/-- Lock-table entry removal (`lock_table_.erase`). -/
def eraseQueue (tbl : List (LockDataId × List LockRequest)) (lid : LockDataId) :
    List (LockDataId × List LockRequest) :=
  tbl.filter (fun e => e.1 ≠ lid)

/-- `txn->get_lock_set()->insert` (a `std::set`). -/
def insertLock (ls : List LockDataId) (lid : LockDataId) : List LockDataId :=
  if lid ∈ ls then ls else ls ++ [lid]

/-- One lock acquisition of mode `mode` on `lid` by the single transaction:
if an own granted request subsumes the mode, only the transaction's lock set
is updated; otherwise the request is enqueued and — no other transaction
being present — granted at once. -/
def TxnLM.doLock (t : TxnLM) (lid : LockDataId) (mode : LockMode)
    (subsumes : LockMode → Bool) : TxnLM :=
  let q := (lookupQueue t.lock_table lid).getD []
  if q.any (fun r => r.txn_id == t.txn_id && r.granted && subsumes r.lock_mode) then
    { t with lock_set := insertLock t.lock_set lid }
  else
    { t with
      lock_table := setQueue t.lock_table lid (q ++ [⟨t.txn_id, mode, true⟩]),
      lock_set := insertLock t.lock_set lid }

/-- The upgrade-aware X-on-record acquisition of lock_exclusive_on_record:
already-X is a no-op; an own granted S with no other granted holder is
upgraded in place; otherwise enqueue-and-grant. -/
def TxnLM.doLockXRecord (t : TxnLM) (lid : LockDataId) : TxnLM :=
  let q := (lookupQueue t.lock_table lid).getD []
  if q.any (fun r => r.txn_id == t.txn_id && r.granted && subsumesRecX r.lock_mode) then
    { t with lock_set := insertLock t.lock_set lid }
  else if q.any (fun r => r.txn_id == t.txn_id && r.granted &&
      r.lock_mode == LockMode.shared) then
    { t with
      lock_table := setQueue t.lock_table lid
        (q.map (fun r => if r.txn_id == t.txn_id && r.granted &&
          r.lock_mode == LockMode.shared then { r with lock_mode := .exclusive }
          else r)),
      lock_set := insertLock t.lock_set lid }
  else
    { t with
      lock_table := setQueue t.lock_table lid (q ++ [⟨t.txn_id, .exclusive, true⟩]),
      lock_set := insertLock t.lock_set lid }

/-- Effect of one lock manager call: the new state and the raised abort
reason, if any.  Every `lock_*` function checks `state == SHRINKING` before
touching the queue (for the record locks the nested intention-lock call
performs the same check first) and throws `LOCK_ON_SHIRINKING`; `unlock`
transitions GROWING → SHRINKING before removing the requests. -/
def TxnLM.execOp (t : TxnLM) : LockOp → TxnLM × Option AbortReason
  | .isOnTable fd =>
    if t.state = .shrinking then (t, some .lockOnShrinking)
    else (t.doLock (.table fd) .intentionShared subsumesTabIS, none)
  | .ixOnTable fd =>
    if t.state = .shrinking then (t, some .lockOnShrinking)
    else (t.doLock (.table fd) .intentionExclusive subsumesTabIX, none)
  | .sharedOnTable fd =>
    if t.state = .shrinking then (t, some .lockOnShrinking)
    else (t.doLock (.table fd) .shared subsumesTabS, none)
  | .exclusiveOnTable fd =>
    if t.state = .shrinking then (t, some .lockOnShrinking)
    else (t.doLock (.table fd) .exclusive subsumesTabX, none)
  | .sharedOnRecord rid fd =>
    if t.state = .shrinking then (t, some .lockOnShrinking)
    else
      let t1 := t.doLock (.table fd) .intentionShared subsumesTabIS
      if t1.state = .shrinking then (t1, some .lockOnShrinking)
      else (t1.doLock (.record fd rid) .shared subsumesRecS, none)
  | .exclusiveOnRecord rid fd =>
    if t.state = .shrinking then (t, some .lockOnShrinking)
    else
      let t1 := t.doLock (.table fd) .intentionExclusive subsumesTabIX
      if t1.state = .shrinking then (t1, some .lockOnShrinking)
      else (t1.doLockXRecord (.record fd rid), none)
  | .unlock lid =>
    let t1 := if t.state = .growing then { t with state := .shrinking } else t
    match lookupQueue t1.lock_table lid with
    | none => (t1, none)
    | some q =>
      let q' := q.filter (fun r => r.txn_id ≠ t1.txn_id)
      if q'.length = q.length then (t1, none)
      else
        let t2 := { t1 with lock_set := t1.lock_set.filter (fun l => l ≠ lid) }
        if q'.isEmpty then
          ({ t2 with lock_table := eraseQueue t2.lock_table lid }, none)
        else
          ({ t2 with lock_table := setQueue t2.lock_table lid q' }, none)

/-- Effect of a call sequence (errors discarded; an erroring call leaves the
state unchanged). -/
def TxnLM.execOps (t : TxnLM) (ops : List LockOp) : TxnLM :=
  ops.foldl (fun u op => (u.execOp op).1) t

theorem TxnLM.execOp_state (t : TxnLM) (op : LockOp) :
    ((t.execOp op).1).state =
      (match op with
      | .unlock _ => if t.state = .growing then .shrinking else t.state
      | _ => t.state) := by
  cases op <;>
    simp only [TxnLM.execOp, TxnLM.doLock, TxnLM.doLockXRecord] <;>
    (repeat' split) <;>
    rfl


/-- C3: two-phase locking as a never property.  A transaction's first
`unlock` call moves it from GROWING to SHRINKING; any lock acquisition call
by a SHRINKING transaction raises LOCK_ON_SHIRINKING and changes nothing (no
lock is granted); hence after any `unlock` in a call sequence, every later
lock acquisition raises the phase violation and grants nothing. -/
theorem two_phase_locking_never :
    (∀ (t : TxnLM) (lid : LockDataId), t.state = .growing →
      ((t.execOp (.unlock lid)).1).state = .shrinking) ∧
    (∀ (t : TxnLM) (op : LockOp), t.state = .shrinking → op.isLock = true →
      t.execOp op = (t, some .lockOnShrinking)) ∧
    (∀ (t0 : TxnLM), (t0.state = .growing ∨ t0.state = .shrinking) →
      ∀ (pre mid : List LockOp) (lid : LockDataId) (op : LockOp),
      op.isLock = true →
      (t0.execOps (pre ++ .unlock lid :: mid)).execOp op =
        (t0.execOps (pre ++ .unlock lid :: mid), some .lockOnShrinking)) := by
  have habsorb : ∀ (t : TxnLM) (op : LockOp), t.state = .shrinking →
      ((t.execOp op).1).state = .shrinking := by
    intro t op h
    rw [TxnLM.execOp_state]
    cases op
    case unlock lid =>
      rw [if_neg (by rw [h]; decide)]
      exact h
    all_goals exact h
  have hgs : ∀ (t : TxnLM) (op : LockOp),
      (t.state = .growing ∨ t.state = .shrinking) →
      (((t.execOp op).1).state = .growing ∨
        ((t.execOp op).1).state = .shrinking) := by
    intro t op h
    rw [TxnLM.execOp_state]
    cases op
    case unlock lid =>
      rcases h with h | h
      · rw [if_pos h]
        exact Or.inr rfl
      · rw [if_neg (by rw [h]; decide)]
        exact Or.inr h
    all_goals exact h
  have hshr : ∀ (t : TxnLM) (op : LockOp), t.state = .shrinking →
      op.isLock = true → t.execOp op = (t, some .lockOnShrinking) := by
    intro t op hs hop
    cases op
    case unlock lid => simp [LockOp.isLock] at hop
    all_goals
      simp only [TxnLM.execOp]
      rw [if_pos hs]
  have hfold : ∀ (ops : List LockOp) (t : TxnLM),
      (t.state = .growing ∨ t.state = .shrinking) →
      ((t.execOps ops).state = .growing ∨ (t.execOps ops).state = .shrinking) := by
    intro ops
    induction ops with
    | nil => intro t h; exact h
    | cons op rest ih => intro t h; exact ih _ (hgs t op h)
  have hfold2 : ∀ (ops : List LockOp) (t : TxnLM), t.state = .shrinking →
      (t.execOps ops).state = .shrinking := by
    intro ops
    induction ops with
    | nil => intro t h; exact h
    | cons op rest ih => intro t h; exact ih _ (habsorb t op h)
  refine ⟨?_, hshr, ?_⟩
  · intro t lid h
    rw [TxnLM.execOp_state]
    rw [if_pos h]
  · intro t0 h0 pre mid lid op hop
    have hsplit : t0.execOps (pre ++ .unlock lid :: mid) =
        (((t0.execOps pre).execOp (.unlock lid)).1).execOps mid := by
      simp [TxnLM.execOps, List.foldl_append]
    have hunlock : (((t0.execOps pre).execOp (.unlock lid)).1).state = .shrinking := by
      rw [TxnLM.execOp_state]
      rcases hfold pre t0 h0 with h | h
      · rw [if_pos h]
      · rw [if_neg (by rw [h]; decide)]
        exact h
    rw [hsplit]
    exact hshr _ op (hfold2 mid _ hunlock) hop

/-! ## B+ tree index (ix_index_handle.cpp)

Keys are the per-column integer values (the `TYPE_INT` case of `ix_compare`,
compared column by column, first difference wins).  A node holds the page
header fields (`is_leaf`, `parent`, leaf links) and the key/rid arrays; pages
are an association list from page number to node; `next_alloc` is the buffer
pool's page allocator counter for the index file.  `binary_search` is false
in the source, so `lower_bound` / `upper_bound` are the sequential-scan
versions.  Recursive descent uses explicit fuel; `none` means the fuel ran
out or a fetched page was absent. -/

/-- `IX_NO_PAGE` (= `INVALID_PAGE_ID` = -1). -/
def ixNoPage : Int := -1

/-- `IX_LEAF_HEADER_PAGE`: page 1 is the leaf-list sentinel. -/
def ixLeafHeaderPage : Int := 1

instance : Inhabited Rid := ⟨⟨0, 0⟩⟩

/-- The column loop of `ix_compare`: compare column by column, first nonzero
result wins, equal prefixes compare equal. -/
def ixCompare : List Int → List Int → Int
  | [], _ => 0
  | _ :: _, [] => 0
  | a :: as, b :: bs =>
    if a < b then -1 else if b < a then 1 else ixCompare as bs

/-- `IxNodeHandle::lower_bound` (sequential version): index of the first key
`≥ target`, or the key count. -/
def ixLowerBound (keys : List (List Int)) (target : List Int) : Nat :=
  match keys with
  | [] => 0
  | k :: rest =>
    if ixCompare k target ≥ 0 then 0 else ixLowerBound rest target + 1

/-- The scan from position 1 of `IxNodeHandle::upper_bound`. -/
def ixScanGT (l : List (List Int)) (target : List Int) : Nat :=
  match l with
  | [] => 0
  | k :: rest =>
    if ixCompare k target > 0 then 0 else ixScanGT rest target + 1

/-- `IxNodeHandle::upper_bound` (sequential version): first position `≥ 1`
whose key is `> target`, or the key count (1 on an empty node). -/
def ixUpperBound (keys : List (List Int)) (target : List Int) : Nat :=
  1 + ixScanGT (keys.drop 1) target

/-- A B+ tree node: page header fields plus the key and rid arrays. -/
structure IxNode where
  is_leaf : Bool
  parent : Int
  keys : List (List Int)
  rids : List Rid
  prev_leaf : Int
  next_leaf : Int
deriving Repr, DecidableEq

/-- `IxNodeHandle::leaf_lookup`: `lower_bound`, then in-range equality. -/
def IxNode.leaf_lookup (n : IxNode) (key : List Int) : Option Rid :=
  let pos := ixLowerBound n.keys key
  if pos < n.keys.length ∧ ixCompare (n.keys.getD pos []) key = 0 then
    some (n.rids.getD pos default)
  else none

/-- `IxNodeHandle::internal_lookup`: child page at `upper_bound(key) - 1`. -/
def IxNode.internal_lookup (n : IxNode) (key : List Int) : Int :=
  (n.rids.getD (ixUpperBound n.keys key - 1) default).page_no

/-- Insert one element at position `pos` (`insert_pairs` with `n = 1`). -/
def insertAt {α : Type} (l : List α) (pos : Nat) (a : α) : List α :=
  l.take pos ++ a :: l.drop pos

/-- Erase the element at position `pos` (`erase_pair`). -/
def erasePairAt {α : Type} (l : List α) (pos : Nat) : List α :=
  l.take pos ++ l.drop (pos + 1)

/-- `IxNodeHandle::insert`: no-op when the key already sits at its
`lower_bound` slot (unique index), otherwise insert the pair there. -/
def IxNode.insert (n : IxNode) (key : List Int) (value : Rid) : IxNode :=
  let pos := ixLowerBound n.keys key
  if pos < n.keys.length ∧ ixCompare key (n.keys.getD pos []) = 0 then n
  else { n with keys := insertAt n.keys pos key, rids := insertAt n.rids pos value }

/-- `IxNodeHandle::erase_pair` on a node. -/
def IxNode.erase_pair (n : IxNode) (pos : Nat) : IxNode :=
  { n with keys := erasePairAt n.keys pos, rids := erasePairAt n.rids pos }

/-- `IxNodeHandle::remove`: erase the key's pair when present. -/
def IxNode.remove (n : IxNode) (key : List Int) : IxNode :=
  let pos := ixLowerBound n.keys key
  if pos ≥ n.keys.length ∨ ixCompare (n.keys.getD pos []) key ≠ 0 then n
  else n.erase_pair pos

/-- The index state: file header fields, the pages, and the page allocator
counter of the index file. -/
structure IxState where
  root_page : Int
  first_leaf : Int
  last_leaf : Int
  num_pages : Int
  btree_order : Nat
  pages : List (Int × IxNode)
  next_alloc : Int
deriving Repr, DecidableEq

/-- `get_max_size` = `btree_order_ + 1`. -/
def IxState.maxSize (s : IxState) : Nat := s.btree_order + 1

/-- `get_min_size` = `get_max_size() / 2`. -/
def IxState.minSize (s : IxState) : Nat := (s.btree_order + 1) / 2

/-- Fetch a node by page number (`fetch_node`). -/
def IxState.getPage? (s : IxState) (page_no : Int) : Option IxNode :=
  (s.pages.find? (fun p => p.1 == page_no)).map Prod.snd

/-- Apply `f` to the node at `page_no` (writes through a pinned handle; a
no-op when the page is absent). -/
def IxState.updatePage (s : IxState) (page_no : Int) (f : IxNode → IxNode) :
    IxState :=
  { s with pages := s.pages.map (fun p => if p.1 == page_no then (p.1, f p.2) else p) }

/-- Overwrite the node at `page_no`. -/
def IxState.setPage (s : IxState) (page_no : Int) (n : IxNode) : IxState :=
  s.updatePage page_no (fun _ => n)

/-- `create_node`: `num_pages_++` and a fresh page from the buffer pool. -/
def IxState.addPage (s : IxState) (n : IxNode) : IxState × Int :=
  ({ s with num_pages := s.num_pages + 1, next_alloc := s.next_alloc + 1,
            pages := s.pages ++ [(s.next_alloc, n)] }, s.next_alloc)

/-- The descent loop of `find_leaf_page`: follow `internal_lookup` until a
leaf. -/
def IxState.find_leaf (s : IxState) : Nat → Int → List Int → Option Int
  | 0, _, _ => none
  | fuel + 1, page_no, key =>
    match s.getPage? page_no with
    | none => none
    | some n =>
      if n.is_leaf then some page_no
      else s.find_leaf fuel (n.internal_lookup key) key

/-- `maintain_child`: point child `child_idx` of internal node `nodeNo` back
at `nodeNo`. -/
def IxState.maintain_child (s : IxState) (nodeNo : Int) (child_idx : Nat) :
    IxState :=
  match s.getPage? nodeNo with
  | none => s
  | some n =>
    if ¬ n.is_leaf then
      s.updatePage (n.rids.getD child_idx default).page_no
        (fun c => { c with parent := nodeNo })
    else s

/-- `IxIndexHandle::split`: allocate a right sibling, move the right
`old_size / 2` pairs into it; leaves are spliced into the leaf chain (with
`last_leaf_` maintenance), internal nodes get their moved children's parent
pointers reassigned. -/
def IxState.split (s : IxState) (nodeNo : Int) : Option (IxState × Int) :=
  match s.getPage? nodeNo with
  | none => none
  | some node =>
    let oldSize := node.keys.length
    let move := oldSize / 2
    let newNode : IxNode :=
      { is_leaf := node.is_leaf, parent := node.parent,
        keys := node.keys.drop (oldSize - move),
        rids := node.rids.drop (oldSize - move),
        prev_leaf := 0, next_leaf := 0 }
    let created := s.addPage newNode
    let s1 := created.1
    let newNo := created.2
    let s2 := s1.setPage nodeNo
      { node with keys := node.keys.take (oldSize - move),
                  rids := node.rids.take (oldSize - move) }
    if node.is_leaf then
      let s3 := s2.updatePage newNo
        (fun nn => { nn with next_leaf := node.next_leaf, prev_leaf := nodeNo })
      let s4 :=
        if node.next_leaf ≠ ixNoPage then
          s3.updatePage node.next_leaf (fun nx => { nx with prev_leaf := newNo })
        else s3
      let s5 := s4.updatePage nodeNo (fun nd => { nd with next_leaf := newNo })
      let s6 := if s5.last_leaf = nodeNo then { s5 with last_leaf := newNo } else s5
      some (s6, newNo)
    else
      some ((List.range move).foldl (fun acc i => acc.maintain_child newNo i) s2,
        newNo)

/-- `find_child`: the child index of `childNo` in `parent`. -/
def findChild (parent : IxNode) (childNo : Int) : Option Nat :=
  parent.rids.findIdx? (fun r => r.page_no == childNo)

/-- `insert_into_parent`: a split root gets a fresh root with both halves as
children; otherwise insert `(key, new)` after the old child's slot in the
parent and split upward recursively while the parent is full. -/
def IxState.insert_into_parent (s : IxState) :
    Nat → Int → List Int → Int → Option IxState
  | 0, _, _, _ => none
  | fuel + 1, oldNo, key, newNo =>
    match s.getPage? oldNo with
    | none => none
    | some old =>
      if old.parent = invalidPageId then
        let root : IxNode :=
          { is_leaf := false, parent := ixNoPage,
            keys := [old.keys.getD 0 [], key],
            rids := [⟨oldNo, 0⟩, ⟨newNo, 0⟩], prev_leaf := 0, next_leaf := 0 }
        let created := s.addPage root
        let s1 := created.1
        let rootNo := created.2
        let s2 := s1.updatePage oldNo (fun n => { n with parent := rootNo })
        let s3 := s2.updatePage newNo (fun n => { n with parent := rootNo })
        some { s3 with root_page := rootNo }
      else
        match s.getPage? old.parent with
        | none => none
        | some parent =>
          match findChild parent oldNo with
          | none => none
          | some index =>
            let s1 := s.updatePage newNo (fun n => { n with parent := old.parent })
            let parent' : IxNode :=
              { parent with keys := insertAt parent.keys (index + 1) key,
                            rids := insertAt parent.rids (index + 1) ⟨newNo, 0⟩ }
            let s2 := s1.setPage old.parent parent'
            if parent'.keys.length ≥ s2.maxSize then
              match s2.split old.parent with
              | none => none
              | some (s3, npNo) =>
                match s3.getPage? npNo with
                | none => none
                | some np =>
                  s3.insert_into_parent fuel old.parent (np.keys.getD 0 []) npNo
            else some s2

/-- `IxIndexHandle::insert_entry`: descend to the leaf, insert (a no-op on a
duplicate key), split when the leaf reaches `max_size`, push the new leaf's
first key up, and maintain `last_leaf_`. -/
def IxState.insert_entry (s : IxState) (key : List Int) (rid : Rid)
    (fuel : Nat) : Option (IxState × Int) :=
  match s.find_leaf fuel s.root_page key with
  | none => none
  | some leafNo =>
    match s.getPage? leafNo with
    | none => none
    | some leaf =>
      let oldSize := leaf.keys.length
      let leaf' := leaf.insert key rid
      if leaf'.keys.length = oldSize then some (s, leafNo)
      else
        let s1 := s.setPage leafNo leaf'
        if leaf'.keys.length < s1.maxSize then some (s1, leafNo)
        else
          match s1.split leafNo with
          | none => none
          | some (s2, newNo) =>
            match s2.getPage? newNo with
            | none => none
            | some newLeaf =>
              match s2.insert_into_parent fuel leafNo (newLeaf.keys.getD 0 [])
                  newNo with
              | none => none
              | some s3 =>
                let s4 :=
                  if s3.last_leaf = leafNo then { s3 with last_leaf := newNo }
                  else s3
                some (s4, leafNo)

/-- `adjust_root`: an internal root of size 1 promotes its only child (new
root, parent cleared); an empty leaf root empties the tree (`root_page_ :=
IX_NO_PAGE`, leaf list reduced to the sentinel); otherwise no-op. Returns
whether the old root should be deleted. -/
def IxState.adjust_root (s : IxState) (rootNo : Int) : Option (IxState × Bool) :=
  match s.getPage? rootNo with
  | none => none
  | some old =>
    if ¬ old.is_leaf ∧ old.keys.length = 1 then
      let childNo := (old.rids.getD 0 default).page_no
      let s1 := s.setPage rootNo (old.erase_pair 0)
      let s2 := { s1 with root_page := childNo }
      some (s2.updatePage childNo (fun c => { c with parent := invalidPageId }), true)
    else if old.is_leaf ∧ old.keys.length = 0 then
      some ({ s with root_page := ixNoPage, first_leaf := ixLeafHeaderPage,
                     last_leaf := ixLeafHeaderPage }, true)
    else some (s, false)

/-- `redistribute`: `index = 0` (neighbor is the right sibling) moves the
neighbor's first pair to `node`'s tail and refreshes the parent separator at
position 1; `index > 0` (neighbor is the left sibling) moves the neighbor's
last pair to `node`'s head and refreshes the parent separator at `index`.
Internal nodes get the moved child's parent pointer fixed. -/
def IxState.redistribute (s : IxState) (neighborNo nodeNo parentNo : Int)
    (index : Nat) : IxState :=
  match s.getPage? neighborNo, s.getPage? nodeNo with
  | some neighbor, some node =>
    if index = 0 then
      let node' : IxNode :=
        { node with keys := node.keys ++ [neighbor.keys.getD 0 []],
                    rids := node.rids ++ [neighbor.rids.getD 0 default] }
      let neighbor' := neighbor.erase_pair 0
      let s1 := (s.setPage nodeNo node').setPage neighborNo neighbor'
      let s2 :=
        if ¬ node.is_leaf then s1.maintain_child nodeNo (node'.keys.length - 1)
        else s1
      if neighbor'.keys.length > 0 then
        s2.updatePage parentNo
          (fun p => { p with keys := p.keys.set 1 (neighbor'.keys.getD 0 []) })
      else s2
    else
      let last := neighbor.keys.length - 1
      let node' : IxNode :=
        { node with keys := neighbor.keys.getD last [] :: node.keys,
                    rids := neighbor.rids.getD last default :: node.rids }
      let neighbor' := neighbor.erase_pair last
      let s1 := (s.setPage nodeNo node').setPage neighborNo neighbor'
      let s2 := if ¬ node.is_leaf then s1.maintain_child nodeNo 0 else s1
      if node'.keys.length > 0 then
        s2.updatePage parentNo
          (fun p => { p with keys := p.keys.set index (node'.keys.getD 0 []) })
      else s2
  | _, _ => s

/-- `erase_leaf`: unlink a leaf from the doubly linked leaf list. -/
def IxState.erase_leaf (s : IxState) (leafNo : Int) : IxState :=
  match s.getPage? leafNo with
  | none => s
  | some leaf =>
    (s.updatePage leaf.prev_leaf (fun p => { p with next_leaf := leaf.next_leaf }))
      |>.updatePage leaf.next_leaf (fun n => { n with prev_leaf := leaf.prev_leaf })

/-- The body of `coalesce`, parameterised by the recursive
`coalesce_or_redistribute` call so the fuel threading stays structural: swap
so the right node of the pair merges into the left (`index := 1` when the
neighbor was the right sibling), append all of the right node's pairs, fix
moved children's parents (internal) or splice the leaf list and
`first/last_leaf_` (leaf), erase the separator at the right node's index in
the parent, then dispatch on the parent: `adjust_root` for a root,
recursion on underflow, otherwise done. -/
def IxState.coalesceWith (recur : IxState → Int → Option (IxState × Bool))
    (s : IxState) (neighborNo nodeNo parentNo : Int) (index : Nat) :
    Option (IxState × Bool) :=
  let leftNo := if index = 0 then nodeNo else neighborNo
  let rightNo := if index = 0 then neighborNo else nodeNo
  let idx := if index = 0 then 1 else index
  match s.getPage? leftNo, s.getPage? rightNo with
  | some left, some right =>
    let leftOld := left.keys.length
    let moveCnt := right.keys.length
    let s1 := s.setPage leftNo
      { left with keys := left.keys ++ right.keys,
                  rids := left.rids ++ right.rids }
    let s2 :=
      if ¬ left.is_leaf then
        (List.range moveCnt).foldl
          (fun acc i => acc.maintain_child leftNo (leftOld + i)) s1
      else
        let sA := if rightNo = s1.last_leaf then { s1 with last_leaf := leftNo }
                  else s1
        let sB := if rightNo = sA.first_leaf then
                    { sA with first_leaf := right.next_leaf }
                  else sA
        sB.erase_leaf rightNo
    let s3 := s2.updatePage parentNo (fun pp => pp.erase_pair idx)
    match s3.getPage? parentNo with
    | none => none
    | some pp =>
      if pp.parent = invalidPageId then s3.adjust_root parentNo
      else if pp.keys.length < s3.minSize then recur s3 parentNo
      else some (s3, false)
  | _, _ => none

/-- `coalesce_or_redistribute`: a root goes to `adjust_root`; a node at or
above `min_size` needs nothing; otherwise pick the sibling (the predecessor
when one exists, i.e. `index - 1`, else `index + 1`), redistribute when the
two sizes together support two nodes (`≥ 2 * min_size`), else coalesce. -/
def IxState.coalesce_or_redistribute (s : IxState) :
    Nat → Int → Option (IxState × Bool)
  | 0, _ => none
  | fuel + 1, nodeNo =>
    match s.getPage? nodeNo with
    | none => none
    | some node =>
      if node.parent = invalidPageId then s.adjust_root nodeNo
      else if node.keys.length ≥ s.minSize then some (s, false)
      else
        match s.getPage? node.parent with
        | none => none
        | some parent =>
          match findChild parent nodeNo with
          | none => none
          | some index =>
            let neighborIndex := if index > 0 then index - 1 else index + 1
            let neighborNo := (parent.rids.getD neighborIndex default).page_no
            match s.getPage? neighborNo with
            | none => none
            | some neighbor =>
              if neighbor.keys.length + node.keys.length ≥ 2 * s.minSize then
                some (s.redistribute neighborNo nodeNo node.parent index, false)
              else
                IxState.coalesceWith
                  (fun s' n' => s'.coalesce_or_redistribute fuel n')
                  s neighborNo nodeNo node.parent index

/-- `coalesce` itself (the recursive dispatch rebound to
`coalesce_or_redistribute` with the given fuel). -/
def IxState.coalesce (s : IxState) (fuel : Nat)
    (neighborNo nodeNo parentNo : Int) (index : Nat) :
    Option (IxState × Bool) :=
  IxState.coalesceWith (fun s' n' => s'.coalesce_or_redistribute fuel n')
    s neighborNo nodeNo parentNo index

/-- `maintain_parent`: walk up from `curNo`, copying the child's first key
over the parent separator until it already matches or the root is passed. -/
def IxState.maintain_parent (s : IxState) : Nat → Int → Option IxState
  | 0, _ => none
  | fuel + 1, curNo =>
    match s.getPage? curNo with
    | none => none
    | some cur =>
      if cur.parent ≠ ixNoPage then
        match s.getPage? cur.parent with
        | none => none
        | some parent =>
          match findChild parent curNo with
          | none => none
          | some rank =>
            if parent.keys.getD rank [] = cur.keys.getD 0 [] then some s
            else
              (s.setPage cur.parent
                { parent with keys := parent.keys.set rank (cur.keys.getD 0 []) }
              ).maintain_parent fuel cur.parent
      else some s

/-- `IxIndexHandle::delete_entry`: find the leaf; absent key returns false;
otherwise remove the pair, refresh ancestor separators when the first key
changed (and the leaf stayed nonempty), and run `coalesce_or_redistribute`
when the leaf underflows or is the root. -/
def IxState.delete_entry (s : IxState) (key : List Int) (fuel : Nat) :
    Option (IxState × Bool) :=
  match s.find_leaf fuel s.root_page key with
  | none => none
  | some leafNo =>
    match s.getPage? leafNo with
    | none => none
    | some leaf =>
      if (leaf.leaf_lookup key).isSome = false then some (s, false)
      else
        let pos := ixLowerBound leaf.keys key
        let leaf' := leaf.remove key
        let s1 := s.setPage leafNo leaf'
        match
          (if pos = 0 ∧ leaf'.keys.length > 0 then s1.maintain_parent fuel leafNo
           else some s1) with
        | none => none
        | some s2 =>
          if leaf'.parent ≠ invalidPageId ∧ leaf'.keys.length < s2.minSize then
            match s2.coalesce_or_redistribute fuel leafNo with
            | none => none
            | some (s3, _) => some (s3, true)
          else if leaf'.parent = invalidPageId then
            match s2.coalesce_or_redistribute fuel leafNo with
            | none => none
            | some (s3, _) => some (s3, true)
          else some (s2, true)

/-! ### C4: duplicate insert is a no-op -/

theorem ixCompare_zero_symm : ∀ (a b : List Int), ixCompare a b = 0 →
    ixCompare b a = 0
  | [], b, _ => by cases b <;> simp [ixCompare]
  | _ :: _, [], _ => by simp [ixCompare]
  | a :: as, b :: bs, h => by
    simp only [ixCompare] at h ⊢
    by_cases hab : a < b
    · rw [if_pos hab] at h
      exact absurd h (by decide)
    · rw [if_neg hab] at h
      by_cases hba : b < a
      · rw [if_pos hba] at h
        exact absurd h (by decide)
      · rw [if_neg hba] at h
        rw [if_neg hba, if_neg hab]
        exact ixCompare_zero_symm as bs h

/-- **C4.** If the key is already present in the target leaf (its
`lower_bound` slot holds an equal key, i.e. `leaf_lookup` succeeds),
`insert_entry` with any new rid returns the *same* index state — no node,
leaf-chain or header modification — and the previously stored rid for the
key is retained. -/
theorem ix_insert_entry_duplicate_noop (s : IxState) (key : List Int)
    (rid' : Rid) (fuel : Nat) (leafNo : Int) (leaf : IxNode) (r : Rid)
    (hfind : s.find_leaf fuel s.root_page key = some leafNo)
    (hpage : s.getPage? leafNo = some leaf)
    (hlook : leaf.leaf_lookup key = some r) :
    s.insert_entry key rid' fuel = some (s, leafNo) ∧
      ∃ lf, s.getPage? leafNo = some lf ∧ lf.leaf_lookup key = some r := by
  have hlook' := hlook
  simp only [IxNode.leaf_lookup] at hlook'
  have hcond : ixLowerBound leaf.keys key < leaf.keys.length ∧
      ixCompare (leaf.keys.getD (ixLowerBound leaf.keys key) []) key = 0 := by
    by_contra hc
    rw [if_neg hc] at hlook'
    exact Option.noConfusion hlook'
  have hins : leaf.insert key rid' = leaf := by
    simp only [IxNode.insert]
    rw [if_pos ⟨hcond.1, ixCompare_zero_symm _ _ hcond.2⟩]
  refine ⟨?_, leaf, hpage, hlook⟩
  simp [IxState.insert_entry, hfind, hpage, hins]

def ixC4Leaf : IxNode :=
  { is_leaf := true, parent := -1, keys := [[5]], rids := [⟨1, 1⟩],
    prev_leaf := 1, next_leaf := 1 }

def ixC4State : IxState :=
  { root_page := 2, first_leaf := 2, last_leaf := 2, num_pages := 3,
    btree_order := 3, pages := [(2, ixC4Leaf)], next_alloc := 3 }

theorem ix_insert_entry_duplicate_noop_witness :
    ixC4State.insert_entry [5] ⟨7, 7⟩ 1 = some (ixC4State, 2) ∧
      ∃ lf, ixC4State.getPage? 2 = some lf ∧
        lf.leaf_lookup [5] = some ⟨1, 1⟩ :=
  ix_insert_entry_duplicate_noop ixC4State [5] ⟨7, 7⟩ 1 2 ixC4Leaf ⟨1, 1⟩
    (by decide) (by decide) (by decide)

/-! ### Page-map lemmas for the index state -/

theorem find?_update_snd (l : List (Int × IxNode)) (p q : Int)
    (f : IxNode → IxNode) :
    ((l.map (fun e => if e.1 == p then (e.1, f e.2) else e)).find?
        (fun e => e.1 == q)).map Prod.snd =
      if q = p then
        ((l.find? (fun e => e.1 == q)).map Prod.snd).map f
      else (l.find? (fun e => e.1 == q)).map Prod.snd := by
  induction l with
  | nil => by_cases h : q = p <;> simp [h]
  | cons a t ih =>
    by_cases hap : a.1 = p
    · by_cases haq : a.1 = q
      · have hqp : q = p := haq.symm.trans hap
        simp [hap, haq, hqp]
      · have hqp : ¬ q = p := fun h => haq (hap.trans h.symm)
        simp only [List.map_cons, if_pos (beq_iff_eq.mpr hap)]
        rw [List.find?_cons_of_neg _ (by simp [haq]),
          List.find?_cons_of_neg _ (by simp [haq])]
        simp only [ih, if_neg hqp]
    · have hb : (a.1 == p) = false := beq_eq_false_iff_ne.mpr hap
      by_cases haq : a.1 = q
      · have hqp : ¬ q = p := fun h => hap (haq.trans h)
        simp only [List.map_cons, hb, Bool.false_eq_true, if_false]
        rw [List.find?_cons_of_pos _ (by simp [haq]),
          List.find?_cons_of_pos _ (by simp [haq])]
        simp [hqp]
      · simp only [List.map_cons, hb, Bool.false_eq_true, if_false]
        rw [List.find?_cons_of_neg _ (by simp [haq]),
          List.find?_cons_of_neg _ (by simp [haq])]
        exact ih

/-- Reading through `updatePage`: the updated page gets `f` mapped over it,
everything else is untouched. -/
theorem getPage?_updatePage (s : IxState) (p : Int) (f : IxNode → IxNode)
    (q : Int) :
    (s.updatePage p f).getPage? q =
      if q = p then (s.getPage? q).map f else s.getPage? q := by
  simp only [IxState.getPage?, IxState.updatePage]
  exact find?_update_snd s.pages p q f

/-- Reading through `setPage`. -/
theorem getPage?_setPage (s : IxState) (p : Int) (n : IxNode) (q : Int) :
    (s.setPage p n).getPage? q =
      if q = p then (s.getPage? q).map (fun _ => n) else s.getPage? q :=
  getPage?_updatePage s p (fun _ => n) q

/-- `getPage?` only reads the page list. -/
theorem getPage?_eq_of_pages {s t : IxState} (h : s.pages = t.pages)
    (q : Int) : s.getPage? q = t.getPage? q := by
  simp only [IxState.getPage?, h]

/-- Reading an appended page list. -/
theorem getPage?_pages_append {s t : IxState} (a : Int) (n : IxNode)
    (h : t.pages = s.pages ++ [(a, n)]) (q : Int) :
    t.getPage? q =
      (s.getPage? q).or (if a = q then some n else none) := by
  simp only [IxState.getPage?, h, List.find?_append]
  cases hf : s.pages.find? (fun e => e.1 == q) with
  | some v => simp
  | none =>
    by_cases haq : a = q
    · simp [haq]
    · have hb : (a == q) = false := beq_eq_false_iff_ne.mpr haq
      simp [hb, haq]

/-- A `parent`-only rewrite is idempotent on an optional node. -/
theorem map_parent_idem (o : Option IxNode) (v : Int) :
    ((o.map (fun c => { c with parent := v })).map
        (fun c => { c with parent := v })) =
      o.map (fun c => { c with parent := v }) := by
  cases o <;> rfl

/-- Effect of folding `maintain_child tgt (off + ·)` over `List.range k`:
the internal node `tgt` itself is untouched, and any other page is exactly
the original with `parent := tgt` when it is one of the touched children,
original otherwise. -/
theorem maintain_child_fold (s2 : IxState) (tgt : Int) (tn : IxNode)
    (off : Nat) (hnl : tn.is_leaf = false)
    (hchild : ∀ r ∈ tn.rids, r.page_no ≠ tgt) (k : Nat)
    (hk : off + k ≤ tn.rids.length)
    (ha : s2.getPage? tgt = some tn) :
    ((List.range k).foldl (fun acc i => acc.maintain_child tgt (off + i))
        s2).getPage? tgt = some tn ∧
    ∀ q, q ≠ tgt →
      ((List.range k).foldl (fun acc i => acc.maintain_child tgt (off + i))
          s2).getPage? q =
        if ((List.range k).any
            (fun i => (tn.rids.getD (off + i) default).page_no == q)) = true
        then (s2.getPage? q).map (fun c => { c with parent := tgt })
        else s2.getPage? q := by
  induction k with
  | zero => exact ⟨ha, fun q _ => by simp⟩
  | succ k ih =>
    have hk' : off + k ≤ tn.rids.length := by omega
    obtain ⟨iha, ihb⟩ := ih hk'
    have hlt : off + k < tn.rids.length := by omega
    have hmem : tn.rids.getD (off + k) default ∈ tn.rids := by
      rw [List.getD_eq_getElem?_getD, List.getElem?_eq_getElem hlt,
        Option.getD_some]
      exact List.getElem_mem hlt
    have hck : (tn.rids.getD (off + k) default).page_no ≠ tgt :=
      hchild _ hmem
    rw [List.range_succ, List.foldl_append]
    simp only [List.foldl_cons, List.foldl_nil]
    set F := (List.range k).foldl (fun acc i => acc.maintain_child tgt (off + i)) s2 with hF
    have hstep : F.maintain_child tgt (off + k) =
        F.updatePage (tn.rids.getD (off + k) default).page_no
          (fun c => { c with parent := tgt }) := by
      simp [IxState.maintain_child, iha, hnl]
    rw [hstep]
    constructor
    · rw [getPage?_updatePage, if_neg (fun h => hck h.symm)]
      exact iha
    · intro q hq
      rw [getPage?_updatePage, List.any_append]
      by_cases hqc : q = (tn.rids.getD (off + k) default).page_no
      · rw [if_pos hqc, ihb q hq]
        have hco : ((tn.rids.getD (off + k) default).page_no == q) = true :=
          beq_iff_eq.mpr hqc.symm
        have hsing : ([k].any
            (fun i => (tn.rids.getD (off + i) default).page_no == q)) = true := by
          simp only [List.any_cons, List.any_nil, Bool.or_false]
          exact hco
        by_cases hany : ((List.range k).any
            (fun i => (tn.rids.getD (off + i) default).page_no == q)) = true
        · rw [if_pos hany, map_parent_idem, if_pos (by rw [hany, Bool.true_or])]
        · rw [if_neg hany, if_pos (by rw [hsing, Bool.or_true])]
      · rw [if_neg hqc, ihb q hq]
        have hco : ((tn.rids.getD (off + k) default).page_no == q) = false :=
          beq_eq_false_iff_ne.mpr (fun h => hqc h.symm)
        have hsing : ([k].any
            (fun i => (tn.rids.getD (off + i) default).page_no == q)) = false := by
          simp only [List.any_cons, List.any_nil, Bool.or_false]
          exact hco
        rw [hsing, Bool.or_false]

/-! ### C5: split moves the right half

`split` is decomposed into named stages (proved equal to the definition in
`split_eq`) so each buffer write can be reasoned about separately. -/

/-- The right-sibling node created by `split` before leaf-chain fixing. -/
def splitNewNode (node : IxNode) : IxNode :=
  { is_leaf := node.is_leaf, parent := node.parent,
    keys := node.keys.drop (node.keys.length - node.keys.length / 2),
    rids := node.rids.drop (node.keys.length - node.keys.length / 2),
    prev_leaf := 0, next_leaf := 0 }

/-- The original node trimmed to its left half. -/
def splitTrimmed (node : IxNode) : IxNode :=
  { node with keys := node.keys.take (node.keys.length - node.keys.length / 2),
              rids := node.rids.take (node.keys.length - node.keys.length / 2) }

/-- State after creating the sibling and trimming the original node. -/
def splitBase (s : IxState) (nodeNo : Int) (node : IxNode) : IxState :=
  ((s.addPage (splitNewNode node)).1).setPage nodeNo (splitTrimmed node)

def splitS3 (s : IxState) (nodeNo : Int) (node : IxNode) : IxState :=
  (splitBase s nodeNo node).updatePage s.next_alloc
    (fun nn => { nn with next_leaf := node.next_leaf, prev_leaf := nodeNo })

def splitS4 (s : IxState) (nodeNo : Int) (node : IxNode) : IxState :=
  if node.next_leaf ≠ ixNoPage then
    (splitS3 s nodeNo node).updatePage node.next_leaf
      (fun nx => { nx with prev_leaf := s.next_alloc })
  else splitS3 s nodeNo node

def splitS5 (s : IxState) (nodeNo : Int) (node : IxNode) : IxState :=
  (splitS4 s nodeNo node).updatePage nodeNo
    (fun nd => { nd with next_leaf := s.next_alloc })

/-- Final state of `split` on a leaf. -/
def splitLeafFinal (s : IxState) (nodeNo : Int) (node : IxNode) : IxState :=
  if (splitS5 s nodeNo node).last_leaf = nodeNo then
    { splitS5 s nodeNo node with last_leaf := s.next_alloc }
  else splitS5 s nodeNo node

/-- Final state of `split` on an internal node. -/
def splitInternalFinal (s : IxState) (nodeNo : Int) (node : IxNode) : IxState :=
  (List.range (node.keys.length / 2)).foldl
    (fun acc i => acc.maintain_child s.next_alloc i) (splitBase s nodeNo node)

theorem split_eq (s : IxState) (nodeNo : Int) (node : IxNode)
    (hpage : s.getPage? nodeNo = some node) :
    s.split nodeNo =
      some
        (if node.is_leaf then splitLeafFinal s nodeNo node
         else splitInternalFinal s nodeNo node, s.next_alloc) := by
  simp only [IxState.split, hpage, splitLeafFinal, splitS5, splitS4, splitS3,
    splitBase, splitNewNode, splitTrimmed, splitInternalFinal, IxState.addPage]
  by_cases hleaf : node.is_leaf = true
  · rw [if_pos hleaf, if_pos hleaf]
  · rw [if_neg hleaf, if_neg hleaf]

/-- Reading the state after `addPage`. -/
theorem getPage?_addPage (s : IxState) (n : IxNode) (q : Int) :
    (s.addPage n).1.getPage? q =
      (s.getPage? q).or (if s.next_alloc = q then some n else none) :=
  getPage?_pages_append s.next_alloc n rfl q

theorem base_getPage (s : IxState) (nodeNo : Int) (node : IxNode) (q : Int)
    (hne : nodeNo ≠ s.next_alloc) (hfresh : s.getPage? s.next_alloc = none)
    (hpage : s.getPage? nodeNo = some node) :
    (splitBase s nodeNo node).getPage? q =
      if q = nodeNo then some (splitTrimmed node)
      else if q = s.next_alloc then some (splitNewNode node)
      else s.getPage? q := by
  rw [splitBase, getPage?_setPage, getPage?_addPage]
  by_cases h1 : q = nodeNo
  · rw [if_pos h1, if_pos h1, h1, hpage]
    rw [if_neg (fun h => hne h.symm)]
    rfl
  · rw [if_neg h1, if_neg h1]
    by_cases h2 : q = s.next_alloc
    · rw [if_pos h2, h2, hfresh, if_pos rfl]
      rfl
    · rw [if_neg h2, if_neg (fun h => h2 h.symm), Option.or_none]

theorem splitS5_last_leaf (s : IxState) (nodeNo : Int) (node : IxNode) :
    (splitS5 s nodeNo node).last_leaf = s.last_leaf := by
  rw [splitS5, splitS4]
  by_cases h : node.next_leaf ≠ ixNoPage <;>
    simp [h, splitS3, splitBase, IxState.updatePage, IxState.setPage,
      IxState.addPage]

theorem splitS5_first_leaf (s : IxState) (nodeNo : Int) (node : IxNode) :
    (splitS5 s nodeNo node).first_leaf = s.first_leaf := by
  rw [splitS5, splitS4]
  by_cases h : node.next_leaf ≠ ixNoPage <;>
    simp [h, splitS3, splitBase, IxState.updatePage, IxState.setPage,
      IxState.addPage]

theorem splitLeafFinal_getPage (s : IxState) (nodeNo : Int) (node : IxNode)
    (q : Int) :
    (splitLeafFinal s nodeNo node).getPage? q =
      (splitS5 s nodeNo node).getPage? q := by
  rw [splitLeafFinal]
  by_cases h : (splitS5 s nodeNo node).last_leaf = nodeNo
  · rw [if_pos h]
    exact getPage?_eq_of_pages rfl q
  · rw [if_neg h]

theorem ixCompare_self : ∀ (a : List Int), ixCompare a a = 0
  | [] => rfl
  | x :: xs => by simp [ixCompare, ixCompare_self xs]

/-- Keys sorted in nondecreasing `ixCompare` order. -/
def ixSorted (l : List (List Int)) : Prop :=
  l.Pairwise (fun a b => ixCompare a b ≤ 0)

theorem getD_drop {α : Type} (l : List α) (n i : Nat) (d : α) :
    (l.drop n).getD i d = l.getD (n + i) d := by
  rw [List.getD_eq_getElem?_getD, List.getD_eq_getElem?_getD,
    List.getElem?_drop]

theorem getD_mem {α : Type} (l : List α) (i : Nat) (d : α)
    (h : i < l.length) : l.getD i d ∈ l := by
  rw [List.getD_eq_getElem?_getD, List.getElem?_eq_getElem h, Option.getD_some]
  exact List.getElem_mem h

theorem splitLeafFinal_last_leaf (s : IxState) (nodeNo : Int) (node : IxNode) :
    (splitLeafFinal s nodeNo node).last_leaf =
      if s.last_leaf = nodeNo then s.next_alloc else s.last_leaf := by
  rw [splitLeafFinal]
  by_cases h : s.last_leaf = nodeNo
  · rw [if_pos (by rw [splitS5_last_leaf]; exact h), if_pos h]
  · rw [if_neg (by rw [splitS5_last_leaf]; exact h), if_neg h,
      splitS5_last_leaf]

theorem splitLeafFinal_first_leaf (s : IxState) (nodeNo : Int)
    (node : IxNode) :
    (splitLeafFinal s nodeNo node).first_leaf = s.first_leaf := by
  rw [splitLeafFinal]
  by_cases h : (splitS5 s nodeNo node).last_leaf = nodeNo
  · rw [if_pos h]
    exact splitS5_first_leaf s nodeNo node
  · rw [if_neg h]
    exact splitS5_first_leaf s nodeNo node

/-- **C5.** `split` allocates the next fresh page as the right sibling and
moves exactly the right `old_size / 2` pairs into it in order, leaving
`old_size - old_size / 2` in the original node; leaves are spliced into the
leaf chain after the original (`prev`/`next` pointers of the new node, old
node, and old successor) with `last_leaf_` updated exactly when the original
was the last leaf; internal nodes get every moved child's parent pointer
reassigned to the new node; the key that `insert_entry` / `insert_into_parent`
promote is the new node's `key[0]`, which equals the first key of the right
half and is minimal among the moved keys when the node was sorted. -/
theorem ix_split_effect (s : IxState) (nodeNo : Int) (node : IxNode)
    (move keep : Nat)
    (hpage : s.getPage? nodeNo = some node)
    (hfresh : s.getPage? s.next_alloc = none)
    (hsize : s.maxSize ≤ node.keys.length)
    (hlen : node.rids.length = node.keys.length)
    (hmove : move = node.keys.length / 2)
    (hkeep : keep = node.keys.length - move)
    (hchild : node.is_leaf = false → ∀ r ∈ node.rids,
        r.page_no ≠ nodeNo ∧ r.page_no ≠ s.next_alloc)
    (hnx1 : node.is_leaf = true → node.next_leaf ≠ nodeNo)
    (hnx2 : node.is_leaf = true → node.next_leaf ≠ s.next_alloc) :
    ∃ s' newNo,
      s.split nodeNo = some (s', newNo) ∧ newNo = s.next_alloc ∧
      (∃ nn, s'.getPage? newNo = some nn ∧
        nn.keys = node.keys.drop keep ∧ nn.rids = node.rids.drop keep ∧
        nn.keys.length = move ∧ nn.is_leaf = node.is_leaf ∧
        nn.parent = node.parent ∧
        nn.keys.getD 0 [] = node.keys.getD keep [] ∧
        (ixSorted node.keys → ∀ i < move,
          ixCompare (nn.keys.getD 0 []) (nn.keys.getD i []) ≤ 0)) ∧
      (∃ nd, s'.getPage? nodeNo = some nd ∧
        nd.keys = node.keys.take keep ∧ nd.rids = node.rids.take keep ∧
        nd.keys.length = keep ∧ nd.is_leaf = node.is_leaf) ∧
      (node.is_leaf = true →
        (∃ nn, s'.getPage? newNo = some nn ∧ nn.prev_leaf = nodeNo ∧
          nn.next_leaf = node.next_leaf) ∧
        (∃ nd, s'.getPage? nodeNo = some nd ∧ nd.next_leaf = newNo) ∧
        (node.next_leaf ≠ ixNoPage → ∀ nx,
          s.getPage? node.next_leaf = some nx →
          s'.getPage? node.next_leaf = some { nx with prev_leaf := newNo }) ∧
        s'.last_leaf = (if s.last_leaf = nodeNo then newNo else s.last_leaf) ∧
        s'.first_leaf = s.first_leaf) ∧
      (node.is_leaf = false →
        ∀ i < move, ∀ c,
          s.getPage? ((node.rids.getD (keep + i) default).page_no) = some c →
          s'.getPage? ((node.rids.getD (keep + i) default).page_no) =
            some { c with parent := newNo }) := by
  have hne : nodeNo ≠ s.next_alloc := by
    intro h
    rw [h, hfresh] at hpage
    exact Option.noConfusion hpage
  have hmle : move ≤ node.keys.length := hmove ▸ Nat.div_le_self _ _
  have hbase := fun q => base_getPage s nodeNo node q hne hfresh hpage
  have hnnkeys : (splitNewNode node).keys = node.keys.drop keep := by
    rw [splitNewNode, hkeep, hmove]
  have hnnrids : (splitNewNode node).rids = node.rids.drop keep := by
    rw [splitNewNode, hkeep, hmove]
  have hnklen : (node.keys.drop keep).length = move := by
    rw [List.length_drop, hkeep]
    omega
  have hnrlen : (node.rids.drop keep).length = move := by
    rw [List.length_drop, hkeep, hlen]
    omega
  have hgd0 : (node.keys.drop keep).getD 0 [] = node.keys.getD keep [] := by
    rw [getD_drop, Nat.add_zero]
  have hsorted : ixSorted node.keys → ∀ i < move,
      ixCompare ((node.keys.drop keep).getD 0 [])
        ((node.keys.drop keep).getD i []) ≤ 0 := by
    intro hs i hi
    have hp : (node.keys.drop keep).Pairwise (fun a b => ixCompare a b ≤ 0) :=
      List.Pairwise.sublist (List.drop_sublist _ _) hs
    rcases Nat.eq_zero_or_pos i with hz | hpos
    · subst hz
      rw [ixCompare_self]
    · have h0 : 0 < (node.keys.drop keep).length := by
        rw [hnklen]; omega
      have hil : i < (node.keys.drop keep).length := by
        rw [hnklen]; exact hi
      have := (List.pairwise_iff_get.mp hp) ⟨0, h0⟩ ⟨i, hil⟩ hpos
      rwa [List.getD_eq_getElem?_getD, List.getD_eq_getElem?_getD,
        List.getElem?_eq_getElem h0, List.getElem?_eq_getElem hil,
        Option.getD_some, Option.getD_some]
  rw [split_eq s nodeNo node hpage]
  by_cases hleaf : node.is_leaf = true
  · -- leaf case
    rw [if_pos hleaf]
    have h5 : ∀ q, (splitS5 s nodeNo node).getPage? q =
        if q = nodeNo then
          ((splitS4 s nodeNo node).getPage? q).map
            (fun nd => { nd with next_leaf := s.next_alloc })
        else (splitS4 s nodeNo node).getPage? q := by
      intro q
      rw [splitS5, getPage?_updatePage]
    have h3 : ∀ q, (splitS3 s nodeNo node).getPage? q =
        if q = s.next_alloc then
          ((splitBase s nodeNo node).getPage? q).map
            (fun nn =>
              { nn with
                  next_leaf := node.next_leaf
                  prev_leaf := nodeNo })
        else (splitBase s nodeNo node).getPage? q := by
      intro q
      rw [splitS3, getPage?_updatePage]
    have h4 : ∀ q, q ≠ node.next_leaf →
        (splitS4 s nodeNo node).getPage? q =
          (splitS3 s nodeNo node).getPage? q := by
      intro q hq
      rw [splitS4]
      by_cases hnxp : node.next_leaf ≠ ixNoPage
      · rw [if_pos hnxp, getPage?_updatePage, if_neg hq]
      · rw [if_neg hnxp]
    have hnewv : (splitLeafFinal s nodeNo node).getPage? s.next_alloc =
        some
          { splitNewNode node with
              next_leaf := node.next_leaf
              prev_leaf := nodeNo } := by
      rw [splitLeafFinal_getPage, h5, if_neg (fun h => hne h.symm),
        h4 _ (fun h => hnx2 hleaf h.symm), h3, if_pos rfl, hbase,
        if_neg (fun h => hne h.symm), if_pos rfl, Option.map_some']
    have holdv : (splitLeafFinal s nodeNo node).getPage? nodeNo =
        some { splitTrimmed node with next_leaf := s.next_alloc } := by
      rw [splitLeafFinal_getPage, h5, if_pos rfl,
        h4 _ (fun h => hnx1 hleaf h.symm), h3, if_neg hne, hbase,
        if_pos rfl, Option.map_some']
    refine ⟨_, _, rfl, rfl, ?_, ?_, ?_, ?_⟩
    · refine ⟨_, hnewv, ?_, ?_, ?_, ?_, ?_, ?_, ?_⟩
      · exact hnnkeys
      · exact hnnrids
      · show (splitNewNode node).keys.length = move
        rw [hnnkeys]
        exact hnklen
      · rfl
      · rfl
      · show (splitNewNode node).keys.getD 0 [] = node.keys.getD keep []
        rw [hnnkeys]
        exact hgd0
      · show ixSorted node.keys → ∀ i < move,
          ixCompare ((splitNewNode node).keys.getD 0 [])
            ((splitNewNode node).keys.getD i []) ≤ 0
        rw [hnnkeys]
        exact hsorted
    · refine ⟨_, holdv, ?_, ?_, ?_, ?_⟩
      · show (splitTrimmed node).keys = node.keys.take keep
        rw [splitTrimmed, hkeep, hmove]
      · show (splitTrimmed node).rids = node.rids.take keep
        rw [splitTrimmed, hkeep, hmove]
      · show (splitTrimmed node).keys.length = keep
        rw [splitTrimmed]
        show (node.keys.take (node.keys.length - node.keys.length / 2)).length = keep
        rw [List.length_take]
        omega
      · rfl
    · intro _
      refine ⟨⟨_, hnewv, rfl, rfl⟩, ⟨_, holdv, rfl⟩, ?_, ?_, ?_⟩
      · intro hnxvalid nx hnx
        rw [splitLeafFinal_getPage, h5,
          if_neg (hnx1 hleaf), splitS4, if_pos hnxvalid,
          getPage?_updatePage, if_pos rfl, h3,
          if_neg (hnx2 hleaf), hbase,
          if_neg (hnx1 hleaf),
          if_neg (hnx2 hleaf), hnx, Option.map_some']
      · exact splitLeafFinal_last_leaf s nodeNo node
      · exact splitLeafFinal_first_leaf s nodeNo node
    · intro hfalse
      rw [hleaf] at hfalse
      exact Bool.noConfusion hfalse
  · -- internal case
    rw [if_neg hleaf]
    have hleaf' : node.is_leaf = false := by
      cases h : node.is_leaf
      · rfl
      · exact absurd h hleaf
    have hnnleaf : (splitNewNode node).is_leaf = false := hleaf'
    have hchild' := hchild hleaf'
    have hchildnn : ∀ r ∈ (splitNewNode node).rids, r.page_no ≠ s.next_alloc := by
      intro r hr
      rw [hnnrids] at hr
      exact (hchild' r (List.drop_subset _ _ hr)).2
    have hbasenew : (splitBase s nodeNo node).getPage? s.next_alloc =
        some (splitNewNode node) := by
      rw [hbase, if_neg (fun h => hne h.symm), if_pos rfl]
    have hkle : 0 + node.keys.length / 2 ≤ (splitNewNode node).rids.length := by
      rw [hnnrids, hnrlen]
      omega
    have hfold := maintain_child_fold (splitBase s nodeNo node) s.next_alloc
      (splitNewNode node) 0 hnnleaf hchildnn (node.keys.length / 2) hkle
      hbasenew
    simp only [Nat.zero_add] at hfold
    obtain ⟨hfa, hfb⟩ := hfold
    have hfinal_eq : splitInternalFinal s nodeNo node =
        (List.range (node.keys.length / 2)).foldl
          (fun acc i => acc.maintain_child s.next_alloc i)
          (splitBase s nodeNo node) := rfl
    refine ⟨_, _, rfl, rfl, ?_, ?_, ?_, ?_⟩
    · refine ⟨_, hfinal_eq ▸ hfa, hnnkeys, hnnrids, ?_, rfl, rfl, ?_, ?_⟩
      · rw [hnnkeys]
        exact hnklen
      · rw [hnnkeys]
        exact hgd0
      · rw [hnnkeys]
        exact hsorted
    · have hanyfalse : ((List.range (node.keys.length / 2)).any
          (fun i => ((splitNewNode node).rids.getD i default).page_no ==
            nodeNo)) = false := by
        rw [List.any_eq_false]
        intro i hi
        rw [List.mem_range] at hi
        have hmem : (splitNewNode node).rids.getD i default ∈
            (splitNewNode node).rids := by
          refine getD_mem _ _ _ ?_
          rw [hnnrids, hnrlen, hmove]
          exact hi
        rw [hnnrids] at hmem
        have hnthis := (hchild' _ (List.drop_subset _ _ hmem)).1
        intro hcon
        rw [hnnrids] at hcon
        exact hnthis (beq_iff_eq.mp hcon)
      have hto : (splitInternalFinal s nodeNo node).getPage? nodeNo =
          some (splitTrimmed node) := by
        rw [hfinal_eq, hfb nodeNo hne, hanyfalse,
          if_neg Bool.false_ne_true, hbase, if_pos rfl]
      refine ⟨_, hto, ?_, ?_, ?_, ?_⟩
      · show (splitTrimmed node).keys = node.keys.take keep
        rw [splitTrimmed, hkeep, hmove]
      · show (splitTrimmed node).rids = node.rids.take keep
        rw [splitTrimmed, hkeep, hmove]
      · show (splitTrimmed node).keys.length = keep
        rw [splitTrimmed]
        show (node.keys.take (node.keys.length - node.keys.length / 2)).length = keep
        rw [List.length_take]
        omega
      · rfl
    · intro h
      exact absurd h hleaf
    · intro _ i hi c hc
      have hgdi : (splitNewNode node).rids.getD i default =
          node.rids.getD (keep + i) default := by
        rw [hnnrids, getD_drop]
      have hq : (node.rids.getD (keep + i) default).page_no ≠ s.next_alloc := by
        have hmem : node.rids.getD (keep + i) default ∈ node.rids := by
          refine getD_mem _ _ _ ?_
          rw [hlen]
          omega
        exact (hchild' _ hmem).2
      have hqn : (node.rids.getD (keep + i) default).page_no ≠ nodeNo := by
        have hmem : node.rids.getD (keep + i) default ∈ node.rids := by
          refine getD_mem _ _ _ ?_
          rw [hlen]
          omega
        exact (hchild' _ hmem).1
      have hanytrue : ((List.range (node.keys.length / 2)).any
          (fun j => ((splitNewNode node).rids.getD j default).page_no ==
            (node.rids.getD (keep + i) default).page_no)) = true := by
        rw [List.any_eq_true]
        refine ⟨i, List.mem_range.mpr (hmove ▸ hi), ?_⟩
        rw [hgdi]
        exact beq_self_eq_true _
      rw [hfinal_eq, hfb _ hq, hanytrue, hbase, if_neg hqn, if_neg hq, hc,
        Option.map_some']
      rfl

def ixC5Node : IxNode :=
  { is_leaf := true, parent := -1, keys := [[1], [2], [3], [4]],
    rids := [⟨1, 1⟩, ⟨1, 2⟩, ⟨1, 3⟩, ⟨1, 4⟩], prev_leaf := 1, next_leaf := 3 }

def ixC5Next : IxNode :=
  { is_leaf := true, parent := -1, keys := [[9]], rids := [⟨9, 0⟩],
    prev_leaf := 2, next_leaf := 1 }

def ixC5State : IxState :=
  { root_page := 2, first_leaf := 2, last_leaf := 2, num_pages := 4,
    btree_order := 3, pages := [(2, ixC5Node), (3, ixC5Next)],
    next_alloc := 4 }

theorem ix_split_effect_witness :
    ∃ s' newNo,
      ixC5State.split 2 = some (s', newNo) ∧ newNo = ixC5State.next_alloc ∧
      (∃ nn, s'.getPage? newNo = some nn ∧
        nn.keys = ixC5Node.keys.drop 2 ∧ nn.rids = ixC5Node.rids.drop 2 ∧
        nn.keys.length = 2 ∧ nn.is_leaf = ixC5Node.is_leaf ∧
        nn.parent = ixC5Node.parent ∧
        nn.keys.getD 0 [] = ixC5Node.keys.getD 2 [] ∧
        (ixSorted ixC5Node.keys → ∀ i < 2,
          ixCompare (nn.keys.getD 0 []) (nn.keys.getD i []) ≤ 0)) ∧
      (∃ nd, s'.getPage? 2 = some nd ∧
        nd.keys = ixC5Node.keys.take 2 ∧ nd.rids = ixC5Node.rids.take 2 ∧
        nd.keys.length = 2 ∧ nd.is_leaf = ixC5Node.is_leaf) ∧
      (ixC5Node.is_leaf = true →
        (∃ nn, s'.getPage? newNo = some nn ∧ nn.prev_leaf = 2 ∧
          nn.next_leaf = ixC5Node.next_leaf) ∧
        (∃ nd, s'.getPage? 2 = some nd ∧ nd.next_leaf = newNo) ∧
        (ixC5Node.next_leaf ≠ ixNoPage → ∀ nx,
          ixC5State.getPage? ixC5Node.next_leaf = some nx →
          s'.getPage? ixC5Node.next_leaf =
            some { nx with prev_leaf := newNo }) ∧
        s'.last_leaf =
          (if ixC5State.last_leaf = 2 then newNo else ixC5State.last_leaf) ∧
        s'.first_leaf = ixC5State.first_leaf) ∧
      (ixC5Node.is_leaf = false →
        ∀ i < 2, ∀ c,
          ixC5State.getPage? ((ixC5Node.rids.getD (2 + i) default).page_no) =
            some c →
          s'.getPage? ((ixC5Node.rids.getD (2 + i) default).page_no) =
            some { c with parent := newNo }) :=
  ix_split_effect ixC5State 2 ixC5Node 2 2 (by decide) (by decide) (by decide)
    (by decide) (by decide) (by decide) (by decide) (by decide) (by decide)

/-! ### C6: coalesce_or_redistribute

`pageData` projects a page to its key/rid arrays; chain- and parent-pointer
updates preserve it on every page. -/

def pageData (s : IxState) (q : Int) : Option (List (List Int) × List Rid) :=
  (s.getPage? q).map (fun n => (n.keys, n.rids))

theorem pageData_of {s : IxState} {q : Int} {n : IxNode}
    (h : s.getPage? q = some n) : pageData s q = some (n.keys, n.rids) := by
  unfold pageData
  rw [h]
  rfl

theorem pageData_some {s : IxState} {q : Int} {k : List (List Int)}
    {r : List Rid} (h : pageData s q = some (k, r)) :
    ∃ n, s.getPage? q = some n ∧ n.keys = k ∧ n.rids = r := by
  unfold pageData at h
  cases hc : s.getPage? q with
  | none =>
    rw [hc] at h
    exact Option.noConfusion h
  | some n =>
    rw [hc] at h
    have h2 := Option.some.inj h
    exact ⟨n, rfl, (Prod.mk.injEq _ _ _ _ ▸ h2).1, (Prod.mk.injEq _ _ _ _ ▸ h2).2⟩

theorem pageData_updatePage_keep (s : IxState) (p : Int) (f : IxNode → IxNode)
    (hf : ∀ n, (f n).keys = n.keys ∧ (f n).rids = n.rids) (q : Int) :
    pageData (s.updatePage p f) q = pageData s q := by
  unfold pageData
  rw [getPage?_updatePage]
  by_cases h : q = p
  · rw [if_pos h]
    cases hc : s.getPage? q with
    | none => rfl
    | some a => simp [Option.map_some', (hf a).1, (hf a).2]
  · rw [if_neg h]

theorem pageData_maintain_child (s : IxState) (no : Int) (i : Nat) (q : Int) :
    pageData (s.maintain_child no i) q = pageData s q := by
  cases h : s.getPage? no with
  | none => simp only [IxState.maintain_child, h]
  | some n =>
    simp only [IxState.maintain_child, h]
    by_cases hl : n.is_leaf = true
    · rw [if_neg (fun hc => hc hl)]
    · rw [if_pos hl]
      apply pageData_updatePage_keep
      intro c
      exact ⟨rfl, rfl⟩

theorem pageData_foldl {α : Type} (f : IxState → α → IxState) (l : List α)
    (hf : ∀ t a q, pageData (f t a) q = pageData t q) :
    ∀ (s : IxState) (q : Int), pageData (l.foldl f s) q = pageData s q := by
  induction l with
  | nil => intro s q; rfl
  | cons a t ih =>
    intro s q
    rw [List.foldl_cons, ih (f s a) q, hf s a q]

theorem pageData_erase_leaf (s : IxState) (p : Int) (q : Int) :
    pageData (s.erase_leaf p) q = pageData s q := by
  cases h : s.getPage? p with
  | none => simp only [IxState.erase_leaf, h]
  | some leaf =>
    simp only [IxState.erase_leaf, h]
    rw [pageData_updatePage_keep _ leaf.next_leaf
        (fun n => { n with prev_leaf := leaf.prev_leaf }) (fun c => ⟨rfl, rfl⟩),
      pageData_updatePage_keep _ leaf.prev_leaf
        (fun p => { p with next_leaf := leaf.next_leaf }) (fun c => ⟨rfl, rfl⟩)]

theorem pageData_pages_eq {s t : IxState} (h : s.pages = t.pages) (q : Int) :
    pageData s q = pageData t q := by
  unfold pageData
  rw [getPage?_eq_of_pages h]

/-- Left node of the coalesce pair after the swap normalisation. -/
def coalLeft (index : Nat) (nodeNo nbr : Int) : Int :=
  if index = 0 then nodeNo else nbr

/-- Right node of the coalesce pair (the one being emptied). -/
def coalRight (index : Nat) (nodeNo nbr : Int) : Int :=
  if index = 0 then nbr else nodeNo

/-- The separator slot erased in the parent (`index := 1` after a swap). -/
def coalIdx (index : Nat) : Nat :=
  if index = 0 then 1 else index

/-- After appending all of the right node's pairs to the left node. -/
def coalS1 (s : IxState) (leftNo : Int) (left right : IxNode) : IxState :=
  s.setPage leftNo
    { left with keys := left.keys ++ right.keys,
                rids := left.rids ++ right.rids }

def coalSA (s : IxState) (leftNo rightNo : Int) (left right : IxNode) :
    IxState :=
  if rightNo = (coalS1 s leftNo left right).last_leaf then
    { coalS1 s leftNo left right with last_leaf := leftNo }
  else coalS1 s leftNo left right

def coalSB (s : IxState) (leftNo rightNo : Int) (left right : IxNode) :
    IxState :=
  if rightNo = (coalSA s leftNo rightNo left right).first_leaf then
    { coalSA s leftNo rightNo left right with first_leaf := right.next_leaf }
  else coalSA s leftNo rightNo left right

/-- After child-parent fixing (internal) or leaf-list splicing (leaf). -/
def coalS2 (s : IxState) (leftNo rightNo : Int) (left right : IxNode) :
    IxState :=
  if ¬ left.is_leaf then
    (List.range right.keys.length).foldl
      (fun acc i => acc.maintain_child leftNo (left.keys.length + i))
      (coalS1 s leftNo left right)
  else (coalSB s leftNo rightNo left right).erase_leaf rightNo

/-- After erasing the separator pair in the parent. -/
def coalS3 (s : IxState) (leftNo rightNo parentNo : Int) (idx : Nat)
    (left right : IxNode) : IxState :=
  (coalS2 s leftNo rightNo left right).updatePage parentNo
    (fun pp => pp.erase_pair idx)

theorem coalesceWith_eq (recur : IxState → Int → Option (IxState × Bool))
    (s : IxState) (nbrNo nodeNo parentNo : Int) (index : Nat)
    (left right : IxNode)
    (hleft : s.getPage? (coalLeft index nodeNo nbrNo) = some left)
    (hright : s.getPage? (coalRight index nodeNo nbrNo) = some right) :
    IxState.coalesceWith recur s nbrNo nodeNo parentNo index =
      match (coalS3 s (coalLeft index nodeNo nbrNo)
          (coalRight index nodeNo nbrNo) parentNo (coalIdx index) left
          right).getPage? parentNo with
      | none => none
      | some pp =>
        if pp.parent = invalidPageId then
          (coalS3 s (coalLeft index nodeNo nbrNo)
            (coalRight index nodeNo nbrNo) parentNo (coalIdx index) left
            right).adjust_root parentNo
        else if pp.keys.length <
            (coalS3 s (coalLeft index nodeNo nbrNo)
              (coalRight index nodeNo nbrNo) parentNo (coalIdx index) left
              right).minSize then
          recur (coalS3 s (coalLeft index nodeNo nbrNo)
            (coalRight index nodeNo nbrNo) parentNo (coalIdx index) left
            right) parentNo
        else some (coalS3 s (coalLeft index nodeNo nbrNo)
            (coalRight index nodeNo nbrNo) parentNo (coalIdx index) left
            right, false) := by
  simp only [coalLeft, coalRight] at hleft hright
  simp only [IxState.coalesceWith, hleft, hright, coalS3, coalS2, coalSB,
    coalSA, coalS1, coalLeft, coalRight, coalIdx]

theorem pageData_coalS2 (s : IxState) (leftNo rightNo : Int)
    (left right : IxNode) (q : Int) :
    pageData (coalS2 s leftNo rightNo left right) q =
      pageData (coalS1 s leftNo left right) q := by
  unfold coalS2
  by_cases hlf : ¬ left.is_leaf = true
  · rw [if_pos hlf]
    exact pageData_foldl _ _
      (fun t a q' => pageData_maintain_child t leftNo (left.keys.length + a) q')
      _ q
  · rw [if_neg hlf, pageData_erase_leaf]
    have hpages : (coalSB s leftNo rightNo left right).pages =
        (coalS1 s leftNo left right).pages := by
      unfold coalSB coalSA
      repeat' split
      all_goals rfl
    exact pageData_pages_eq hpages q

theorem coalS1_getPage (s : IxState) (leftNo : Int) (left right : IxNode)
    (hleft : s.getPage? leftNo = some left) (q : Int) :
    (coalS1 s leftNo left right).getPage? q =
      if q = leftNo then
        some { left with keys := left.keys ++ right.keys,
                         rids := left.rids ++ right.rids }
      else s.getPage? q := by
  unfold coalS1
  rw [getPage?_setPage]
  by_cases h : q = leftNo
  · rw [if_pos h, if_pos h, h, hleft, Option.map_some']
  · rw [if_neg h, if_neg h]

/-- **C6.** For a non-root node that underflows (`size < min_size`),
`coalesce_or_redistribute` picks the left sibling (`index - 1`) when the node
is not the leftmost child and the right sibling (`index + 1`) otherwise
(hypothesis `hnbr`); it redistributes exactly when
`neighbor.size + node.size ≥ 2 * min_size`, and otherwise coalesces.
Redistribute moves one boundary pair — the neighbor's first pair onto the
node's tail when the neighbor is the right sibling (`index = 0`), the
neighbor's last pair onto the node's head when it is the left sibling —
updating the parent separator key. Coalesce merges the right node of the
pair into the left, erases the separator at the right node's slot in the
parent, and then calls `adjust_root` on a root parent, recurses upward on an
underflowing parent, and otherwise stops. -/
theorem ix_coalesce_or_redistribute_policy (s : IxState) (fuel : Nat)
    (nodeNo nbr : Int) (index : Nat) (node parent neighbor : IxNode)
    (hnode : s.getPage? nodeNo = some node)
    (hroot : node.parent ≠ invalidPageId)
    (hunder : node.keys.length < s.minSize)
    (hparent : s.getPage? node.parent = some parent)
    (hfind : findChild parent nodeNo = some index)
    (hnbr : nbr = (parent.rids.getD
        (if index > 0 then index - 1 else index + 1) default).page_no)
    (hnbrpage : s.getPage? nbr = some neighbor)
    (hd1 : nodeNo ≠ nbr) (hd2 : nodeNo ≠ node.parent)
    (hd3 : nbr ≠ node.parent) :
    (s.coalesce_or_redistribute (fuel + 1) nodeNo =
      if neighbor.keys.length + node.keys.length ≥ 2 * s.minSize then
        some (s.redistribute nbr nodeNo node.parent index, false)
      else
        IxState.coalesceWith
          (fun s' n' => s'.coalesce_or_redistribute fuel n')
          s nbr nodeNo node.parent index) ∧
    (index = 0 →
      ∃ nd nb pp,
        (s.redistribute nbr nodeNo node.parent index).getPage? nodeNo =
          some nd ∧
        nd.keys = node.keys ++ [neighbor.keys.getD 0 []] ∧
        nd.rids = node.rids ++ [neighbor.rids.getD 0 default] ∧
        (s.redistribute nbr nodeNo node.parent index).getPage? nbr =
          some nb ∧
        nb.keys = erasePairAt neighbor.keys 0 ∧
        nb.rids = erasePairAt neighbor.rids 0 ∧
        (s.redistribute nbr nodeNo node.parent index).getPage? node.parent =
          some pp ∧
        pp.keys = (if 0 < (erasePairAt neighbor.keys 0).length then
            parent.keys.set 1 ((erasePairAt neighbor.keys 0).getD 0 [])
          else parent.keys)) ∧
    (0 < index →
      ∃ nd nb pp,
        (s.redistribute nbr nodeNo node.parent index).getPage? nodeNo =
          some nd ∧
        nd.keys = neighbor.keys.getD (neighbor.keys.length - 1) [] ::
          node.keys ∧
        nd.rids = neighbor.rids.getD (neighbor.keys.length - 1) default ::
          node.rids ∧
        (s.redistribute nbr nodeNo node.parent index).getPage? nbr =
          some nb ∧
        nb.keys = erasePairAt neighbor.keys (neighbor.keys.length - 1) ∧
        nb.rids = erasePairAt neighbor.rids (neighbor.keys.length - 1) ∧
        (s.redistribute nbr nodeNo node.parent index).getPage? node.parent =
          some pp ∧
        pp.keys = parent.keys.set index
          (neighbor.keys.getD (neighbor.keys.length - 1) [])) ∧
    (∃ s3 pp3,
      (∃ lf, s3.getPage? (if index = 0 then nodeNo else nbr) = some lf ∧
        lf.keys = (if index = 0 then node.keys ++ neighbor.keys
          else neighbor.keys ++ node.keys) ∧
        lf.rids = (if index = 0 then node.rids ++ neighbor.rids
          else neighbor.rids ++ node.rids)) ∧
      s3.getPage? node.parent = some pp3 ∧
      pp3.keys = erasePairAt parent.keys (if index = 0 then 1 else index) ∧
      pp3.rids = erasePairAt parent.rids (if index = 0 then 1 else index) ∧
      IxState.coalesceWith (fun s' n' => s'.coalesce_or_redistribute fuel n')
          s nbr nodeNo node.parent index =
        (if pp3.parent = invalidPageId then s3.adjust_root node.parent
         else if pp3.keys.length < s3.minSize then
           s3.coalesce_or_redistribute fuel node.parent
         else some (s3, false))) := by
  refine ⟨?_, ?_, ?_, ?_⟩
  · -- A: dispatch
    simp only [IxState.coalesce_or_redistribute, hnode, hparent, hfind]
    rw [if_neg hroot, if_neg (show ¬ node.keys.length ≥ s.minSize by omega),
      ← hnbr]
    simp only [hnbrpage]
  · -- B0: right-sibling redistribute
    intro h0
    simp only [IxState.redistribute, hnbrpage, hnode, IxNode.erase_pair]
    rw [if_pos h0]
    have hs1node : ((s.setPage nodeNo
        { node with keys := node.keys ++ [neighbor.keys.getD 0 []],
                    rids := node.rids ++ [neighbor.rids.getD 0 default] }
        ).setPage nbr
          { neighbor with keys := erasePairAt neighbor.keys 0,
                          rids := erasePairAt neighbor.rids 0 }
        ).getPage? nodeNo =
        some { node with keys := node.keys ++ [neighbor.keys.getD 0 []],
                         rids := node.rids ++ [neighbor.rids.getD 0 default] } := by
      rw [getPage?_setPage, if_neg hd1, getPage?_setPage, if_pos rfl, hnode,
        Option.map_some']
    have hs1nbr : ((s.setPage nodeNo
        { node with keys := node.keys ++ [neighbor.keys.getD 0 []],
                    rids := node.rids ++ [neighbor.rids.getD 0 default] }
        ).setPage nbr
          { neighbor with keys := erasePairAt neighbor.keys 0,
                          rids := erasePairAt neighbor.rids 0 }
        ).getPage? nbr =
        some { neighbor with keys := erasePairAt neighbor.keys 0,
                             rids := erasePairAt neighbor.rids 0 } := by
      rw [getPage?_setPage, if_pos rfl, getPage?_setPage,
        if_neg (fun h => hd1 h.symm), hnbrpage, Option.map_some']
    have hs1par : ((s.setPage nodeNo
        { node with keys := node.keys ++ [neighbor.keys.getD 0 []],
                    rids := node.rids ++ [neighbor.rids.getD 0 default] }
        ).setPage nbr
          { neighbor with keys := erasePairAt neighbor.keys 0,
                          rids := erasePairAt neighbor.rids 0 }
        ).getPage? node.parent = some parent := by
      rw [getPage?_setPage, if_neg (fun h => hd3 h.symm), getPage?_setPage,
        if_neg (fun h => hd2 h.symm), hparent]
    set s1 := (s.setPage nodeNo
        { node with keys := node.keys ++ [neighbor.keys.getD 0 []],
                    rids := node.rids ++ [neighbor.rids.getD 0 default] }
        ).setPage nbr
          { neighbor with keys := erasePairAt neighbor.keys 0,
                          rids := erasePairAt neighbor.rids 0 } with hs1def
    have hpd2 : ∀ q, pageData (if ¬ node.is_leaf = true then
        s1.maintain_child nodeNo
          ((node.keys ++ [neighbor.keys.getD 0 []]).length - 1)
        else s1) q = pageData s1 q := by
      intro q
      by_cases hlf : ¬ node.is_leaf = true
      · rw [if_pos hlf, pageData_maintain_child]
      · rw [if_neg hlf]
    set s2 := if ¬ node.is_leaf = true then
        s1.maintain_child nodeNo
          ((node.keys ++ [neighbor.keys.getD 0 []]).length - 1)
      else s1 with hs2def
    obtain ⟨nd, hndget, hndk, hndr⟩ :=
      pageData_some ((hpd2 nodeNo).trans (pageData_of hs1node))
    obtain ⟨nb, hnbget, hnbk, hnbr'⟩ :=
      pageData_some ((hpd2 nbr).trans (pageData_of hs1nbr))
    obtain ⟨p2, hp2get, hp2k, hp2r⟩ :=
      pageData_some ((hpd2 node.parent).trans (pageData_of hs1par))
    by_cases hc : (erasePairAt neighbor.keys 0).length > 0
    · rw [if_pos hc]
      refine ⟨nd, nb,
        { p2 with keys := p2.keys.set 1 ((erasePairAt neighbor.keys 0).getD 0 []) },
        ?_, hndk, hndr, ?_, hnbk, hnbr', ?_, ?_⟩
      · rw [getPage?_updatePage, if_neg hd2]
        exact hndget
      · rw [getPage?_updatePage, if_neg hd3]
        exact hnbget
      · rw [getPage?_updatePage, if_pos rfl, hp2get, Option.map_some']
      · show p2.keys.set 1 ((erasePairAt neighbor.keys 0).getD 0 []) = _
        rw [hp2k, if_pos hc]
    · rw [if_neg hc]
      refine ⟨nd, nb, p2, hndget, hndk, hndr, hnbget, hnbk, hnbr',
        hp2get, ?_⟩
      rw [hp2k, if_neg hc]
  · -- B1: left-sibling redistribute
    intro hpos
    have h0 : ¬ index = 0 := by omega
    simp only [IxState.redistribute, hnbrpage, hnode, IxNode.erase_pair]
    rw [if_neg h0]
    have hs1node : ((s.setPage nodeNo
        { node with
            keys := neighbor.keys.getD (neighbor.keys.length - 1) [] ::
              node.keys
            rids := neighbor.rids.getD (neighbor.keys.length - 1) default ::
              node.rids }
        ).setPage nbr
          { neighbor with
              keys := erasePairAt neighbor.keys (neighbor.keys.length - 1)
              rids := erasePairAt neighbor.rids (neighbor.keys.length - 1) }
        ).getPage? nodeNo =
        some { node with
            keys := neighbor.keys.getD (neighbor.keys.length - 1) [] ::
              node.keys
            rids := neighbor.rids.getD (neighbor.keys.length - 1) default ::
              node.rids } := by
      rw [getPage?_setPage, if_neg hd1, getPage?_setPage, if_pos rfl, hnode,
        Option.map_some']
    have hs1nbr : ((s.setPage nodeNo
        { node with
            keys := neighbor.keys.getD (neighbor.keys.length - 1) [] ::
              node.keys
            rids := neighbor.rids.getD (neighbor.keys.length - 1) default ::
              node.rids }
        ).setPage nbr
          { neighbor with
              keys := erasePairAt neighbor.keys (neighbor.keys.length - 1)
              rids := erasePairAt neighbor.rids (neighbor.keys.length - 1) }
        ).getPage? nbr =
        some { neighbor with
            keys := erasePairAt neighbor.keys (neighbor.keys.length - 1)
            rids := erasePairAt neighbor.rids (neighbor.keys.length - 1) } := by
      rw [getPage?_setPage, if_pos rfl, getPage?_setPage,
        if_neg (fun h => hd1 h.symm), hnbrpage, Option.map_some']
    have hs1par : ((s.setPage nodeNo
        { node with
            keys := neighbor.keys.getD (neighbor.keys.length - 1) [] ::
              node.keys
            rids := neighbor.rids.getD (neighbor.keys.length - 1) default ::
              node.rids }
        ).setPage nbr
          { neighbor with
              keys := erasePairAt neighbor.keys (neighbor.keys.length - 1)
              rids := erasePairAt neighbor.rids (neighbor.keys.length - 1) }
        ).getPage? node.parent = some parent := by
      rw [getPage?_setPage, if_neg (fun h => hd3 h.symm), getPage?_setPage,
        if_neg (fun h => hd2 h.symm), hparent]
    set s1 := (s.setPage nodeNo
        { node with
            keys := neighbor.keys.getD (neighbor.keys.length - 1) [] ::
              node.keys
            rids := neighbor.rids.getD (neighbor.keys.length - 1) default ::
              node.rids }
        ).setPage nbr
          { neighbor with
              keys := erasePairAt neighbor.keys (neighbor.keys.length - 1)
              rids := erasePairAt neighbor.rids (neighbor.keys.length - 1) }
      with hs1def
    have hpd2 : ∀ q, pageData (if ¬ node.is_leaf = true then
        s1.maintain_child nodeNo 0 else s1) q = pageData s1 q := by
      intro q
      by_cases hlf : ¬ node.is_leaf = true
      · rw [if_pos hlf, pageData_maintain_child]
      · rw [if_neg hlf]
    set s2 := if ¬ node.is_leaf = true then s1.maintain_child nodeNo 0
      else s1 with hs2def
    obtain ⟨nd, hndget, hndk, hndr⟩ :=
      pageData_some ((hpd2 nodeNo).trans (pageData_of hs1node))
    obtain ⟨nb, hnbget, hnbk, hnbr'⟩ :=
      pageData_some ((hpd2 nbr).trans (pageData_of hs1nbr))
    obtain ⟨p2, hp2get, hp2k, hp2r⟩ :=
      pageData_some ((hpd2 node.parent).trans (pageData_of hs1par))
    rw [if_pos (by simp)]
    refine ⟨nd, nb,
      { p2 with keys := p2.keys.set index (neighbor.keys.getD (neighbor.keys.length - 1) []) },
      ?_, hndk, hndr, ?_, hnbk, hnbr', ?_, ?_⟩
    · rw [getPage?_updatePage, if_neg hd2]
      exact hndget
    · rw [getPage?_updatePage, if_neg hd3]
      exact hnbget
    · rw [getPage?_updatePage, if_pos rfl, hp2get, Option.map_some']
      rfl
    · show p2.keys.set index
        (neighbor.keys.getD (neighbor.keys.length - 1) []) = _
      rw [hp2k]
  · -- C: coalesce
    have hcl : s.getPage? (coalLeft index nodeNo nbr) =
        some (if index = 0 then node else neighbor) := by
      unfold coalLeft
      by_cases h : index = 0
      · rw [if_pos h, if_pos h]
        exact hnode
      · rw [if_neg h, if_neg h]
        exact hnbrpage
    have hcr : s.getPage? (coalRight index nodeNo nbr) =
        some (if index = 0 then neighbor else node) := by
      unfold coalRight
      by_cases h : index = 0
      · rw [if_pos h, if_pos h]
        exact hnbrpage
      · rw [if_neg h, if_neg h]
        exact hnode
    have heq := coalesceWith_eq
      (fun s' n' => s'.coalesce_or_redistribute fuel n') s nbr nodeNo
      node.parent index _ _ hcl hcr
    have hLnp : coalLeft index nodeNo nbr ≠ node.parent := by
      unfold coalLeft
      by_cases h : index = 0
      · rw [if_pos h]
        exact hd2
      · rw [if_neg h]
        exact hd3
    have hS1par : (coalS1 s (coalLeft index nodeNo nbr)
        (if index = 0 then node else neighbor)
        (if index = 0 then neighbor else node)).getPage? node.parent =
        some parent := by
      rw [coalS1_getPage _ _ _ _ hcl, if_neg (fun h => hLnp h.symm)]
      exact hparent
    obtain ⟨p2, hp2get, hp2k, hp2r⟩ := pageData_some
      ((pageData_coalS2 s (coalLeft index nodeNo nbr)
          (coalRight index nodeNo nbr) _ _ node.parent).trans
        (pageData_of hS1par))
    have hS3par : (coalS3 s (coalLeft index nodeNo nbr)
        (coalRight index nodeNo nbr) node.parent (coalIdx index)
        (if index = 0 then node else neighbor)
        (if index = 0 then neighbor else node)).getPage? node.parent =
        some (p2.erase_pair (coalIdx index)) := by
      unfold coalS3
      rw [getPage?_updatePage, if_pos rfl, hp2get, Option.map_some']
    have hS1left : (coalS1 s (coalLeft index nodeNo nbr)
        (if index = 0 then node else neighbor)
        (if index = 0 then neighbor else node)).getPage?
          (coalLeft index nodeNo nbr) =
        some { (if index = 0 then node else neighbor) with
            keys := (if index = 0 then node else neighbor).keys ++
              (if index = 0 then neighbor else node).keys
            rids := (if index = 0 then node else neighbor).rids ++
              (if index = 0 then neighbor else node).rids } := by
      rw [coalS1_getPage _ _ _ _ hcl, if_pos rfl]
    have hS3left : pageData (coalS3 s (coalLeft index nodeNo nbr)
        (coalRight index nodeNo nbr) node.parent (coalIdx index)
        (if index = 0 then node else neighbor)
        (if index = 0 then neighbor else node)) (coalLeft index nodeNo nbr) =
        pageData (coalS2 s (coalLeft index nodeNo nbr)
          (coalRight index nodeNo nbr)
          (if index = 0 then node else neighbor)
          (if index = 0 then neighbor else node))
          (coalLeft index nodeNo nbr) := by
      unfold coalS3 pageData
      rw [getPage?_updatePage, if_neg hLnp]
    obtain ⟨lf, hlfget, hlfk, hlfr⟩ := pageData_some
      (hS3left.trans ((pageData_coalS2 s (coalLeft index nodeNo nbr)
          (coalRight index nodeNo nbr) _ _ (coalLeft index nodeNo nbr)).trans
        (pageData_of hS1left)))
    simp only [hS3par] at heq
    refine ⟨_, p2.erase_pair (coalIdx index), ⟨lf, ?_, ?_, ?_⟩, hS3par,
      ?_, ?_, heq⟩
    · exact hlfget
    · by_cases hidx : index = 0 <;> simp only [hidx, if_pos, if_neg] <;>
        simp [hidx] at hlfk <;> exact hlfk
    · by_cases hidx : index = 0 <;> simp only [hidx, if_pos, if_neg] <;>
        simp [hidx] at hlfr <;> exact hlfr
    · show erasePairAt p2.keys (coalIdx index) = _
      rw [hp2k]
      rfl
    · show erasePairAt p2.rids (coalIdx index) = _
      rw [hp2r]
      rfl

def ixC6Parent : IxNode :=
  { is_leaf := false, parent := -1, keys := [[1], [10]],
    rids := [⟨2, 0⟩, ⟨3, 0⟩], prev_leaf := 0, next_leaf := 0 }

def ixC6Neighbor : IxNode :=
  { is_leaf := true, parent := 5, keys := [[1], [2]],
    rids := [⟨1, 1⟩, ⟨1, 2⟩], prev_leaf := 1, next_leaf := 3 }

def ixC6Node : IxNode :=
  { is_leaf := true, parent := 5, keys := [[10]], rids := [⟨1, 10⟩],
    prev_leaf := 2, next_leaf := 1 }

def ixC6State : IxState :=
  { root_page := 5, first_leaf := 2, last_leaf := 3, num_pages := 6,
    btree_order := 3,
    pages := [(5, ixC6Parent), (2, ixC6Neighbor), (3, ixC6Node)],
    next_alloc := 6 }

theorem ix_coalesce_or_redistribute_policy_witness :
    (ixC6State.coalesce_or_redistribute (1 + 1) 3 =
      if ixC6Neighbor.keys.length + ixC6Node.keys.length ≥
          2 * ixC6State.minSize then
        some (ixC6State.redistribute 2 3 ixC6Node.parent 1, false)
      else
        IxState.coalesceWith
          (fun s' n' => s'.coalesce_or_redistribute 1 n')
          ixC6State 2 3 ixC6Node.parent 1) ∧
    ((1 : Nat) = 0 →
      ∃ nd nb pp,
        (ixC6State.redistribute 2 3 ixC6Node.parent 1).getPage? 3 =
          some nd ∧
        nd.keys = ixC6Node.keys ++ [ixC6Neighbor.keys.getD 0 []] ∧
        nd.rids = ixC6Node.rids ++ [ixC6Neighbor.rids.getD 0 default] ∧
        (ixC6State.redistribute 2 3 ixC6Node.parent 1).getPage? 2 =
          some nb ∧
        nb.keys = erasePairAt ixC6Neighbor.keys 0 ∧
        nb.rids = erasePairAt ixC6Neighbor.rids 0 ∧
        (ixC6State.redistribute 2 3 ixC6Node.parent 1).getPage?
          ixC6Node.parent = some pp ∧
        pp.keys = (if 0 < (erasePairAt ixC6Neighbor.keys 0).length then
            ixC6Parent.keys.set 1 ((erasePairAt ixC6Neighbor.keys 0).getD 0 [])
          else ixC6Parent.keys)) ∧
    ((0 : Nat) < 1 →
      ∃ nd nb pp,
        (ixC6State.redistribute 2 3 ixC6Node.parent 1).getPage? 3 =
          some nd ∧
        nd.keys = ixC6Neighbor.keys.getD (ixC6Neighbor.keys.length - 1) [] ::
          ixC6Node.keys ∧
        nd.rids = ixC6Neighbor.rids.getD (ixC6Neighbor.keys.length - 1)
          default :: ixC6Node.rids ∧
        (ixC6State.redistribute 2 3 ixC6Node.parent 1).getPage? 2 =
          some nb ∧
        nb.keys = erasePairAt ixC6Neighbor.keys
          (ixC6Neighbor.keys.length - 1) ∧
        nb.rids = erasePairAt ixC6Neighbor.rids
          (ixC6Neighbor.keys.length - 1) ∧
        (ixC6State.redistribute 2 3 ixC6Node.parent 1).getPage?
          ixC6Node.parent = some pp ∧
        pp.keys = ixC6Parent.keys.set 1
          (ixC6Neighbor.keys.getD (ixC6Neighbor.keys.length - 1) [])) ∧
    (∃ s3 pp3,
      (∃ lf, s3.getPage? (if (1 : Nat) = 0 then (3 : Int) else 2) = some lf ∧
        lf.keys = (if (1 : Nat) = 0 then ixC6Node.keys ++ ixC6Neighbor.keys
          else ixC6Neighbor.keys ++ ixC6Node.keys) ∧
        lf.rids = (if (1 : Nat) = 0 then ixC6Node.rids ++ ixC6Neighbor.rids
          else ixC6Neighbor.rids ++ ixC6Node.rids)) ∧
      s3.getPage? ixC6Node.parent = some pp3 ∧
      pp3.keys = erasePairAt ixC6Parent.keys
        (if (1 : Nat) = 0 then 1 else 1) ∧
      pp3.rids = erasePairAt ixC6Parent.rids
        (if (1 : Nat) = 0 then 1 else 1) ∧
      IxState.coalesceWith (fun s' n' => s'.coalesce_or_redistribute 1 n')
          ixC6State 2 3 ixC6Node.parent 1 =
        (if pp3.parent = invalidPageId then s3.adjust_root ixC6Node.parent
         else if pp3.keys.length < s3.minSize then
           s3.coalesce_or_redistribute 1 ixC6Node.parent
         else some (s3, false))) :=
  ix_coalesce_or_redistribute_policy ixC6State 1 3 2 1 ixC6Node ixC6Parent
    ixC6Neighbor (by decide) (by decide) (by decide) (by decide) (by decide)
    (by decide) (by decide) (by decide) (by decide) (by decide)

/-! ## Transaction abort (transaction_manager.cpp, full variant)

The spec adopts the blocking wait-die lock manager and the transaction
manager with index maintenance (`TransactionManager::abort`, lines 108-243).
Tables are heap files (`RmFile`); every index is a B+ tree (`IxState`)
together with its column metadata, from which the key bytes are built by
concatenating the indexed column slices of the record. Exceptions are
modelled as `none`. Lock release, latch-set clearing, and the log flush
(lines 218-239) touch only lock/log state, which is modelled separately in
the lock-manager section. -/

/-- Index column metadata: `(offset, len)` per indexed column. -/
structure IndexMeta where
  cols : List (Nat × Nat)
deriving Repr, DecidableEq

/-- Build the index key from a record: concatenate the column slices
(`memcpy(key + offset, record.data + col.offset, col.len)`). -/
def buildKey (m : IndexMeta) (rec : List Int) : List Int :=
  (m.cols.map (fun c => (rec.drop c.1).take c.2)).flatten

/-- A table: the heap file plus its indexes. -/
structure DbTable where
  fh : RmFile
  indexes : List (IndexMeta × IxState)

/-- `sm_manager_`'s view of the database: tables by name. -/
structure DbState where
  tables : List (String × DbTable)

def DbState.lookupTable (db : DbState) (name : String) : Option DbTable :=
  (db.tables.find? (fun e => e.1 == name)).map Prod.snd

def DbState.setTable (db : DbState) (name : String) (t : DbTable) : DbState :=
  { tables := db.tables.map (fun e => if e.1 == name then (e.1, t) else e) }

/-- `WType`. -/
inductive WType where
  | insertTuple
  | deleteTuple
  | updateTuple
deriving Repr, DecidableEq

/-- `WriteRecord`: the operation kind, table, rid and the saved record
(`GetRecord()`: the inserted record for INSERT, the pre-image for
DELETE/UPDATE). -/
structure WriteRecord where
  wtype : WType
  tab_name : String
  rid : Rid
  record : List Int
deriving Repr, DecidableEq

/-- A transaction as `abort` sees it: its state and its write set in
creation order (the back is the most recent write). -/
structure TxnC1 where
  state : TransactionState
  write_set : List WriteRecord

/-- Sequential fallible map (the per-index loops of `abort`; an exception
anywhere aborts the whole call). -/
def seqMap {α β : Type} (f : α → Option β) : List α → Option (List β)
  | [] => some []
  | a :: t => (f a).bind (fun b => (seqMap f t).map (fun bs => b :: bs))

/-- Undo one write-set entry (one iteration of the abort loop):
INSERT — delete the row's key from every index, then delete the heap
record; DELETE — re-insert the pre-image into the heap (obtaining a possibly
new rid), then insert its index entries; UPDATE — read the current
post-image, then per index delete the post-image key and insert the
pre-image key at the same rid, then write the pre-image back with
`update_record`. -/
def undoWrite (db : DbState) (fuel : Nat) (wr : WriteRecord) :
    Option DbState :=
  match db.lookupTable wr.tab_name with
  | none => none
  | some tab =>
    match wr.wtype with
    | .insertTuple =>
      match seqMap (fun ix =>
          (ix.2.delete_entry (buildKey ix.1 wr.record) fuel).map
            (fun r => (ix.1, r.1))) tab.indexes with
      | none => none
      | some idx' =>
        match (tab.fh.delete_record wr.rid).2.1 with
        | some _ => none
        | none => some (db.setTable wr.tab_name
            { fh := (tab.fh.delete_record wr.rid).1, indexes := idx' })
    | .deleteTuple =>
      match (tab.fh.insert_record wr.record).2.1 with
      | .error _ => none
      | .ok new_rid =>
        match seqMap (fun ix =>
            (ix.2.insert_entry (buildKey ix.1 wr.record) new_rid fuel).map
              (fun r => (ix.1, r.1))) tab.indexes with
        | none => none
        | some idx' => some (db.setTable wr.tab_name
            { fh := (tab.fh.insert_record wr.record).1, indexes := idx' })
    | .updateTuple =>
      match (tab.fh.get_record wr.rid).1 with
      | .error _ => none
      | .ok new_rec =>
        match seqMap (fun ix =>
            ((ix.2.delete_entry (buildKey ix.1 new_rec) fuel).map
              (fun r => (ix.1, r.1))).bind
              (fun ix' => (ix'.2.insert_entry (buildKey ix'.1 wr.record) wr.rid
                  fuel).map (fun r2 => (ix'.1, r2.1)))) tab.indexes with
        | none => none
        | some idx' =>
          match (tab.fh.update_record wr.rid wr.record).2.1 with
          | some _ => none
          | none => some (db.setTable wr.tab_name
              { fh := (tab.fh.update_record wr.rid wr.record).1,
                indexes := idx' })

/-- The abort loop: take the back entry, undo it, pop it, repeat. -/
def abortLoop (fuel : Nat) (db : DbState) (ws : List WriteRecord) :
    Option DbState :=
  if h : ws = [] then some db
  else
    match undoWrite db fuel (ws.getLast h) with
    | none => none
    | some db1 => abortLoop fuel db1 ws.dropLast
termination_by ws.length
decreasing_by
  simp only [List.length_dropLast]
  have := List.length_pos.mpr h
  omega

/-- `TransactionManager::abort`: run the undo loop over the write set from
the back, then (after releasing locks and flushing the log, modelled
elsewhere) mark the transaction `ABORTED` with an emptied write set. -/
def TMAbort (fuel : Nat) (db : DbState) (txn : TxnC1) :
    Option (DbState × TxnC1) :=
  match abortLoop fuel db txn.write_set with
  | none => none
  | some db' =>
    some (db', { txn with state := TransactionState.aborted, write_set := [] })

theorem seqMap_bind_split {α β γ : Type} (l : List α) (f : α → Option β)
    (g : β → Option γ) :
    seqMap (fun a => (f a).bind g) l =
      (seqMap f l).bind (fun bs => seqMap g bs) := by
  induction l with
  | nil => rfl
  | cons a t ih =>
    simp only [seqMap]
    cases hf : f a with
    | none => rfl
    | some b =>
      cases hg : g b with
      | none =>
        cases ht : seqMap f t with
        | none => simp [seqMap, hg]
        | some bs => simp [seqMap, hg]
      | some c =>
        cases ht : seqMap f t with
        | none => simp [ih, ht, seqMap, hg]
        | some bs =>
          cases hbs : seqMap g bs with
          | none => simp [ih, ht, seqMap, hg, hbs]
          | some cs => simp [ih, ht, seqMap, hg, hbs]

theorem abortLoop_eq_foldlM (fuel : Nat) (ws : List WriteRecord) :
    ∀ db : DbState,
      abortLoop fuel db ws =
        ws.reverse.foldlM (fun d w => undoWrite d fuel w) db := by
  induction ws using List.reverseRecOn with
  | nil =>
    intro db
    rw [abortLoop]
    rfl
  | append_singleton l a ih =>
    intro db
    rw [abortLoop]
    rw [dif_neg (by simp)]
    have hlast : (l ++ [a]).getLast (by simp) = a := by
      simp [List.getLast_append]
    have hdrop : (l ++ [a]).dropLast = l := by
      simp
    rw [List.reverse_append, List.reverse_singleton, List.singleton_append,
      List.foldlM_cons]
    rw [hlast, hdrop]
    cases hu : undoWrite db fuel a with
    | none => rfl
    | some db1 => exact ih db1

/-- **C1.** `abort` processes the write set in reverse creation order
(popping the back), undoing one entry at a time, and finishes with the
transaction in state `ABORTED` (write set emptied). Each kind is inverted
as the claim describes: INSERT deletes the row's key from every index and
then deletes the heap record at the recorded rid; DELETE re-inserts the
pre-image into the heap — at a possibly new rid — and then inserts its index
entries at that rid; UPDATE reads the current post-image, deletes the
post-image index entries, writes the pre-image back with `update_record` at
the same rid, and inserts the pre-image index entries (the code interleaves
each index's delete/insert pair and updates the heap last; the composition
is equal because distinct indexes and the heap are disjoint state). -/
theorem txn_abort_inverts_write_set (fuel : Nat) (db : DbState)
    (txn : TxnC1) :
    (TMAbort fuel db txn =
      (txn.write_set.reverse.foldlM (fun d w => undoWrite d fuel w) db).map
        (fun db' =>
          (db', { txn with
              state := TransactionState.aborted
              write_set := [] }))) ∧
    (∀ (d : DbState) (w : WriteRecord) (tab : DbTable),
      w.wtype = .insertTuple → d.lookupTable w.tab_name = some tab →
      undoWrite d fuel w =
        match seqMap (fun ix =>
            (ix.2.delete_entry (buildKey ix.1 w.record) fuel).map
              (fun r => (ix.1, r.1))) tab.indexes with
        | none => none
        | some idx' =>
          match (tab.fh.delete_record w.rid).2.1 with
          | some _ => none
          | none => some (d.setTable w.tab_name
              { fh := (tab.fh.delete_record w.rid).1, indexes := idx' })) ∧
    (∀ (d : DbState) (w : WriteRecord) (tab : DbTable),
      w.wtype = .deleteTuple → d.lookupTable w.tab_name = some tab →
      undoWrite d fuel w =
        match (tab.fh.insert_record w.record).2.1 with
        | .error _ => none
        | .ok new_rid =>
          match seqMap (fun ix =>
              (ix.2.insert_entry (buildKey ix.1 w.record) new_rid fuel).map
                (fun r => (ix.1, r.1))) tab.indexes with
          | none => none
          | some idx' => some (d.setTable w.tab_name
              { fh := (tab.fh.insert_record w.record).1, indexes := idx' })) ∧
    (∀ (d : DbState) (w : WriteRecord) (tab : DbTable),
      w.wtype = .updateTuple → d.lookupTable w.tab_name = some tab →
      undoWrite d fuel w =
        match (tab.fh.get_record w.rid).1 with
        | .error _ => none
        | .ok new_rec =>
          match seqMap (fun ix =>
              (ix.2.delete_entry (buildKey ix.1 new_rec) fuel).map
                (fun r => (ix.1, r.1))) tab.indexes with
          | none => none
          | some idx1 =>
            match (tab.fh.update_record w.rid w.record).2.1 with
            | some _ => none
            | none =>
              match seqMap (fun ix' =>
                  (ix'.2.insert_entry (buildKey ix'.1 w.record) w.rid
                    fuel).map (fun r2 => (ix'.1, r2.1))) idx1 with
              | none => none
              | some idx2 => some (d.setTable w.tab_name
                  { fh := (tab.fh.update_record w.rid w.record).1,
                    indexes := idx2 })) := by
  refine ⟨?_, ?_, ?_, ?_⟩
  · simp only [TMAbort, abortLoop_eq_foldlM]
    cases h : txn.write_set.reverse.foldlM (fun d w => undoWrite d fuel w)
        db with
    | none => rfl
    | some db' => rfl
  · intro d w tab hw ht
    simp only [undoWrite, ht, hw]
  · intro d w tab hw ht
    simp only [undoWrite, ht, hw]
  · intro d w tab hw ht
    simp only [undoWrite, ht, hw]
    cases hr : (tab.fh.get_record w.rid).1 with
    | error e => rfl
    | ok new_rec =>
      dsimp only
      rw [seqMap_bind_split tab.indexes
        (fun ix => (ix.2.delete_entry (buildKey ix.1 new_rec) fuel).map
          (fun r => (ix.1, r.1)))
        (fun ix' => (ix'.2.insert_entry (buildKey ix'.1 w.record) w.rid
          fuel).map (fun r2 => (ix'.1, r2.1)))]
      cases hm : seqMap (fun ix =>
          (ix.2.delete_entry (buildKey ix.1 new_rec) fuel).map
            (fun r => (ix.1, r.1))) tab.indexes with
      | none => rfl
      | some idx1 =>
        rw [Option.some_bind]
        dsimp only
        cases hg : seqMap (fun ix' =>
            (ix'.2.insert_entry (buildKey ix'.1 w.record) w.rid fuel).map
              (fun r2 => (ix'.1, r2.1))) idx1 with
        | none =>
          cases he : (tab.fh.update_record w.rid w.record).2.1 with
          | none => rfl
          | some e => rfl
        | some idx2 =>
          cases he : (tab.fh.update_record w.rid w.record).2.1 with
          | none => rfl
          | some e => rfl

def c1HeapPage : RmPage :=
  { hdr := { num_records := 1, next_free_page_no := -1 },
    bitmap := [true, false], slots := [[7], []] }

def c1File : RmFile :=
  { hdr := { record_size := 1, num_records_per_page := 2, num_pages := 2,
             first_free_page_no := 1 },
    pages := [(1, c1HeapPage)] }

def c1Index : IxState :=
  { root_page := 2, first_leaf := 2, last_leaf := 2, num_pages := 3,
    btree_order := 3,
    pages := [(2, { is_leaf := true, parent := -1, keys := [[7]],
                    rids := [⟨1, 0⟩], prev_leaf := 1, next_leaf := 1 })],
    next_alloc := 3 }

def c1Meta : IndexMeta := ⟨[(0, 1)]⟩

def c1Db : DbState :=
  ⟨[("t", { fh := c1File, indexes := [(c1Meta, c1Index)] })]⟩

def c1Txn : TxnC1 :=
  { state := .growing,
    write_set := [{ wtype := .insertTuple, tab_name := "t", rid := ⟨1, 0⟩,
                    record := [7] }] }

theorem txn_abort_inverts_write_set_witness :
    (TMAbort 2 c1Db c1Txn =
      (c1Txn.write_set.reverse.foldlM (fun d w => undoWrite d 2 w)
          c1Db).map
        (fun db' =>
          (db', { c1Txn with
              state := TransactionState.aborted
              write_set := [] }))) ∧
    (∀ (d : DbState) (w : WriteRecord) (tab : DbTable),
      w.wtype = .insertTuple → d.lookupTable w.tab_name = some tab →
      undoWrite d 2 w =
        match seqMap (fun ix =>
            (ix.2.delete_entry (buildKey ix.1 w.record) 2).map
              (fun r => (ix.1, r.1))) tab.indexes with
        | none => none
        | some idx' =>
          match (tab.fh.delete_record w.rid).2.1 with
          | some _ => none
          | none => some (d.setTable w.tab_name
              { fh := (tab.fh.delete_record w.rid).1, indexes := idx' })) ∧
    (∀ (d : DbState) (w : WriteRecord) (tab : DbTable),
      w.wtype = .deleteTuple → d.lookupTable w.tab_name = some tab →
      undoWrite d 2 w =
        match (tab.fh.insert_record w.record).2.1 with
        | .error _ => none
        | .ok new_rid =>
          match seqMap (fun ix =>
              (ix.2.insert_entry (buildKey ix.1 w.record) new_rid 2).map
                (fun r => (ix.1, r.1))) tab.indexes with
          | none => none
          | some idx' => some (d.setTable w.tab_name
              { fh := (tab.fh.insert_record w.record).1, indexes := idx' })) ∧
    (∀ (d : DbState) (w : WriteRecord) (tab : DbTable),
      w.wtype = .updateTuple → d.lookupTable w.tab_name = some tab →
      undoWrite d 2 w =
        match (tab.fh.get_record w.rid).1 with
        | .error _ => none
        | .ok new_rec =>
          match seqMap (fun ix =>
              (ix.2.delete_entry (buildKey ix.1 new_rec) 2).map
                (fun r => (ix.1, r.1))) tab.indexes with
          | none => none
          | some idx1 =>
            match (tab.fh.update_record w.rid w.record).2.1 with
            | some _ => none
            | none =>
              match seqMap (fun ix' =>
                  (ix'.2.insert_entry (buildKey ix'.1 w.record) w.rid
                    2).map (fun r2 => (ix'.1, r2.1))) idx1 with
              | none => none
              | some idx2 => some (d.setTable w.tab_name
                  { fh := (tab.fh.update_record w.rid w.record).1,
                    indexes := idx2 })) :=
  txn_abort_inverts_write_set 2 c1Db c1Txn

end RucBase
